import Mathlib

/-!
# Slice decoding orchestrator (`DecSlice::decompressSlice`)

A shallow embedding of `source/Lib/DecoderLib/DecSlice.cpp`, in the branch compiled with
`JVET_P1004_REMOVE_BRICKS` (CTU-in-slice addressing: the loop runs over the slice's own CTU
list).  The collaborators of the orchestrator (bitstream reader, CABAC reader, CU decoder,
coding structure) are not part of the file; they enter the model as the fields of `Env`,
arbitrary total functions on the state they own.  Every call the orchestrator makes is
recorded, in call order, in a trace of `Event`s.
-/

namespace DecSlice

/-! ## Data model -/

/-- Slice types of the codec. -/
inductive SliceType where
  | B_SLICE
  | P_SLICE
  | I_SLICE
  deriving DecidableEq, Repr

/-- The fields of the sequence parameter set the orchestrator reads. -/
structure SPS where
  /-- Value of `getMaxCUWidth()`: the CTU size in luma samples. -/
  maxCUWidth : Nat
  /-- Value of `getIBCFlag()`. -/
  ibcFlag : Bool

/-- The picture parameter set accessors the orchestrator calls, and the picture width in CTUs
(`cs.pcv->widthInCtus`, the `pcv` being the one of the PPS).  The accessors are not in the file,
so they are taken as they come. -/
structure PPS where
  entropyCodingSyncEnabledFlag : Bool
  widthInCtus : Nat
  ctuToTileCol : Nat → Nat
  ctuToTileRow : Nat → Nat
  tileColumnBd : Nat → Nat
  tileRowBd : Nat → Nat
  tileColumnWidth : Nat → Nat
  tileRowHeight : Nat → Nat
  tileIdx : Nat → Nat → Nat

/-- The slice descriptor: what `decompressSlice` reads from `Slice`. -/
structure Slice where
  sps : SPS
  pps : PPS
  sliceType : SliceType
  sliceQp : Int
  independentSliceIdx : Nat
  firstCtuRsAddrInSlice : Nat
  /-- The table behind `getNumberOfSubstreamSizes()` / `getSubstreamSize(idx)` (bytes). -/
  substreamSizes : List Nat
  /-- The table behind `getNumCtuInSlice()` / `getCtuAddrInSlice(ctuIdx)`. -/
  ctuAddrInSlice : List Nat

/-- Value of `Slice::isIntra()`. -/
def Slice.isIntra (slice : Slice) : Bool :=
  slice.sliceType == SliceType.I_SLICE

/-- Value of `getNumCtuInSlice()`. -/
def Slice.numCtuInSlice (slice : Slice) : Nat :=
  slice.ctuAddrInSlice.length

/-- Value of `getNumberOfSubstreamSizes()`. -/
def Slice.numberOfSubstreamSizes (slice : Slice) : Nat :=
  slice.substreamSizes.length

/-- Value of `std::numeric_limits<int>::max()`. -/
def INT_MAX : Int := 2 ^ 31 - 1

/-- Conversion of a 32-bit pattern to `int`. -/
def toInt32 (n : Nat) : Int :=
  if n % 2 ^ 32 < 2 ^ 31 then (n % 2 ^ 32 : Nat) else ((n % 2 ^ 32 : Nat) : Int) - 2 ^ 32

/-- Conversion of an `int` to `unsigned`, as the comparison `ctuRsAddr == debugCTU` does it. -/
def toUnsigned (z : Int) : Nat :=
  (z % 2 ^ 32).toNat

/-- The area handed to the parser and to the reconstruction: `Area(pos.x, pos.y, maxCUSize,
maxCUSize)` of the `UnitArea ctuArea`. -/
structure CtuArea where
  x : Int
  y : Int
  width : Nat
  height : Nat
  deriving DecidableEq, Repr

/-- The calls and writes of the orchestrator, as they are recorded in the trace. -/
inductive Event where
  /-- The call `cs.resetPrevPLT(cs.prevPLT)`. -/
  | resetPrevPLT
  /-- The three `resizeAlf...` calls of the first slice of a picture. -/
  | resizeAlf
  /-- The call `bitstream->extractSubstream(numBits)`. -/
  | extractSubstream (numBits : Nat)
  /-- The call `cabacReader.initBitstream(ppcSubstreams[subStrmId])`. -/
  | initBitstream (subStrmId : Nat)
  /-- The call `cabacReader.initCtxModels(*slice)`. -/
  | initCtxModels
  /-- The write `pic->m_prevQP[0] = pic->m_prevQP[1] = qp`. -/
  | setPrevQP (qp : Int)
  /-- The call `cs.getCURestricted(pos.offset(0,-1), pos, sliceIdx, tileIdx, CH_L)`, with the
  queried position, the current position and the answer (`true`: a CU was returned). -/
  | getCURestricted (x y curX curY : Int) (sliceIdx tileIdx : Nat) (available : Bool)
  /-- The write `cabacReader.getCtx() = m_entropyCodingSyncContextState`. -/
  | restoreCtx
  /-- The call `resetBcwCodingOrder(true, cs)`. -/
  | resetBcwCodingOrder
  /-- The writes `lut.resize(0)`, `lutIbc.resize(0)`, `resetIBCBuffer = true`. -/
  | resetMotionLut
  /-- The call `pic->mctsInfo.init(&cs, getCtuAddr(ctuArea.lumaPos(), *cs.pcv))`. -/
  | mctsInit (x y : Int)
  /-- The call `cabacReader.coding_tree_unit(cs, ctuArea, pic->m_prevQP, ctuRsAddr)`. -/
  | coding_tree_unit (ctuRsAddr : Nat)
  /-- The call `m_pcCuDecoder->decompressCtu(cs, ctuArea)`. -/
  | decompressCtu (ctuRsAddr : Nat)
  /-- The write `m_entropyCodingSyncContextState = cabacReader.getCtx()`. -/
  | saveCtx
  /-- The call `cabacReader.terminating_bit()`, with the value it returned. -/
  | terminating_bit (binVal : Nat)
  /-- The call `cabacReader.remaining_bytes(noTrailingBytesExpected)`. -/
  | remaining_bytes (noTrailingBytesExpected : Bool)
  /-- The `delete` of the substream at index `idx` of the table. -/
  | deleteSubstream (idx : Nat)
  deriving DecidableEq, Repr

/-- The fields of the coding structure (and of its picture) that the orchestrator writes itself,
next to everything else the collaborators own (`world`: the slice bitstream, the substreams, the
arithmetic decoder, the coded data of the picture). -/
structure CodingStructure (Plt Mv W : Type) where
  /-- The palette predictor `cs.prevPLT`. -/
  prevPLT : Plt
  /-- The history list `cs.motionLut.lut`. -/
  lut : List Mv
  /-- The history list `cs.motionLut.lutIbc`. -/
  lutIbc : List Mv
  /-- The flag `cs.resetIBCBuffer`. -/
  resetIBCBuffer : Bool
  world : W

/-- What a call of `coding_tree_unit` works on: the context models of the reader, the
previous-QP pair it is handed by reference, and the coding structure. -/
structure Engine (Ctx Plt Mv W : Type) where
  /-- The context state `cabacReader.getCtx()`. -/
  ctx : Ctx
  /-- The pair `pic->m_prevQP`. -/
  prevQP : Int × Int
  cs : CodingStructure Plt Mv W

/-- The state of a run of `decompressSlice`. -/
structure State (Ctx Sub Plt Mv W : Type) where
  eng : Engine Ctx Plt Mv W
  /-- The member `m_entropyCodingSyncContextState`. -/
  sync : Ctx
  /-- The local table `ppcSubstreams`. -/
  ppcSubstreams : List Sub
  /-- The local `subStrmId`. -/
  subStrmId : Nat
  /-- The calls made so far, oldest first. -/
  trace : List Event

/-- The collaborators.  Each is a total function on the part of the state its arguments let it
reach; which values they return is left open. -/
structure Env (Ctx Sub Plt Mv W : Type) where
  /-- The switch `DECODER_CHECK_SUBSTREAM_AND_SLICE_TRAILING_BYTES`. -/
  checkTrailingBytes : Bool
  /-- Lines 76-103: timer start, the pointers of the coding structure, `resizeSAO`. -/
  setupCodingStructure : Slice → W → W
  resetPrevPLT : Plt → Plt
  resizeAlf : W → W
  extractSubstream : Nat → W → Sub × W
  getNumBitsLeft : W → Nat
  initBitstream : Option Sub → W → W
  initCtxModels : Slice → W → Ctx × W
  getCURestricted : Int × Int → Int × Int → Nat → Nat → W → Bool
  resetBcwCodingOrder : W → W
  mctsInit : CtuArea → W → W
  coding_tree_unit : CtuArea → Nat → Engine Ctx Plt Mv W → Engine Ctx Plt Mv W
  decompressCtu : CtuArea → CodingStructure Plt Mv W → CodingStructure Plt Mv W
  terminating_bit : W → Nat × W
  remaining_bytes : Bool → W → W
  deleteSubstream : Sub → W → W
  stopProcessingTimer : W → W

variable {Ctx Sub Plt Mv W : Type}

/-- Record a call. -/
def State.emit (s : State Ctx Sub Plt Mv W) (e : Event) : State Ctx Sub Plt Mv W :=
  { s with trace := s.trace ++ [e] }

/-- Replace the part of the state owned by the collaborators. -/
def State.setWorld (s : State Ctx Sub Plt Mv W) (w : W) : State Ctx Sub Plt Mv W :=
  { s with eng := { s.eng with cs := { s.eng.cs with world := w } } }

/-- The part of the state owned by the collaborators. -/
def State.world (s : State Ctx Sub Plt Mv W) : W :=
  s.eng.cs.world

/-- Replace the context models of the reader. -/
def State.setCtx (s : State Ctx Sub Plt Mv W) (c : Ctx) : State Ctx Sub Plt Mv W :=
  { s with eng := { s.eng with ctx := c } }

/-! ## Geometry of a CTU (lines 162-187) -/

/-- The values computed at the head of the loop body for the CTU at slice index `ctuIdx`. -/
structure CtuGeom where
  ctuRsAddr : Nat
  ctuXPosInCtus : Nat
  ctuYPosInCtus : Nat
  tileXPosInCtus : Nat
  tileYPosInCtus : Nat
  tileColWidth : Nat
  tileRowHeight : Nat
  tileIdx : Nat
  maxCUSize : Nat
  posX : Int
  posY : Int
  deriving DecidableEq, Repr

/-- Lines 162-186. -/
def ctuGeom (slice : Slice) (ctuIdx : Nat) : CtuGeom :=
  let widthInCtus := slice.pps.widthInCtus
  let ctuRsAddr := slice.ctuAddrInSlice.getD ctuIdx 0
  let ctuXPosInCtus := ctuRsAddr % widthInCtus
  let ctuYPosInCtus := ctuRsAddr / widthInCtus
  let tileColIdx := slice.pps.ctuToTileCol ctuXPosInCtus
  let tileRowIdx := slice.pps.ctuToTileRow ctuYPosInCtus
  let maxCUSize := slice.sps.maxCUWidth
  { ctuRsAddr := ctuRsAddr
    ctuXPosInCtus := ctuXPosInCtus
    ctuYPosInCtus := ctuYPosInCtus
    tileXPosInCtus := slice.pps.tileColumnBd tileColIdx
    tileYPosInCtus := slice.pps.tileRowBd tileRowIdx
    tileColWidth := slice.pps.tileColumnWidth tileColIdx
    tileRowHeight := slice.pps.tileRowHeight tileRowIdx
    tileIdx := slice.pps.tileIdx ctuXPosInCtus ctuYPosInCtus
    maxCUSize := maxCUSize
    posX := toInt32 (ctuXPosInCtus * maxCUSize)
    posY := toInt32 (ctuYPosInCtus * maxCUSize) }

/-- Line 187. -/
def CtuGeom.ctuArea (g : CtuGeom) : CtuArea :=
  { x := g.posX, y := g.posY, width := g.maxCUSize, height := g.maxCUSize }

/-- Condition of line 195: the CTU is the first CTU of its tile. -/
def CtuGeom.atTileOrigin (g : CtuGeom) : Bool :=
  g.ctuXPosInCtus == g.tileXPosInCtus && g.ctuYPosInCtus == g.tileYPosInCtus

/-- The test `ctuXPosInCtus == tileXPosInCtus` of lines 209, 243 and 270. -/
def CtuGeom.atTileLeftEdge (g : CtuGeom) : Bool :=
  g.ctuXPosInCtus == g.tileXPosInCtus

/-- Condition of lines 294-295, for a given wavefront setting.  The four operands are
`unsigned`, so the two sums and the two successors wrap at 2^32. -/
def CtuGeom.endsSubstream (g : CtuGeom) (wavefrontsEnabled : Bool) : Bool :=
  (g.ctuXPosInCtus + 1) % 2 ^ 32 == (g.tileXPosInCtus + g.tileColWidth) % 2 ^ 32 &&
    ((g.ctuYPosInCtus + 1) % 2 ^ 32 == (g.tileYPosInCtus + g.tileRowHeight) % 2 ^ 32 ||
      wavefrontsEnabled)

/-- The `y` coordinate of `pos.offset(0, -1)` of line 222: the `int` sum `pos.y + (-1)`, which
wraps at the ends of the `int` range as the addition of the machine does. -/
def CtuGeom.aboveY (g : CtuGeom) : Int :=
  toInt32 (toUnsigned (g.posY - 1))

/-! ## The orchestrator -/

/-- Lines 123-126: the extraction loop, `idx` running up to `numSubstreams`; `fuel` is the
number of indices still to visit. -/
def extractSubstreams (env : Env Ctx Sub Plt Mv W) (slice : Slice) (numSubstreams : Nat) :
    Nat → Nat → State Ctx Sub Plt Mv W → State Ctx Sub Plt Mv W
  | 0, _, s => s
  | fuel + 1, idx, s =>
    let numBits :=
      if idx + 1 < numSubstreams then (slice.substreamSizes.getD idx 0 <<< 3) % 2 ^ 32
      else env.getNumBitsLeft s.world
    let r := env.extractSubstream numBits s.world
    let s1 := (s.setWorld r.2).emit (Event.extractSubstream numBits)
    extractSubstreams env slice numSubstreams fuel (idx + 1)
      { s1 with ppcSubstreams := s1.ppcSubstreams ++ [r.1] }

/-- The pair of calls `initCtxModels(*slice)`, `cs.resetPrevPLT(cs.prevPLT)` (lines 204-205 and
218-219). -/
def resetEntropy (env : Env Ctx Sub Plt Mv W) (slice : Slice) (s : State Ctx Sub Plt Mv W) :
    State Ctx Sub Plt Mv W :=
  let r := env.initCtxModels slice s.world
  let s1 := ((s.setWorld r.2).setCtx r.1).emit Event.initCtxModels
  let s2 : State Ctx Sub Plt Mv W :=
    { s1 with eng := { s1.eng with cs := { s1.eng.cs with
        prevPLT := env.resetPrevPLT s1.eng.cs.prevPLT } } }
  s2.emit Event.resetPrevPLT

/-- The write `pic->m_prevQP[0] = pic->m_prevQP[1] = slice->getSliceQp()`. -/
def setPrevQP (slice : Slice) (s : State Ctx Sub Plt Mv W) : State Ctx Sub Plt Mv W :=
  let s1 : State Ctx Sub Plt Mv W :=
    { s with eng := { s.eng with prevQP := (slice.sliceQp, slice.sliceQp) } }
  s1.emit (Event.setPrevQP slice.sliceQp)

/-- The answer of `cs.getCURestricted(pos.offset(0,-1), pos, sliceIdx, tileIdx, CH_L)` in the
state `s` (line 222). -/
def topAvailable (env : Env Ctx Sub Plt Mv W) (slice : Slice) (g : CtuGeom)
    (s : State Ctx Sub Plt Mv W) : Bool :=
  env.getCURestricted (g.posX, g.aboveY) (g.posX, g.posY) slice.independentSliceIdx
    g.tileIdx s.world

/-- Line 191: `cabacReader.initBitstream(ppcSubstreams[subStrmId])`.  The table lookup is kept
as it is, an index outside the table giving no substream. -/
def selectBitSource (env : Env Ctx Sub Plt Mv W) (s : State Ctx Sub Plt Mv W) :
    State Ctx Sub Plt Mv W :=
  (s.setWorld (env.initBitstream (s.ppcSubstreams.get? s.subStrmId) s.world)).emit
    (Event.initBitstream s.subStrmId)

/-- Lines 197-206 and 213-220: the contexts and the palette predictor are reset unless the
CTU is the first of the slice. -/
def resetUnlessFirst (env : Env Ctx Sub Plt Mv W) (slice : Slice) (ctuIdx : Nat)
    (s : State Ctx Sub Plt Mv W) : State Ctx Sub Plt Mv W :=
  if ctuIdx ≠ 0 then resetEntropy env slice s else s

/-- Lines 191-231: select the bit source and set up the contexts for the CTU. -/
def syncContexts (env : Env Ctx Sub Plt Mv W) (slice : Slice) (ctuIdx : Nat)
    (s : State Ctx Sub Plt Mv W) : State Ctx Sub Plt Mv W :=
  let g := ctuGeom slice ctuIdx
  let s1 := selectBitSource env s
  if g.atTileOrigin then
    let s2 := resetUnlessFirst env slice ctuIdx s1
    setPrevQP slice s2
  else if g.atTileLeftEdge && slice.pps.entropyCodingSyncEnabledFlag then
    let s2 := resetUnlessFirst env slice ctuIdx s1
    let available := topAvailable env slice g s2
    let s3 := s2.emit (Event.getCURestricted g.posX g.aboveY g.posX g.posY
      slice.independentSliceIdx g.tileIdx available)
    let s4 := if available then (s3.setCtx s3.sync).emit Event.restoreCtx else s3
    setPrevQP slice s4
  else s1

/-- Lines 234-253: the resets of the carried-over prediction state. -/
def resetCarryOver (env : Env Ctx Sub Plt Mv W) (slice : Slice) (ctuIdx : Nat)
    (s : State Ctx Sub Plt Mv W) : State Ctx Sub Plt Mv W :=
  let g := ctuGeom slice ctuIdx
  let updateBcwCodingOrder := slice.sliceType == SliceType.B_SLICE && ctuIdx == 0
  let s1 :=
    if updateBcwCodingOrder then
      (s.setWorld (env.resetBcwCodingOrder s.world)).emit Event.resetBcwCodingOrder
    else s
  let s2 :=
    if (slice.sliceType != SliceType.I_SLICE || slice.sps.ibcFlag) && g.atTileLeftEdge then
      let s1a : State Ctx Sub Plt Mv W :=
        { s1 with eng := { s1.eng with cs := { s1.eng.cs with
            lut := [], lutIbc := [], resetIBCBuffer := true } } }
      s1a.emit Event.resetMotionLut
    else s1
  if !slice.isIntra then
    (s2.setWorld (env.mctsInit g.ctuArea s2.world)).emit (Event.mctsInit g.posX g.posY)
  else s2

/-- Lines 263-273: parse the CTU, reconstruct it, and save the contexts after a CTU at the left
edge of its tile when wavefronts are enabled. -/
def parseAndReconstruct (env : Env Ctx Sub Plt Mv W) (slice : Slice) (ctuIdx : Nat)
    (s : State Ctx Sub Plt Mv W) : State Ctx Sub Plt Mv W :=
  let g := ctuGeom slice ctuIdx
  let s1 : State Ctx Sub Plt Mv W :=
    { s with eng := env.coding_tree_unit g.ctuArea g.ctuRsAddr s.eng }
  let s2 := s1.emit (Event.coding_tree_unit g.ctuRsAddr)
  let s3 : State Ctx Sub Plt Mv W :=
    { s2 with eng := { s2.eng with cs := env.decompressCtu g.ctuArea s2.eng.cs } }
  let s4 := s3.emit (Event.decompressCtu g.ctuRsAddr)
  if g.atTileLeftEdge && slice.pps.entropyCodingSyncEnabledFlag then
    ({ s4 with sync := s4.eng.ctx } : State Ctx Sub Plt Mv W).emit Event.saveCtx
  else s4

/-- How the body of the CTU loop ends. -/
inductive Step (α : Type) where
  /-- The body ran to its end; the loop goes on with the next index. -/
  | next (s : α)
  /-- The `break` of line 260. -/
  | stop (s : α)
  /-- Modelled from the spec: the macro `CHECK` is not in the file; a failing `CHECK` is "a
  fatal contract violation" that aborts the slice decode, so nothing after it is executed. -/
  | fatal (s : α)

/-- The state a step ends in. -/
def Step.state {α : Type} : Step α → α
  | Step.next s => s
  | Step.stop s => s
  | Step.fatal s => s

/-- The call `remaining_bytes` under `DECODER_CHECK_SUBSTREAM_AND_SLICE_TRAILING_BYTES`. -/
def remainingBytes (env : Env Ctx Sub Plt Mv W) (noTrailingBytesExpected : Bool)
    (s : State Ctx Sub Plt Mv W) : State Ctx Sub Plt Mv W :=
  if env.checkTrailingBytes then
    (s.setWorld (env.remaining_bytes noTrailingBytesExpected s.world)).emit
      (Event.remaining_bytes noTrailingBytesExpected)
  else s

/-- The value `cabacReader.terminating_bit()` returns in the state `s`. -/
def binValOf (env : Env Ctx Sub Plt Mv W) (s : State Ctx Sub Plt Mv W) : Nat :=
  (env.terminating_bit s.world).1

/-- The call `cabacReader.terminating_bit()`. -/
def readTerminatingBit (env : Env Ctx Sub Plt Mv W) (s : State Ctx Sub Plt Mv W) :
    State Ctx Sub Plt Mv W :=
  (s.setWorld (env.terminating_bit s.world).2).emit (Event.terminating_bit (binValOf env s))

/-- Lines 277-309: the end of the slice or of a substream. -/
def terminate (env : Env Ctx Sub Plt Mv W) (slice : Slice) (ctuIdx : Nat)
    (s : State Ctx Sub Plt Mv W) : Step (State Ctx Sub Plt Mv W) :=
  let g := ctuGeom slice ctuIdx
  if ctuIdx = slice.numCtuInSlice - 1 then
    let s1 := readTerminatingBit env s
    if binValOf env s = 0 then Step.fatal s1
    else Step.next (remainingBytes env false s1)
  else if g.endsSubstream slice.pps.entropyCodingSyncEnabledFlag then
    let s1 := readTerminatingBit env s
    if binValOf env s = 0 then Step.fatal s1
    else
      let s2 := remainingBytes env true s1
      Step.next { s2 with subStrmId := s2.subStrmId + 1 }
  else Step.next s

/-- The state handed to `coding_tree_unit` for the CTU at index `ctuIdx` when the loop body is
entered in state `s` (lines 191-253). -/
def beforeParse (env : Env Ctx Sub Plt Mv W) (slice : Slice) (ctuIdx : Nat)
    (s : State Ctx Sub Plt Mv W) : State Ctx Sub Plt Mv W :=
  resetCarryOver env slice ctuIdx (syncContexts env slice ctuIdx s)

/-- Lines 160-310: the body of the CTU loop. -/
def ctuBody (env : Env Ctx Sub Plt Mv W) (slice : Slice) (debugCTU : Int) (ctuIdx : Nat)
    (s : State Ctx Sub Plt Mv W) : Step (State Ctx Sub Plt Mv W) :=
  let s1 := beforeParse env slice ctuIdx s
  if (ctuGeom slice ctuIdx).ctuRsAddr = toUnsigned debugCTU then Step.stop s1
  else terminate env slice ctuIdx (parseAndReconstruct env slice ctuIdx s1)

/-- Lines 156-310: the CTU loop, entered at index `ctuIdx` with `fuel` indices left below
`getNumCtuInSlice()`. -/
def ctuLoop (env : Env Ctx Sub Plt Mv W) (slice : Slice) (debugCTU : Int) :
    Nat → Nat → State Ctx Sub Plt Mv W → Step (State Ctx Sub Plt Mv W)
  | 0, _, s => Step.next s
  | fuel + 1, ctuIdx, s =>
    match ctuBody env slice debugCTU ctuIdx s with
    | Step.next s1 => ctuLoop env slice debugCTU fuel (ctuIdx + 1) s1
    | Step.stop s1 => Step.stop s1
    | Step.fatal s1 => Step.fatal s1

/-- Lines 316-319: delete the substreams of the table, in table order, from index `idx` on. -/
def deleteSubstreams (env : Env Ctx Sub Plt Mv W) :
    List Sub → Nat → State Ctx Sub Plt Mv W → State Ctx Sub Plt Mv W
  | [], _, s => s
  | sub :: rest, idx, s =>
    deleteSubstreams env rest (idx + 1)
      ((s.setWorld (env.deleteSubstream sub s.world)).emit (Event.deleteSubstream idx))

/-- Lines 316-320. -/
def cleanup (env : Env Ctx Sub Plt Mv W) (s : State Ctx Sub Plt Mv W) : State Ctx Sub Plt Mv W :=
  let s1 := deleteSubstreams env s.ppcSubstreams 0 s
  s1.setWorld (env.stopProcessingTimer s1.world)

/-- Lines 76-126: set up the coding structure and extract the substreams.  The run starts from
the engine state `eng` and the value `sync` of `m_entropyCodingSyncContextState` left by
whatever ran before. -/
def demultiplex (env : Env Ctx Sub Plt Mv W) (slice : Slice) (eng : Engine Ctx Plt Mv W)
    (sync : Ctx) : State Ctx Sub Plt Mv W :=
  let s0 : State Ctx Sub Plt Mv W :=
    { eng := eng, sync := sync, ppcSubstreams := [], subStrmId := 0, trace := [] }
  let s1 := s0.setWorld (env.setupCodingStructure slice s0.world)
  let s2 : State Ctx Sub Plt Mv W :=
    { s1 with eng := { s1.eng with cs := { s1.eng.cs with
        prevPLT := env.resetPrevPLT s1.eng.cs.prevPLT } } }
  let s3 := s2.emit Event.resetPrevPLT
  let s4 :=
    if slice.firstCtuRsAddrInSlice = 0 then
      (s3.setWorld (env.resizeAlf s3.world)).emit Event.resizeAlf
    else s3
  let numSubstreams := slice.numberOfSubstreamSizes + 1
  extractSubstreams env slice numSubstreams numSubstreams 0 s4

/-- Lines 136-154: what follows the extraction and precedes the CTU loop.  The result is the
state in which the loop is entered. -/
def sliceEntry (env : Env Ctx Sub Plt Mv W) (slice : Slice) (eng : Engine Ctx Plt Mv W)
    (sync : Ctx) : State Ctx Sub Plt Mv W :=
  let s := demultiplex env slice eng sync
  let s1 := (s.setWorld (env.initBitstream (s.ppcSubstreams.get? 0) s.world)).emit
    (Event.initBitstream 0)
  let r := env.initCtxModels slice s1.world
  let s2 := ((s1.setWorld r.2).setCtx r.1).emit Event.initCtxModels
  let s3 := setPrevQP slice s2
  { s3 with subStrmId := 0 }

/-- How a call of `decompressSlice` ends. -/
inductive Outcome (α : Type) where
  /-- The function returned (after the loop ran out or was left by the `break`). -/
  | returned (s : α)
  /-- A `CHECK` failed; `s` is the state at that point. -/
  | fatal (s : α)

/-- The state a call ends in. -/
def Outcome.state {α : Type} : Outcome α → α
  | Outcome.returned s => s
  | Outcome.fatal s => s

/-- Whether the call ended in a failed `CHECK`. -/
def Outcome.isFatal {α : Type} : Outcome α → Bool
  | Outcome.returned _ => false
  | Outcome.fatal _ => true

/-- The function `DecSlice::decompressSlice(slice, bitstream, debugCTU)`. -/
def decompressSlice (env : Env Ctx Sub Plt Mv W) (slice : Slice) (debugCTU : Int)
    (eng : Engine Ctx Plt Mv W) (sync : Ctx) : Outcome (State Ctx Sub Plt Mv W) :=
  let s := sliceEntry env slice eng sync
  if s.eng.prevQP.1 = INT_MAX then Outcome.fatal s
  else
    match ctuLoop env slice debugCTU slice.numCtuInSlice 0 s with
    | Step.next s1 => Outcome.returned (cleanup env s1)
    | Step.stop s1 => Outcome.returned (cleanup env s1)
    | Step.fatal s1 => Outcome.fatal s1

/-! ## Observing a run -/

/-- The state in which the loop body is entered for the CTU at index `i` when the loop was
entered in state `s0`; `none` when the loop is left before (by the `break` or a failed
`CHECK`). -/
def loopState (env : Env Ctx Sub Plt Mv W) (slice : Slice) (debugCTU : Int)
    (s0 : State Ctx Sub Plt Mv W) (i : Nat) : Option (State Ctx Sub Plt Mv W) :=
  match ctuLoop env slice debugCTU i 0 s0 with
  | Step.next s => some s
  | Step.stop _ => none
  | Step.fatal _ => none

/-- The state in which a call of `decompressSlice` enters the loop body for the CTU at slice
index `i`; `none` when the call does not get that far. -/
def stateAt (env : Env Ctx Sub Plt Mv W) (slice : Slice) (debugCTU : Int)
    (eng : Engine Ctx Plt Mv W) (sync : Ctx) (i : Nat) : Option (State Ctx Sub Plt Mv W) :=
  if (sliceEntry env slice eng sync).eng.prevQP.1 = INT_MAX then none
  else loopState env slice debugCTU (sliceEntry env slice eng sync) i

/-- The state in which line 222 asks for the CTU above, the body being entered in `s`. -/
def queryState (env : Env Ctx Sub Plt Mv W) (slice : Slice) (ctuIdx : Nat)
    (s : State Ctx Sub Plt Mv W) : State Ctx Sub Plt Mv W :=
  resetUnlessFirst env slice ctuIdx (selectBitSource env s)

/-- The answer line 222 gets for the CTU at index `ctuIdx`, the body being entered in `s`. -/
def availableAt (env : Env Ctx Sub Plt Mv W) (slice : Slice) (ctuIdx : Nat)
    (s : State Ctx Sub Plt Mv W) : Bool :=
  topAvailable env slice (ctuGeom slice ctuIdx) (queryState env slice ctuIdx s)

/-- The engine state right after the call of `coding_tree_unit` for the CTU at index `ctuIdx`,
the body being entered in `s`. -/
def afterParse (env : Env Ctx Sub Plt Mv W) (slice : Slice) (ctuIdx : Nat)
    (s : State Ctx Sub Plt Mv W) : Engine Ctx Plt Mv W :=
  env.coding_tree_unit (ctuGeom slice ctuIdx).ctuArea (ctuGeom slice ctuIdx).ctuRsAddr
    (beforeParse env slice ctuIdx s).eng

/-- The value the terminating bit read after the CTU at index `ctuIdx` returns, the body being
entered in `s`. -/
def binValAt (env : Env Ctx Sub Plt Mv W) (slice : Slice) (ctuIdx : Nat)
    (s : State Ctx Sub Plt Mv W) : Nat :=
  binValOf env (parseAndReconstruct env slice ctuIdx (beforeParse env slice ctuIdx s))

/-- Whether a terminating bit is read after the CTU at index `ctuIdx` (lines 277 and 294). -/
def readsTerminatingBit (slice : Slice) (ctuIdx : Nat) : Bool :=
  ctuIdx == slice.numCtuInSlice - 1 ||
    (ctuGeom slice ctuIdx).endsSubstream slice.pps.entropyCodingSyncEnabledFlag

/-- Whether the substream index is advanced after the CTU at index `ctuIdx` (line 308). -/
def advancesSubstream (slice : Slice) (ctuIdx : Nat) : Bool :=
  ctuIdx != slice.numCtuInSlice - 1 &&
    (ctuGeom slice ctuIdx).endsSubstream slice.pps.entropyCodingSyncEnabledFlag

/-! ### The events of each part of the body -/

/-- The events of `resetUnlessFirst`. -/
def resetUnlessFirstEvents (ctuIdx : Nat) : List Event :=
  if ctuIdx ≠ 0 then [Event.initCtxModels, Event.resetPrevPLT] else []

/-- The events of `syncContexts`, given the substream index and the answer of line 222. -/
def syncEvents (slice : Slice) (ctuIdx subStrmId : Nat) (available : Bool) : List Event :=
  let g := ctuGeom slice ctuIdx
  Event.initBitstream subStrmId ::
    (if g.atTileOrigin then
      resetUnlessFirstEvents ctuIdx ++ [Event.setPrevQP slice.sliceQp]
    else if g.atTileLeftEdge && slice.pps.entropyCodingSyncEnabledFlag then
      resetUnlessFirstEvents ctuIdx ++
        [Event.getCURestricted g.posX g.aboveY g.posX g.posY slice.independentSliceIdx
          g.tileIdx available] ++
        (if available then [Event.restoreCtx] else []) ++ [Event.setPrevQP slice.sliceQp]
    else [])

/-- The events of `resetCarryOver`. -/
def carryOverEvents (slice : Slice) (ctuIdx : Nat) : List Event :=
  let g := ctuGeom slice ctuIdx
  (if slice.sliceType == SliceType.B_SLICE && ctuIdx == 0 then [Event.resetBcwCodingOrder]
    else []) ++
  (if (slice.sliceType != SliceType.I_SLICE || slice.sps.ibcFlag) && g.atTileLeftEdge then
    [Event.resetMotionLut] else []) ++
  (if !slice.isIntra then [Event.mctsInit g.posX g.posY] else [])

/-- The events of `parseAndReconstruct`. -/
def parseEvents (slice : Slice) (ctuIdx : Nat) : List Event :=
  let g := ctuGeom slice ctuIdx
  [Event.coding_tree_unit g.ctuRsAddr, Event.decompressCtu g.ctuRsAddr] ++
  (if g.atTileLeftEdge && slice.pps.entropyCodingSyncEnabledFlag then [Event.saveCtx] else [])

/-- The events of `terminate`, given the switch for the trailing-bytes check and the value of
the terminating bit. -/
def terminateEvents (checkTrailingBytes : Bool) (slice : Slice) (ctuIdx binVal : Nat) :
    List Event :=
  if readsTerminatingBit slice ctuIdx then
    Event.terminating_bit binVal ::
      (if binVal ≠ 0 && checkTrailingBytes then
        [Event.remaining_bytes (ctuIdx != slice.numCtuInSlice - 1)] else [])
  else []

/-- The events of one run of the loop body. -/
def bodyEvents (env : Env Ctx Sub Plt Mv W) (slice : Slice) (debugCTU : Int) (ctuIdx : Nat)
    (s : State Ctx Sub Plt Mv W) : List Event :=
  syncEvents slice ctuIdx s.subStrmId (availableAt env slice ctuIdx s) ++
    carryOverEvents slice ctuIdx ++
    (if (ctuGeom slice ctuIdx).ctuRsAddr = toUnsigned debugCTU then []
      else parseEvents slice ctuIdx ++
        terminateEvents env.checkTrailingBytes slice ctuIdx (binValAt env slice ctuIdx s))

/-- The events of the first `m` rounds of the loop entered in `s0` (rounds that are not reached
contribute nothing). -/
def runEvents (env : Env Ctx Sub Plt Mv W) (slice : Slice) (debugCTU : Int)
    (s0 : State Ctx Sub Plt Mv W) : Nat → List Event
  | 0 => []
  | m + 1 =>
    runEvents env slice debugCTU s0 m ++
      (match loopState env slice debugCTU s0 m with
        | some s => bodyEvents env slice debugCTU m s
        | none => [])

/-- The events the body of the CTU loop can produce: all but the extraction and the release of
substreams and the resizing done for the first slice of a picture. -/
def Event.inLoop : Event → Bool
  | Event.extractSubstream _ => false
  | Event.deleteSubstream _ => false
  | Event.resizeAlf => false
  | _ => true

/-- The events of the clean-up of a table of `n` substreams. -/
def deleteEvents (n : Nat) : List Event :=
  (List.range n).map Event.deleteSubstream

/-! ### Substream extraction -/

/-- The bit counts of the extractions recorded in a trace, in call order. -/
def extractRequests (tr : List Event) : List Nat :=
  tr.filterMap fun e =>
    match e with
    | Event.extractSubstream numBits => some numBits
    | _ => none

/-- The state of the collaborators after the extractions of the given bit counts, in turn. -/
def afterExtractions (env : Env Ctx Sub Plt Mv W) : List Nat → W → W
  | [], w => w
  | numBits :: rest, w => afterExtractions env rest (env.extractSubstream numBits w).2

/-- The state of the collaborators when the extraction loop is entered (line 123), the call
having started in `w`. -/
def worldAtExtraction (env : Env Ctx Sub Plt Mv W) (slice : Slice) (w : W) : W :=
  if slice.firstCtuRsAddrInSlice = 0 then env.resizeAlf (env.setupCodingStructure slice w)
  else env.setupCodingStructure slice w

/-! ### Calls of the parser and of the reconstruction -/

/-- The calls a trace is read for when the parse and reconstruction of CTUs are followed. -/
inductive Call where
  /-- A call of `coding_tree_unit` for the CTU at the given raster address. -/
  | parse (ctuRsAddr : Nat)
  /-- A call of `decompressCtu` for the CTU at the given raster address. -/
  | reconstruct (ctuRsAddr : Nat)
  /-- A call of `terminating_bit`. -/
  | terminatingBit
  deriving DecidableEq, Repr

/-- The call an event stands for, if it is one of the three. -/
def callOf : Event → Option Call
  | Event.coding_tree_unit ctuRsAddr => some (Call.parse ctuRsAddr)
  | Event.decompressCtu ctuRsAddr => some (Call.reconstruct ctuRsAddr)
  | Event.terminating_bit _ => some Call.terminatingBit
  | _ => none

/-- The parse, reconstruction and terminating-bit calls of a trace, in call order. -/
def calls (tr : List Event) : List Call :=
  tr.filterMap callOf

/-- The least slice index whose CTU address is the debug target, or the number of CTUs of the
slice if there is none. -/
def debugIndex (slice : Slice) (debugCTU : Int) : Nat :=
  slice.ctuAddrInSlice.findIdx fun (c : Nat) => decide ((c : Int) = debugCTU)

/-- The calls of a decode that parses the CTUs at the slice indices below `j`: each CTU is
parsed, then reconstructed, then followed by the read of a terminating bit if it is the last CTU
of the slice or ends a substream. -/
def expectedCalls (slice : Slice) (j : Nat) : List Call :=
  (List.range j).flatMap fun i =>
    [Call.parse (slice.ctuAddrInSlice.getD i 0),
      Call.reconstruct (slice.ctuAddrInSlice.getD i 0)] ++
      (if readsTerminatingBit slice i then [Call.terminatingBit] else [])

/-- Every parse in the trace is directly followed by the reconstruction of the same CTU, and
there is no reconstruction without a parse directly before it. -/
def parseThenReconstruct : List Event → Bool
  | [] => true
  | Event.coding_tree_unit a :: Event.decompressCtu b :: rest =>
    a == b && parseThenReconstruct rest
  | Event.coding_tree_unit _ :: _ => false
  | Event.decompressCtu _ :: _ => false
  | _ :: rest => parseThenReconstruct rest

/-- Whether an event is a call of the parser or of the reconstruction. -/
def Event.isCtuCall : Event → Bool
  | Event.coding_tree_unit _ => true
  | Event.decompressCtu _ => true
  | _ => false

/-- The table indices of the substreams released in a trace, in call order. -/
def releases (tr : List Event) : List Nat :=
  tr.filterMap fun e =>
    match e with
    | Event.deleteSubstream idx => some idx
    | _ => none

/-! ### The control skeleton of a decode -/

/-- The events that show where a decode selects its bit source, initialises the contexts,
parses a CTU and reads a terminating bit. -/
def Event.isControl : Event → Bool
  | Event.initBitstream _ => true
  | Event.initCtxModels => true
  | Event.coding_tree_unit _ => true
  | Event.terminating_bit _ => true
  | _ => false

/-- The control events of a trace, in call order. -/
def controlTrace (tr : List Event) : List Event :=
  tr.filter Event.isControl

/-- The control events of the round of the loop for the CTU at index `i`, entered with the
substream index `subStrmId`, when the CTU is parsed and the terminating bit read, if any, is
`binVal`. -/
def controlEvents (slice : Slice) (i subStrmId binVal : Nat) : List Event :=
  controlTrace (syncEvents slice i subStrmId false ++ parseEvents slice i ++
    terminateEvents false slice i binVal)

/-- The substream index the CTU at index `i` is entered with in a decode that gets that far:
the number of earlier CTUs after which the index is advanced. -/
def subStrmIdAt (slice : Slice) (i : Nat) : Nat :=
  ((List.range i).filter (advancesSubstream slice)).length

/-- The control events of a decode that parses every CTU of the slice and reads every
terminating bit as `binVal`. -/
def controlSkeleton (slice : Slice) (binVal : Nat) : List Event :=
  [Event.initBitstream 0, Event.initCtxModels] ++
    (List.range slice.numCtuInSlice).flatMap fun i =>
      controlEvents slice i (subStrmIdAt slice i) binVal

/-! ### Runs that differ in the saved contexts -/

/-- The state `s` with the member `m_entropyCodingSyncContextState` holding `c`. -/
def State.withSync (s : State Ctx Sub Plt Mv W) (c : Ctx) : State Ctx Sub Plt Mv W :=
  { s with sync := c }

/-- Two states that agree on everything but, possibly, the member
`m_entropyCodingSyncContextState`: same engine state (contexts, previous QP, coding structure),
same substream table and index, same calls made. -/
def State.sameButSync (s t : State Ctx Sub Plt Mv W) : Prop :=
  s.eng = t.eng ∧ s.ppcSubstreams = t.ppcSubstreams ∧ s.subStrmId = t.subStrmId ∧
    s.trace = t.trace

/-- Apply a function to the state a step ends in. -/
def Step.map {α β : Type} (f : α → β) : Step α → Step β
  | Step.next s => Step.next (f s)
  | Step.stop s => Step.stop (f s)
  | Step.fatal s => Step.fatal (f s)

/-- Line 228 is executed for the CTU at index `i`, the body being entered in `s`. -/
def restoresAt (env : Env Ctx Sub Plt Mv W) (slice : Slice) (i : Nat)
    (s : State Ctx Sub Plt Mv W) : Bool :=
  !(ctuGeom slice i).atTileOrigin &&
    ((ctuGeom slice i).atTileLeftEdge && slice.pps.entropyCodingSyncEnabledFlag) &&
    availableAt env slice i s

/-! ### The events of one round of the loop -/

/-- The events the round of the loop for the CTU at index `i` adds to the trace, the body being
entered in `s`. -/
def roundEvents (env : Env Ctx Sub Plt Mv W) (slice : Slice) (debugCTU : Int) (i : Nat)
    (s : State Ctx Sub Plt Mv W) : List Event :=
  (ctuBody env slice debugCTU i s).state.trace.drop s.trace.length

/-- Whether the CTU at index `i` is one for which lines 197-206 or 213-220 reset the contexts
and the palette predictor: not the first of the slice, and a tile origin or (wavefronts enabled)
at the left edge of its tile. -/
def resetsContexts (slice : Slice) (i : Nat) : Bool :=
  i != 0 && ((ctuGeom slice i).atTileOrigin ||
    ((ctuGeom slice i).atTileLeftEdge && slice.pps.entropyCodingSyncEnabledFlag))

/-- Whether lines 243-248 clear the motion history for the CTU at index `i`. -/
def clearsMotionHistory (slice : Slice) (i : Nat) : Bool :=
  (slice.sliceType != SliceType.I_SLICE || slice.sps.ibcFlag) && (ctuGeom slice i).atTileLeftEdge

/-- Whether an event is a parse of a CTU or a write of the saved contexts. -/
def Event.isParseOrSave : Event → Bool
  | Event.coding_tree_unit _ => true
  | Event.saveCtx => true
  | _ => false

/-- The parses and the writes of the saved contexts of a decode that parses every CTU of the
slice. -/
def saveSkeleton (slice : Slice) : List Event :=
  (List.range slice.numCtuInSlice).flatMap fun i =>
    Event.coding_tree_unit (ctuGeom slice i).ctuRsAddr ::
      (if (ctuGeom slice i).atTileLeftEdge && slice.pps.entropyCodingSyncEnabledFlag then
        [Event.saveCtx] else [])

/-- Whether an event is an initialisation of the contexts or a reset of the palette
predictor. -/
def Event.isReset : Event → Bool
  | Event.initCtxModels => true
  | Event.resetPrevPLT => true
  | _ => false

/-- The fields of the coding structure that the orchestrator writes itself: the palette
predictor, the two history lists and the flag `resetIBCBuffer`. -/
def CodingStructure.ownFields (cs : CodingStructure Plt Mv W) :
    Plt × List Mv × List Mv × Bool :=
  (cs.prevPLT, cs.lut, cs.lutIbc, cs.resetIBCBuffer)

/-! ### Order of the CTUs of a slice -/

/-- The CTU list of the slice is in tile-raster order: tile after tile, and in raster order
inside each tile. -/
def TileRasterOrder (slice : Slice) : Prop :=
  ∀ b, b < slice.numCtuInSlice → ∀ a, a < b →
    (ctuGeom slice a).tileIdx < (ctuGeom slice b).tileIdx ∨
      ((ctuGeom slice a).tileIdx = (ctuGeom slice b).tileIdx ∧
        ((ctuGeom slice a).ctuYPosInCtus < (ctuGeom slice b).ctuYPosInCtus ∨
          ((ctuGeom slice a).ctuYPosInCtus = (ctuGeom slice b).ctuYPosInCtus ∧
            (ctuGeom slice a).ctuXPosInCtus < (ctuGeom slice b).ctuXPosInCtus)))

instance (slice : Slice) : Decidable (TileRasterOrder slice) := by
  unfold TileRasterOrder
  infer_instance

/-- The tables of the PPS agree on the CTUs of the slice: CTUs with the same tile index have
the same tile column boundary. -/
def TileIdxConsistent (slice : Slice) : Prop :=
  ∀ b, b < slice.numCtuInSlice → ∀ a, a < b →
    (ctuGeom slice a).tileIdx = (ctuGeom slice b).tileIdx →
      (ctuGeom slice a).tileXPosInCtus = (ctuGeom slice b).tileXPosInCtus

instance (slice : Slice) : Decidable (TileIdxConsistent slice) := by
  unfold TileIdxConsistent
  infer_instance

/-- The CTU at index `j` is the one directly above the CTU at index `i`, in the same tile. -/
def IsAbove (slice : Slice) (j i : Nat) : Prop :=
  (ctuGeom slice j).ctuXPosInCtus = (ctuGeom slice i).ctuXPosInCtus ∧
    (ctuGeom slice j).ctuYPosInCtus + 1 = (ctuGeom slice i).ctuYPosInCtus ∧
    (ctuGeom slice j).tileIdx = (ctuGeom slice i).tileIdx

instance (slice : Slice) (j i : Nat) : Decidable (IsAbove slice j i) := by
  unfold IsAbove
  infer_instance

/-- Whenever line 222 finds the CTU above available, that CTU is an earlier CTU of the same
slice, in the same tile. -/
def AboveIsEarlier (env : Env Ctx Sub Plt Mv W) (slice : Slice) (debugCTU : Int)
    (eng : Engine Ctx Plt Mv W) (sync : Ctx) : Prop :=
  ∀ i s, i < slice.numCtuInSlice → stateAt env slice debugCTU eng sync i = some s →
    (ctuGeom slice i).atTileLeftEdge = true → (ctuGeom slice i).atTileOrigin = false →
    availableAt env slice i s = true → ∃ j, j < i ∧ IsAbove slice j i

/-- Modelled from the spec: `CodingStructure::getCURestricted`, the availability predicate of
line 222, is not in the source.  The spec (4.4, step 4) has the CTU above available only "under
the coding-order restriction predicate (same slice segment, same tile, permitted channel)": in a
call that starts with the member `m_entropyCodingSyncContextState` holding `sync`, a yes of
line 222 means that the CTU above is an earlier CTU of the same slice, in the same tile. -/
def AvailabilityAsSpecified (env : Env Ctx Sub Plt Mv W) (slice : Slice) (debugCTU : Int)
    (eng : Engine Ctx Plt Mv W) (sync : Ctx) : Prop :=
  AboveIsEarlier env slice debugCTU eng sync

/-! ## Concrete inputs -/

/-- A picture cut into tiles of equal size: `tileW` by `tileH` CTUs each, `numTileCols` tiles
side by side, the picture being `widthInCtus` CTUs wide. -/
def uniformTiles (wavefronts : Bool) (widthInCtus tileW tileH numTileCols : Nat) : PPS :=
  { entropyCodingSyncEnabledFlag := wavefronts
    widthInCtus := widthInCtus
    ctuToTileCol := fun x => x / tileW
    ctuToTileRow := fun y => y / tileH
    tileColumnBd := fun c => c * tileW
    tileRowBd := fun r => r * tileH
    tileColumnWidth := fun _ => tileW
    tileRowHeight := fun _ => tileH
    tileIdx := fun x y => y / tileH * numTileCols + x / tileW }

/-- A small set of collaborators to run the model on: the state of the collaborators is the
number of bits left in the slice bitstream, a substream is its length in bits, the parser
changes contexts and previous QP in a way that depends on the CTU, every terminating bit read
returns `binVal`, and every availability query is answered `available`. -/
def toyEnv (binVal : Nat) (available : Bool) : Env Nat Nat Nat Nat Nat :=
  { checkTrailingBytes := true
    setupCodingStructure := fun _ w => w
    resetPrevPLT := fun _ => 0
    resizeAlf := fun w => w
    extractSubstream := fun numBits w => (numBits, w - numBits)
    getNumBitsLeft := fun w => w
    initBitstream := fun _ w => w
    initCtxModels := fun slice w => (100 + slice.sliceQp.toNat, w)
    getCURestricted := fun _ _ _ _ _ => available
    resetBcwCodingOrder := fun w => w
    mctsInit := fun _ w => w
    coding_tree_unit := fun _ ctuRsAddr e =>
      { e with ctx := 2 * e.ctx + ctuRsAddr + 1, prevQP := (e.prevQP.2, e.prevQP.2 + 1) }
    decompressCtu := fun _ cs => { cs with lut := cs.lut ++ [cs.prevPLT] }
    terminating_bit := fun w => (binVal, w)
    remaining_bytes := fun _ w => w
    deleteSubstream := fun _ w => w
    stopProcessingTimer := fun w => w }

/-- An engine state to start a call from: 200 bits in the slice bitstream. -/
def toyEngine : Engine Nat Nat Nat Nat :=
  { ctx := 7
    prevQP := (30, 31)
    cs := { prevPLT := 5, lut := [1], lutIbc := [2], resetIBCBuffer := false, world := 200 } }

/-- A picture of 3 by 2 CTUs of 128 by 128 samples in one tile, decoded as one B slice whose
header declares the given substream sizes. -/
def rowsSlice (wavefronts : Bool) (sizes : List Nat) : Slice :=
  { sps := { maxCUWidth := 128, ibcFlag := false }
    pps := uniformTiles wavefronts 3 3 2 1
    sliceType := SliceType.B_SLICE
    sliceQp := 32
    independentSliceIdx := 0
    firstCtuRsAddrInSlice := 0
    substreamSizes := sizes
    ctuAddrInSlice := [0, 1, 2, 3, 4, 5] }

/-- The state in which the slice of two rows (wavefronts enabled, one declared substream size)
enters the loop body for its CTU at index `i`, with the collaborators `toyEnv 1 true`. -/
def rowsStateAt (i : Nat) : State Nat Nat Nat Nat Nat :=
  (ctuLoop (toyEnv 1 true) (rowsSlice true [4]) (-1) i 0
    (sliceEntry (toyEnv 1 true) (rowsSlice true [4]) toyEngine 0)).state

/-- A picture one CTU wide and four CTUs high in one tile, wavefronts enabled, with a CTU size
of 2^31 samples, decoded as one B slice: the `unsigned` product `ctuYPosInCtus * maxCUSize`
wraps from the third row on. -/
def wideCtuSlice : Slice :=
  { sps := { maxCUWidth := 2147483648, ibcFlag := false }
    pps := uniformTiles true 1 1 4 1
    sliceType := SliceType.B_SLICE
    sliceQp := 32
    independentSliceIdx := 0
    firstCtuRsAddrInSlice := 0
    substreamSizes := [4, 4, 4]
    ctuAddrInSlice := [0, 1, 2, 3] }

/-- The state in which `wideCtuSlice` enters the loop body for its CTU at index `i`, with the
collaborators `toyEnv 1 true`. -/
def wideCtuStateAt (i : Nat) : State Nat Nat Nat Nat Nat :=
  (ctuLoop (toyEnv 1 true) wideCtuSlice (-1) i 0
    (sliceEntry (toyEnv 1 true) wideCtuSlice toyEngine 0)).state

/-- A slice of one CTU whose raster address is the largest `unsigned`, 2^32 - 1 (the picture is
3 CTUs wide, one tile, wavefronts enabled). -/
def lastAddrSlice : Slice :=
  { rowsSlice true [] with ctuAddrInSlice := [4294967295] }

/-! ## Theorems -/

section Basic

variable (env : Env Ctx Sub Plt Mv W) (slice : Slice) (debugCTU : Int)

@[simp] theorem emit_eng (s : State Ctx Sub Plt Mv W) (e : Event) : (s.emit e).eng = s.eng := rfl
@[simp] theorem emit_sync (s : State Ctx Sub Plt Mv W) (e : Event) :
    (s.emit e).sync = s.sync := rfl
@[simp] theorem emit_ppcSubstreams (s : State Ctx Sub Plt Mv W) (e : Event) :
    (s.emit e).ppcSubstreams = s.ppcSubstreams := rfl
@[simp] theorem emit_subStrmId (s : State Ctx Sub Plt Mv W) (e : Event) :
    (s.emit e).subStrmId = s.subStrmId := rfl
@[simp] theorem emit_trace (s : State Ctx Sub Plt Mv W) (e : Event) :
    (s.emit e).trace = s.trace ++ [e] := rfl
@[simp] theorem emit_world (s : State Ctx Sub Plt Mv W) (e : Event) :
    (s.emit e).world = s.world := rfl

@[simp] theorem setWorld_ctx (s : State Ctx Sub Plt Mv W) (w : W) :
    (s.setWorld w).eng.ctx = s.eng.ctx := rfl
@[simp] theorem setWorld_prevQP (s : State Ctx Sub Plt Mv W) (w : W) :
    (s.setWorld w).eng.prevQP = s.eng.prevQP := rfl
@[simp] theorem setWorld_prevPLT (s : State Ctx Sub Plt Mv W) (w : W) :
    (s.setWorld w).eng.cs.prevPLT = s.eng.cs.prevPLT := rfl
@[simp] theorem setWorld_lut (s : State Ctx Sub Plt Mv W) (w : W) :
    (s.setWorld w).eng.cs.lut = s.eng.cs.lut := rfl
@[simp] theorem setWorld_lutIbc (s : State Ctx Sub Plt Mv W) (w : W) :
    (s.setWorld w).eng.cs.lutIbc = s.eng.cs.lutIbc := rfl
@[simp] theorem setWorld_resetIBCBuffer (s : State Ctx Sub Plt Mv W) (w : W) :
    (s.setWorld w).eng.cs.resetIBCBuffer = s.eng.cs.resetIBCBuffer := rfl
@[simp] theorem setWorld_world (s : State Ctx Sub Plt Mv W) (w : W) :
    (s.setWorld w).world = w := rfl
@[simp] theorem setWorld_sync (s : State Ctx Sub Plt Mv W) (w : W) :
    (s.setWorld w).sync = s.sync := rfl
@[simp] theorem setWorld_ppcSubstreams (s : State Ctx Sub Plt Mv W) (w : W) :
    (s.setWorld w).ppcSubstreams = s.ppcSubstreams := rfl
@[simp] theorem setWorld_subStrmId (s : State Ctx Sub Plt Mv W) (w : W) :
    (s.setWorld w).subStrmId = s.subStrmId := rfl
@[simp] theorem setWorld_trace (s : State Ctx Sub Plt Mv W) (w : W) :
    (s.setWorld w).trace = s.trace := rfl

@[simp] theorem setCtx_ctx (s : State Ctx Sub Plt Mv W) (c : Ctx) :
    (s.setCtx c).eng.ctx = c := rfl
@[simp] theorem setCtx_prevQP (s : State Ctx Sub Plt Mv W) (c : Ctx) :
    (s.setCtx c).eng.prevQP = s.eng.prevQP := rfl
@[simp] theorem setCtx_cs (s : State Ctx Sub Plt Mv W) (c : Ctx) :
    (s.setCtx c).eng.cs = s.eng.cs := rfl
@[simp] theorem setCtx_world (s : State Ctx Sub Plt Mv W) (c : Ctx) :
    (s.setCtx c).world = s.world := rfl
@[simp] theorem setCtx_sync (s : State Ctx Sub Plt Mv W) (c : Ctx) :
    (s.setCtx c).sync = s.sync := rfl
@[simp] theorem setCtx_ppcSubstreams (s : State Ctx Sub Plt Mv W) (c : Ctx) :
    (s.setCtx c).ppcSubstreams = s.ppcSubstreams := rfl
@[simp] theorem setCtx_subStrmId (s : State Ctx Sub Plt Mv W) (c : Ctx) :
    (s.setCtx c).subStrmId = s.subStrmId := rfl
@[simp] theorem setCtx_trace (s : State Ctx Sub Plt Mv W) (c : Ctx) :
    (s.setCtx c).trace = s.trace := rfl

end Basic

section Phases

variable (env : Env Ctx Sub Plt Mv W) (slice : Slice) (debugCTU : Int)

/-! ### Local variables of the loop are untouched by the first three parts of the body -/

@[simp] theorem selectBitSource_trace (s : State Ctx Sub Plt Mv W) :
    (selectBitSource env s).trace = s.trace ++ [Event.initBitstream s.subStrmId] := rfl
@[simp] theorem selectBitSource_subStrmId (s : State Ctx Sub Plt Mv W) :
    (selectBitSource env s).subStrmId = s.subStrmId := rfl
@[simp] theorem selectBitSource_sync (s : State Ctx Sub Plt Mv W) :
    (selectBitSource env s).sync = s.sync := rfl
@[simp] theorem selectBitSource_ppcSubstreams (s : State Ctx Sub Plt Mv W) :
    (selectBitSource env s).ppcSubstreams = s.ppcSubstreams := rfl
@[simp] theorem selectBitSource_ctx (s : State Ctx Sub Plt Mv W) :
    (selectBitSource env s).eng.ctx = s.eng.ctx := rfl
@[simp] theorem selectBitSource_prevQP (s : State Ctx Sub Plt Mv W) :
    (selectBitSource env s).eng.prevQP = s.eng.prevQP := rfl

@[simp] theorem resetEntropy_trace (s : State Ctx Sub Plt Mv W) :
    (resetEntropy env slice s).trace = s.trace ++ [Event.initCtxModels, Event.resetPrevPLT] := by
  simp [resetEntropy]
@[simp] theorem resetEntropy_subStrmId (s : State Ctx Sub Plt Mv W) :
    (resetEntropy env slice s).subStrmId = s.subStrmId := rfl
@[simp] theorem resetEntropy_sync (s : State Ctx Sub Plt Mv W) :
    (resetEntropy env slice s).sync = s.sync := rfl
@[simp] theorem resetEntropy_ppcSubstreams (s : State Ctx Sub Plt Mv W) :
    (resetEntropy env slice s).ppcSubstreams = s.ppcSubstreams := rfl
@[simp] theorem resetEntropy_ctx (s : State Ctx Sub Plt Mv W) :
    (resetEntropy env slice s).eng.ctx = (env.initCtxModels slice s.world).1 := rfl
@[simp] theorem resetEntropy_prevQP (s : State Ctx Sub Plt Mv W) :
    (resetEntropy env slice s).eng.prevQP = s.eng.prevQP := rfl

@[simp] theorem resetUnlessFirst_trace (i : Nat) (s : State Ctx Sub Plt Mv W) :
    (resetUnlessFirst env slice i s).trace = s.trace ++ resetUnlessFirstEvents i := by
  unfold resetUnlessFirst resetUnlessFirstEvents
  split <;> simp
@[simp] theorem resetUnlessFirst_subStrmId (i : Nat) (s : State Ctx Sub Plt Mv W) :
    (resetUnlessFirst env slice i s).subStrmId = s.subStrmId := by
  unfold resetUnlessFirst
  split <;> rfl
@[simp] theorem resetUnlessFirst_sync (i : Nat) (s : State Ctx Sub Plt Mv W) :
    (resetUnlessFirst env slice i s).sync = s.sync := by
  unfold resetUnlessFirst
  split <;> rfl
@[simp] theorem resetUnlessFirst_ppcSubstreams (i : Nat) (s : State Ctx Sub Plt Mv W) :
    (resetUnlessFirst env slice i s).ppcSubstreams = s.ppcSubstreams := by
  unfold resetUnlessFirst
  split <;> rfl
@[simp] theorem resetUnlessFirst_prevQP (i : Nat) (s : State Ctx Sub Plt Mv W) :
    (resetUnlessFirst env slice i s).eng.prevQP = s.eng.prevQP := by
  unfold resetUnlessFirst
  split <;> rfl

@[simp] theorem setPrevQP_trace (s : State Ctx Sub Plt Mv W) :
    (setPrevQP slice s).trace = s.trace ++ [Event.setPrevQP slice.sliceQp] := rfl
@[simp] theorem setPrevQP_subStrmId (s : State Ctx Sub Plt Mv W) :
    (setPrevQP slice s).subStrmId = s.subStrmId := rfl
@[simp] theorem setPrevQP_sync (s : State Ctx Sub Plt Mv W) :
    (setPrevQP slice s).sync = s.sync := rfl
@[simp] theorem setPrevQP_ppcSubstreams (s : State Ctx Sub Plt Mv W) :
    (setPrevQP slice s).ppcSubstreams = s.ppcSubstreams := rfl
@[simp] theorem setPrevQP_ctx (s : State Ctx Sub Plt Mv W) :
    (setPrevQP slice s).eng.ctx = s.eng.ctx := rfl
@[simp] theorem setPrevQP_prevQP (s : State Ctx Sub Plt Mv W) :
    (setPrevQP slice s).eng.prevQP = (slice.sliceQp, slice.sliceQp) := rfl

theorem syncContexts_trace (i : Nat) (s : State Ctx Sub Plt Mv W) :
    (syncContexts env slice i s).trace =
      s.trace ++ syncEvents slice i s.subStrmId (availableAt env slice i s) := by
  unfold syncContexts syncEvents availableAt queryState
  by_cases h1 : (ctuGeom slice i).atTileOrigin = true
  · simp [h1]
  · by_cases h2 : ((ctuGeom slice i).atTileLeftEdge && slice.pps.entropyCodingSyncEnabledFlag) = true
    · simp only [h1, h2, if_true, if_false]
      generalize topAvailable env slice (ctuGeom slice i) _ = av
      cases av <;> simp
    · simp [h1, h2]

@[simp] theorem syncContexts_subStrmId (i : Nat) (s : State Ctx Sub Plt Mv W) :
    (syncContexts env slice i s).subStrmId = s.subStrmId := by
  unfold syncContexts
  simp only []
  split
  · simp
  · split
    · split <;> simp
    · simp

@[simp] theorem syncContexts_sync (i : Nat) (s : State Ctx Sub Plt Mv W) :
    (syncContexts env slice i s).sync = s.sync := by
  unfold syncContexts
  simp only []
  split
  · simp
  · split
    · split <;> simp
    · simp

@[simp] theorem syncContexts_ppcSubstreams (i : Nat) (s : State Ctx Sub Plt Mv W) :
    (syncContexts env slice i s).ppcSubstreams = s.ppcSubstreams := by
  unfold syncContexts
  simp only []
  split
  · simp
  · split
    · split <;> simp
    · simp

theorem resetCarryOver_trace (i : Nat) (s : State Ctx Sub Plt Mv W) :
    (resetCarryOver env slice i s).trace = s.trace ++ carryOverEvents slice i := by
  unfold resetCarryOver carryOverEvents
  simp only []
  split <;> split <;> split <;> simp

@[simp] theorem resetCarryOver_subStrmId (i : Nat) (s : State Ctx Sub Plt Mv W) :
    (resetCarryOver env slice i s).subStrmId = s.subStrmId := by
  unfold resetCarryOver
  simp only []
  split <;> split <;> split <;> simp

@[simp] theorem resetCarryOver_sync (i : Nat) (s : State Ctx Sub Plt Mv W) :
    (resetCarryOver env slice i s).sync = s.sync := by
  unfold resetCarryOver
  simp only []
  split <;> split <;> split <;> simp

@[simp] theorem resetCarryOver_ppcSubstreams (i : Nat) (s : State Ctx Sub Plt Mv W) :
    (resetCarryOver env slice i s).ppcSubstreams = s.ppcSubstreams := by
  unfold resetCarryOver
  simp only []
  split <;> split <;> split <;> simp

@[simp] theorem resetCarryOver_ctx (i : Nat) (s : State Ctx Sub Plt Mv W) :
    (resetCarryOver env slice i s).eng.ctx = s.eng.ctx := by
  unfold resetCarryOver
  simp only []
  split <;> split <;> split <;> simp

@[simp] theorem resetCarryOver_prevQP (i : Nat) (s : State Ctx Sub Plt Mv W) :
    (resetCarryOver env slice i s).eng.prevQP = s.eng.prevQP := by
  unfold resetCarryOver
  simp only []
  split <;> split <;> split <;> simp

end Phases

section Phases2

variable (env : Env Ctx Sub Plt Mv W) (slice : Slice) (debugCTU : Int)

theorem parseAndReconstruct_trace (i : Nat) (s : State Ctx Sub Plt Mv W) :
    (parseAndReconstruct env slice i s).trace = s.trace ++ parseEvents slice i := by
  unfold parseAndReconstruct parseEvents
  simp only []
  split <;> simp

@[simp] theorem parseAndReconstruct_subStrmId (i : Nat) (s : State Ctx Sub Plt Mv W) :
    (parseAndReconstruct env slice i s).subStrmId = s.subStrmId := by
  unfold parseAndReconstruct
  simp only []
  split <;> simp

@[simp] theorem parseAndReconstruct_ppcSubstreams (i : Nat) (s : State Ctx Sub Plt Mv W) :
    (parseAndReconstruct env slice i s).ppcSubstreams = s.ppcSubstreams := by
  unfold parseAndReconstruct
  simp only []
  split <;> simp

@[simp] theorem parseAndReconstruct_ctx (i : Nat) (s : State Ctx Sub Plt Mv W) :
    (parseAndReconstruct env slice i s).eng.ctx =
      (env.coding_tree_unit (ctuGeom slice i).ctuArea (ctuGeom slice i).ctuRsAddr s.eng).ctx := by
  unfold parseAndReconstruct
  simp only []
  split <;> simp

@[simp] theorem parseAndReconstruct_prevQP (i : Nat) (s : State Ctx Sub Plt Mv W) :
    (parseAndReconstruct env slice i s).eng.prevQP =
      (env.coding_tree_unit (ctuGeom slice i).ctuArea (ctuGeom slice i).ctuRsAddr
        s.eng).prevQP := by
  unfold parseAndReconstruct
  simp only []
  split <;> simp

theorem parseAndReconstruct_sync (i : Nat) (s : State Ctx Sub Plt Mv W) :
    (parseAndReconstruct env slice i s).sync =
      if (ctuGeom slice i).atTileLeftEdge && slice.pps.entropyCodingSyncEnabledFlag then
        (env.coding_tree_unit (ctuGeom slice i).ctuArea (ctuGeom slice i).ctuRsAddr s.eng).ctx
      else s.sync := by
  unfold parseAndReconstruct
  simp only []
  split <;> simp

@[simp] theorem remainingBytes_subStrmId (b : Bool) (s : State Ctx Sub Plt Mv W) :
    (remainingBytes env b s).subStrmId = s.subStrmId := by
  unfold remainingBytes
  split <;> simp
@[simp] theorem remainingBytes_sync (b : Bool) (s : State Ctx Sub Plt Mv W) :
    (remainingBytes env b s).sync = s.sync := by
  unfold remainingBytes
  split <;> simp
@[simp] theorem remainingBytes_ppcSubstreams (b : Bool) (s : State Ctx Sub Plt Mv W) :
    (remainingBytes env b s).ppcSubstreams = s.ppcSubstreams := by
  unfold remainingBytes
  split <;> simp
@[simp] theorem remainingBytes_ctx (b : Bool) (s : State Ctx Sub Plt Mv W) :
    (remainingBytes env b s).eng.ctx = s.eng.ctx := by
  unfold remainingBytes
  split <;> simp
@[simp] theorem remainingBytes_prevQP (b : Bool) (s : State Ctx Sub Plt Mv W) :
    (remainingBytes env b s).eng.prevQP = s.eng.prevQP := by
  unfold remainingBytes
  split <;> simp
theorem remainingBytes_trace (b : Bool) (s : State Ctx Sub Plt Mv W) :
    (remainingBytes env b s).trace =
      s.trace ++ (if env.checkTrailingBytes then [Event.remaining_bytes b] else []) := by
  unfold remainingBytes
  split <;> simp

@[simp] theorem readTerminatingBit_subStrmId (s : State Ctx Sub Plt Mv W) :
    (readTerminatingBit env s).subStrmId = s.subStrmId := rfl
@[simp] theorem readTerminatingBit_sync (s : State Ctx Sub Plt Mv W) :
    (readTerminatingBit env s).sync = s.sync := rfl
@[simp] theorem readTerminatingBit_ppcSubstreams (s : State Ctx Sub Plt Mv W) :
    (readTerminatingBit env s).ppcSubstreams = s.ppcSubstreams := rfl
@[simp] theorem readTerminatingBit_ctx (s : State Ctx Sub Plt Mv W) :
    (readTerminatingBit env s).eng.ctx = s.eng.ctx := rfl
@[simp] theorem readTerminatingBit_prevQP (s : State Ctx Sub Plt Mv W) :
    (readTerminatingBit env s).eng.prevQP = s.eng.prevQP := rfl
@[simp] theorem readTerminatingBit_trace (s : State Ctx Sub Plt Mv W) :
    (readTerminatingBit env s).trace = s.trace ++ [Event.terminating_bit (binValOf env s)] := rfl

/-- What `terminate` does, case by case. -/
theorem terminate_eq (i : Nat) (s : State Ctx Sub Plt Mv W) :
    terminate env slice i s =
      if readsTerminatingBit slice i then
        if binValOf env s = 0 then Step.fatal (readTerminatingBit env s)
        else if advancesSubstream slice i then
          Step.next { remainingBytes env true (readTerminatingBit env s) with
            subStrmId := s.subStrmId + 1 }
        else Step.next (remainingBytes env false (readTerminatingBit env s))
      else Step.next s := by
  unfold terminate readsTerminatingBit advancesSubstream
  by_cases h1 : i = slice.numCtuInSlice - 1
  · simp [h1]
  · by_cases h2 : (ctuGeom slice i).endsSubstream slice.pps.entropyCodingSyncEnabledFlag = true
    · simp [h1, h2]
    · simp [h1, h2]

theorem terminate_trace (i : Nat) (s : State Ctx Sub Plt Mv W) :
    (terminate env slice i s).state.trace =
      s.trace ++ terminateEvents env.checkTrailingBytes slice i (binValOf env s) := by
  unfold terminate terminateEvents readsTerminatingBit
  by_cases h1 : i = slice.numCtuInSlice - 1
  · have hb : (i == slice.numCtuInSlice - 1) = true := by simpa using h1
    have hn : (i != slice.numCtuInSlice - 1) = false := by simp [bne, hb]
    simp only [if_pos h1, hb, hn, Bool.true_or, if_true]
    by_cases h2 : binValOf env s = 0
    · simp [h2, Step.state]
    · simp only [if_neg h2, Step.state, remainingBytes_trace, readTerminatingBit_trace]
      cases env.checkTrailingBytes <;> simp [h2]
  · have hb : (i == slice.numCtuInSlice - 1) = false := by simpa using h1
    have hn : (i != slice.numCtuInSlice - 1) = true := by simp [bne, hb]
    simp only [if_neg h1, hb, hn, Bool.false_or]
    by_cases h3 : (ctuGeom slice i).endsSubstream slice.pps.entropyCodingSyncEnabledFlag = true
    · simp only [h3, if_true]
      by_cases h2 : binValOf env s = 0
      · simp [h2, Step.state]
      · simp only [if_neg h2, Step.state, remainingBytes_trace, readTerminatingBit_trace]
        cases env.checkTrailingBytes <;> simp [h2]
    · simp [h3, Step.state]

theorem terminate_ppcSubstreams (i : Nat) (s : State Ctx Sub Plt Mv W) :
    (terminate env slice i s).state.ppcSubstreams = s.ppcSubstreams := by
  rw [terminate_eq]
  split
  · split
    · rfl
    · split <;> simp [Step.state]
  · rfl

theorem terminate_sync (i : Nat) (s : State Ctx Sub Plt Mv W) :
    (terminate env slice i s).state.sync = s.sync := by
  rw [terminate_eq]
  split
  · split
    · rfl
    · split <;> simp [Step.state]
  · rfl

theorem terminate_ctx (i : Nat) (s : State Ctx Sub Plt Mv W) :
    (terminate env slice i s).state.eng.ctx = s.eng.ctx := by
  rw [terminate_eq]
  split
  · split
    · rfl
    · split <;> simp [Step.state]
  · rfl

theorem terminate_prevQP (i : Nat) (s : State Ctx Sub Plt Mv W) :
    (terminate env slice i s).state.eng.prevQP = s.eng.prevQP := by
  rw [terminate_eq]
  split
  · split
    · rfl
    · split <;> simp [Step.state]
  · rfl

/-- The substream index after `terminate`: advanced by one exactly when the step goes on and the
CTU ends a substream without being the last of the slice. -/
theorem terminate_subStrmId (i : Nat) (s : State Ctx Sub Plt Mv W) :
    (terminate env slice i s).state.subStrmId =
      if advancesSubstream slice i && decide (binValOf env s ≠ 0) then s.subStrmId + 1
      else s.subStrmId := by
  rw [terminate_eq]
  by_cases h1 : readsTerminatingBit slice i = true
  · by_cases h2 : binValOf env s = 0
    · simp [h1, h2, Step.state]
    · by_cases h3 : advancesSubstream slice i = true
      · simp [h1, h2, h3, Step.state]
      · simp [h1, h2, h3, Step.state]
  · have h3 : advancesSubstream slice i = false := by
      unfold advancesSubstream
      unfold readsTerminatingBit at h1
      simp at h1
      simp [h1.2]
    simp [h1, h3, Step.state]

/-- The step `terminate` is fatal exactly when a terminating bit is read and is 0. -/
theorem terminate_fatal_iff (i : Nat) (s t : State Ctx Sub Plt Mv W) :
    terminate env slice i s = Step.fatal t ↔
      readsTerminatingBit slice i = true ∧ binValOf env s = 0 ∧ t = readTerminatingBit env s := by
  rw [terminate_eq]
  by_cases h1 : readsTerminatingBit slice i = true
  · by_cases h2 : binValOf env s = 0
    · simp [h1, h2, eq_comm]
    · simp [h1, h2]
      split <;> simp
  · simp [h1]

theorem terminate_ne_stop (i : Nat) (s t : State Ctx Sub Plt Mv W) :
    terminate env slice i s ≠ Step.stop t := by
  rw [terminate_eq]
  split
  · split
    · simp
    · split <;> simp
  · simp

end Phases2

section Body

variable (env : Env Ctx Sub Plt Mv W) (slice : Slice) (debugCTU : Int)

@[simp] theorem beforeParse_subStrmId (i : Nat) (s : State Ctx Sub Plt Mv W) :
    (beforeParse env slice i s).subStrmId = s.subStrmId := by
  simp [beforeParse]
@[simp] theorem beforeParse_sync (i : Nat) (s : State Ctx Sub Plt Mv W) :
    (beforeParse env slice i s).sync = s.sync := by
  simp [beforeParse]
@[simp] theorem beforeParse_ppcSubstreams (i : Nat) (s : State Ctx Sub Plt Mv W) :
    (beforeParse env slice i s).ppcSubstreams = s.ppcSubstreams := by
  simp [beforeParse]
theorem beforeParse_trace (i : Nat) (s : State Ctx Sub Plt Mv W) :
    (beforeParse env slice i s).trace =
      s.trace ++ (syncEvents slice i s.subStrmId (availableAt env slice i s) ++
        carryOverEvents slice i) := by
  simp [beforeParse, resetCarryOver_trace, syncContexts_trace]

/-- The body stops exactly at the debug target, before the CTU is parsed. -/
theorem ctuBody_stop_iff (i : Nat) (s t : State Ctx Sub Plt Mv W) :
    ctuBody env slice debugCTU i s = Step.stop t ↔
      (ctuGeom slice i).ctuRsAddr = toUnsigned debugCTU ∧ t = beforeParse env slice i s := by
  unfold ctuBody
  by_cases h : (ctuGeom slice i).ctuRsAddr = toUnsigned debugCTU
  · simp [h, eq_comm]
  · simp [h, terminate_ne_stop]

/-- The body fails exactly when the terminating bit it reads is 0. -/
theorem ctuBody_fatal_iff (i : Nat) (s t : State Ctx Sub Plt Mv W) :
    ctuBody env slice debugCTU i s = Step.fatal t ↔
      (ctuGeom slice i).ctuRsAddr ≠ toUnsigned debugCTU ∧ readsTerminatingBit slice i = true ∧
        binValAt env slice i s = 0 ∧
        t = readTerminatingBit env
          (parseAndReconstruct env slice i (beforeParse env slice i s)) := by
  unfold ctuBody binValAt
  by_cases h : (ctuGeom slice i).ctuRsAddr = toUnsigned debugCTU
  · simp [h]
  · simp [h, terminate_fatal_iff]

/-- When the loop goes on after the body, the debug target was not hit and no terminating bit
read was 0. -/
theorem ctuBody_next (i : Nat) (s t : State Ctx Sub Plt Mv W)
    (h : ctuBody env slice debugCTU i s = Step.next t) :
    (ctuGeom slice i).ctuRsAddr ≠ toUnsigned debugCTU ∧
      (readsTerminatingBit slice i = true → binValAt env slice i s ≠ 0) := by
  unfold ctuBody at h
  by_cases hd : (ctuGeom slice i).ctuRsAddr = toUnsigned debugCTU
  · simp [hd] at h
  · refine ⟨hd, fun hr hb => ?_⟩
    simp only [hd, if_false] at h
    rw [terminate_eq] at h
    unfold binValAt at hb
    simp [hr, hb] at h

theorem ctuBody_trace (i : Nat) (s : State Ctx Sub Plt Mv W) :
    (ctuBody env slice debugCTU i s).state.trace =
      s.trace ++ bodyEvents env slice debugCTU i s := by
  unfold ctuBody bodyEvents binValAt
  by_cases hd : (ctuGeom slice i).ctuRsAddr = toUnsigned debugCTU
  · simp [hd, Step.state, beforeParse_trace]
  · simp [hd, terminate_trace, parseAndReconstruct_trace, beforeParse_trace]

theorem ctuBody_ppcSubstreams (i : Nat) (s : State Ctx Sub Plt Mv W) :
    (ctuBody env slice debugCTU i s).state.ppcSubstreams = s.ppcSubstreams := by
  unfold ctuBody
  by_cases hd : (ctuGeom slice i).ctuRsAddr = toUnsigned debugCTU
  · simp [hd, Step.state]
  · simp [hd, terminate_ppcSubstreams]

/-- The substream index after the body. -/
theorem ctuBody_subStrmId (i : Nat) (s : State Ctx Sub Plt Mv W) :
    (ctuBody env slice debugCTU i s).state.subStrmId =
      if (ctuGeom slice i).ctuRsAddr ≠ toUnsigned debugCTU ∧ advancesSubstream slice i = true ∧
          binValAt env slice i s ≠ 0 then s.subStrmId + 1
      else s.subStrmId := by
  unfold ctuBody binValAt
  by_cases hd : (ctuGeom slice i).ctuRsAddr = toUnsigned debugCTU
  · simp [hd, Step.state]
  · simp [hd, terminate_subStrmId]

/-- The saved contexts after the body. -/
theorem ctuBody_sync (i : Nat) (s : State Ctx Sub Plt Mv W) :
    (ctuBody env slice debugCTU i s).state.sync =
      if (ctuGeom slice i).ctuRsAddr ≠ toUnsigned debugCTU ∧
          ((ctuGeom slice i).atTileLeftEdge && slice.pps.entropyCodingSyncEnabledFlag) = true
      then (afterParse env slice i s).ctx
      else s.sync := by
  unfold ctuBody afterParse
  by_cases hd : (ctuGeom slice i).ctuRsAddr = toUnsigned debugCTU
  · simp [hd, Step.state]
  · simp [hd, terminate_sync, parseAndReconstruct_sync]

/-- The contexts of the reader after the body, when the CTU was parsed. -/
theorem ctuBody_ctx (i : Nat) (s : State Ctx Sub Plt Mv W)
    (hd : (ctuGeom slice i).ctuRsAddr ≠ toUnsigned debugCTU) :
    (ctuBody env slice debugCTU i s).state.eng.ctx = (afterParse env slice i s).ctx := by
  unfold ctuBody afterParse
  simp [hd, terminate_ctx]

/-- The previous-QP pair after the body, when the CTU was parsed. -/
theorem ctuBody_prevQP (i : Nat) (s : State Ctx Sub Plt Mv W)
    (hd : (ctuGeom slice i).ctuRsAddr ≠ toUnsigned debugCTU) :
    (ctuBody env slice debugCTU i s).state.eng.prevQP = (afterParse env slice i s).prevQP := by
  unfold ctuBody afterParse
  simp [hd, terminate_prevQP]

end Body

section Loop

variable (env : Env Ctx Sub Plt Mv W) (slice : Slice) (debugCTU : Int)

/-- One more round of the loop, seen from its end. -/
theorem ctuLoop_succ (a i : Nat) (s : State Ctx Sub Plt Mv W) :
    ctuLoop env slice debugCTU (a + 1) i s =
      match ctuLoop env slice debugCTU a i s with
      | Step.next t => ctuBody env slice debugCTU (i + a) t
      | Step.stop t => Step.stop t
      | Step.fatal t => Step.fatal t := by
  induction a generalizing i s with
  | zero =>
    simp only [ctuLoop, Nat.add_zero]
    cases ctuBody env slice debugCTU i s <;> rfl
  | succ a ih =>
    rw [ctuLoop]
    cases hb : ctuBody env slice debugCTU i s with
    | next t =>
      simp only []
      rw [ih]
      conv_rhs => rw [ctuLoop]
      simp only [hb]
      have : i + 1 + a = i + (a + 1) := by omega
      rw [this]
    | stop t =>
      conv_rhs => rw [ctuLoop]
      simp only [hb]
    | fatal t =>
      conv_rhs => rw [ctuLoop]
      simp only [hb]

theorem loopState_zero (s0 : State Ctx Sub Plt Mv W) :
    loopState env slice debugCTU s0 0 = some s0 := rfl

/-- The state at index `i + 1` is reached from the state at index `i` by a body that goes on. -/
theorem loopState_succ_eq_some (s0 t : State Ctx Sub Plt Mv W) (i : Nat) :
    loopState env slice debugCTU s0 (i + 1) = some t ↔
      ∃ s, loopState env slice debugCTU s0 i = some s ∧
        ctuBody env slice debugCTU i s = Step.next t := by
  unfold loopState
  rw [ctuLoop_succ]
  cases ctuLoop env slice debugCTU i 0 s0 with
  | next s =>
    simp only [Nat.zero_add, Option.some.injEq, exists_eq_left']
    cases ctuBody env slice debugCTU i s <;> simp
  | stop s => simp
  | fatal s => simp

/-- A state that is reached has all earlier ones reached before it. -/
theorem loopState_of_le (s0 t : State Ctx Sub Plt Mv W) (i j : Nat) (hij : i ≤ j)
    (h : loopState env slice debugCTU s0 j = some t) :
    ∃ s, loopState env slice debugCTU s0 i = some s := by
  induction j generalizing t with
  | zero =>
    have : i = 0 := by omega
    subst this
    exact ⟨t, h⟩
  | succ j ih =>
    by_cases hi : i = j + 1
    · subst hi
      exact ⟨t, h⟩
    · obtain ⟨s, hs, _⟩ := (loopState_succ_eq_some env slice debugCTU s0 t j).1 h
      exact ih s (by omega) hs

/-- Invariants of the loop hold in every state that is reached. -/
theorem loopState_invariant (P : Nat → State Ctx Sub Plt Mv W → Prop)
    (s0 : State Ctx Sub Plt Mv W) (h0 : P 0 s0)
    (hstep : ∀ i s t, loopState env slice debugCTU s0 i = some s → P i s →
      ctuBody env slice debugCTU i s = Step.next t → P (i + 1) t)
    (i : Nat) (s : State Ctx Sub Plt Mv W) (h : loopState env slice debugCTU s0 i = some s) :
    P i s := by
  induction i generalizing s with
  | zero =>
    rw [loopState_zero] at h
    cases h
    exact h0
  | succ i ih =>
    obtain ⟨r, hr, hb⟩ := (loopState_succ_eq_some env slice debugCTU s0 s i).1 h
    exact hstep i r s hr (ih r hr) hb

/-- How the loop ends: it runs out, or some body stops or fails. -/
theorem ctuLoop_cases (s0 : State Ctx Sub Plt Mv W) (n : Nat) :
    (∃ t, ctuLoop env slice debugCTU n 0 s0 = Step.next t ∧
      loopState env slice debugCTU s0 n = some t) ∨
    (∃ i s t, i < n ∧ loopState env slice debugCTU s0 i = some s ∧
      ctuBody env slice debugCTU i s = Step.stop t ∧
      ctuLoop env slice debugCTU n 0 s0 = Step.stop t) ∨
    (∃ i s t, i < n ∧ loopState env slice debugCTU s0 i = some s ∧
      ctuBody env slice debugCTU i s = Step.fatal t ∧
      ctuLoop env slice debugCTU n 0 s0 = Step.fatal t) := by
  induction n with
  | zero => exact Or.inl ⟨s0, rfl, rfl⟩
  | succ n ih =>
    rw [ctuLoop_succ]
    rcases ih with ⟨t, ht, hl⟩ | ⟨i, s, t, hi, hs, hb, hl⟩ | ⟨i, s, t, hi, hs, hb, hl⟩
    · rw [ht]
      simp only [Nat.zero_add]
      cases hb : ctuBody env slice debugCTU n t with
      | next u =>
        refine Or.inl ⟨u, rfl, ?_⟩
        exact (loopState_succ_eq_some env slice debugCTU s0 u n).2 ⟨t, hl, hb⟩
      | stop u => exact Or.inr (Or.inl ⟨n, t, u, by omega, hl, hb, rfl⟩)
      | fatal u => exact Or.inr (Or.inr ⟨n, t, u, by omega, hl, hb, rfl⟩)
    · rw [hl]
      exact Or.inr (Or.inl ⟨i, s, t, by omega, hs, hb, rfl⟩)
    · rw [hl]
      exact Or.inr (Or.inr ⟨i, s, t, by omega, hs, hb, rfl⟩)

end Loop

section Extraction

variable (env : Env Ctx Sub Plt Mv W) (slice : Slice) (debugCTU : Int)

theorem extractRequests_append (a b : List Event) :
    extractRequests (a ++ b) = extractRequests a ++ extractRequests b := by
  simp [extractRequests]

/-- The extraction loop from index `idx` on: the declared sizes in bits, then what is left. -/
theorem extractSubstreams_requests (hsz : ∀ sz ∈ slice.substreamSizes, sz * 8 < 2 ^ 32)
    (m idx : Nat) (s : State Ctx Sub Plt Mv W)
    (hidx : idx + m = slice.substreamSizes.length) :
    extractRequests
        (extractSubstreams env slice (slice.substreamSizes.length + 1) (m + 1) idx s).trace =
      extractRequests s.trace ++ (slice.substreamSizes.drop idx).map (· * 8) ++
        [env.getNumBitsLeft
          (afterExtractions env ((slice.substreamSizes.drop idx).map (· * 8)) s.world)] := by
  induction m generalizing idx s with
  | zero =>
    have hk : idx = slice.substreamSizes.length := by omega
    have hd : slice.substreamSizes.drop idx = [] := by simp [hk]
    simp [extractSubstreams, hd, afterExtractions, extractRequests, hk]
  | succ m ih =>
    have hlt : idx < slice.substreamSizes.length := by omega
    have hd : slice.substreamSizes.drop idx =
        slice.substreamSizes[idx] :: slice.substreamSizes.drop (idx + 1) :=
      List.drop_eq_getElem_cons hlt
    have hget : slice.substreamSizes.getD idx 0 = slice.substreamSizes[idx] := by
      simp [List.getD_eq_getElem?_getD, List.getElem?_eq_getElem hlt]
    have hb : slice.substreamSizes[idx] * 8 < 2 ^ 32 :=
      hsz _ (List.getElem_mem hlt)
    rw [extractSubstreams]
    rw [ih (idx + 1) _ (by omega)]
    have hcond : idx + 1 < slice.substreamSizes.length + 1 := by omega
    simp only [if_pos hcond, hget, Nat.shiftLeft_eq, hd, List.map_cons, afterExtractions]
    have h8 : slice.substreamSizes[idx] * 2 ^ 3 % 2 ^ 32 = slice.substreamSizes[idx] * 8 := by
      have : slice.substreamSizes[idx] * 2 ^ 3 = slice.substreamSizes[idx] * 8 := by norm_num
      rw [this]
      exact Nat.mod_eq_of_lt hb
    have hb2 : slice.substreamSizes[idx] * 8 < 4294967296 := by simpa using hb
    have h9 : slice.substreamSizes[idx] * 8 % 4294967296 = slice.substreamSizes[idx] * 8 :=
      Nat.mod_eq_of_lt hb2
    simp [h8, h9, hb2, extractRequests, State.world, State.setWorld, State.emit]

theorem demultiplex_requests (hsz : ∀ sz ∈ slice.substreamSizes, sz * 8 < 2 ^ 32)
    (eng : Engine Ctx Plt Mv W) (sync : Ctx) :
    extractRequests (demultiplex env slice eng sync).trace =
      slice.substreamSizes.map (· * 8) ++
        [env.getNumBitsLeft (afterExtractions env (slice.substreamSizes.map (· * 8))
          (worldAtExtraction env slice eng.cs.world))] := by
  unfold demultiplex Slice.numberOfSubstreamSizes
  simp only []
  rw [extractSubstreams_requests env slice hsz _ 0 _ (by omega)]
  unfold worldAtExtraction
  split <;> simp [extractRequests, State.world, State.setWorld, State.emit]

end Extraction

section Run

variable (env : Env Ctx Sub Plt Mv W) (slice : Slice) (debugCTU : Int)

theorem extractSubstreams_ppcSubstreams_length (n fuel idx : Nat) (s : State Ctx Sub Plt Mv W) :
    (extractSubstreams env slice n fuel idx s).ppcSubstreams.length =
      s.ppcSubstreams.length + fuel := by
  induction fuel generalizing idx s with
  | zero => rfl
  | succ fuel ih =>
    rw [extractSubstreams, ih]
    simp
    omega

theorem extractSubstreams_sync (n fuel idx : Nat) (s : State Ctx Sub Plt Mv W) :
    (extractSubstreams env slice n fuel idx s).sync = s.sync := by
  induction fuel generalizing idx s with
  | zero => rfl
  | succ fuel ih =>
    rw [extractSubstreams, ih]
    simp

theorem demultiplex_ppcSubstreams_length (eng : Engine Ctx Plt Mv W) (sync : Ctx) :
    (demultiplex env slice eng sync).ppcSubstreams.length = slice.substreamSizes.length + 1 := by
  unfold demultiplex Slice.numberOfSubstreamSizes
  simp only []
  rw [extractSubstreams_ppcSubstreams_length]
  split <;> simp

theorem demultiplex_sync (eng : Engine Ctx Plt Mv W) (sync : Ctx) :
    (demultiplex env slice eng sync).sync = sync := by
  unfold demultiplex
  simp only []
  rw [extractSubstreams_sync]
  split <;> simp

theorem sliceEntry_trace (eng : Engine Ctx Plt Mv W) (sync : Ctx) :
    (sliceEntry env slice eng sync).trace =
      (demultiplex env slice eng sync).trace ++
        [Event.initBitstream 0, Event.initCtxModels, Event.setPrevQP slice.sliceQp] := by
  simp [sliceEntry]

theorem sliceEntry_ppcSubstreams (eng : Engine Ctx Plt Mv W) (sync : Ctx) :
    (sliceEntry env slice eng sync).ppcSubstreams =
      (demultiplex env slice eng sync).ppcSubstreams := by
  simp [sliceEntry]

theorem sliceEntry_subStrmId (eng : Engine Ctx Plt Mv W) (sync : Ctx) :
    (sliceEntry env slice eng sync).subStrmId = 0 := rfl

theorem sliceEntry_sync (eng : Engine Ctx Plt Mv W) (sync : Ctx) :
    (sliceEntry env slice eng sync).sync = sync := by
  simp [sliceEntry, demultiplex_sync]

theorem sliceEntry_prevQP (eng : Engine Ctx Plt Mv W) (sync : Ctx) :
    (sliceEntry env slice eng sync).eng.prevQP = (slice.sliceQp, slice.sliceQp) := by
  simp [sliceEntry]

/-- When the loop has been left, it stays left. -/
theorem loopState_none_of_not_next (s0 : State Ctx Sub Plt Mv W) (m : Nat)
    (h : ∀ t, ctuLoop env slice debugCTU m 0 s0 ≠ Step.next t) :
    loopState env slice debugCTU s0 m = none := by
  unfold loopState
  cases hl : ctuLoop env slice debugCTU m 0 s0 with
  | next t => exact absurd hl (h t)
  | stop t => rfl
  | fatal t => rfl

/-- The trace after `m` rounds of the loop. -/
theorem ctuLoop_trace (s0 : State Ctx Sub Plt Mv W) (m : Nat) :
    (ctuLoop env slice debugCTU m 0 s0).state.trace =
      s0.trace ++ runEvents env slice debugCTU s0 m := by
  induction m with
  | zero => simp [ctuLoop, Step.state, runEvents]
  | succ m ih =>
    rw [ctuLoop_succ, runEvents]
    unfold loopState
    cases hl : ctuLoop env slice debugCTU m 0 s0 with
    | next t =>
      rw [hl] at ih
      simp only [Step.state] at ih
      simp only [Nat.zero_add]
      rw [ctuBody_trace, ih, List.append_assoc]
    | stop t =>
      rw [hl] at ih
      simpa using ih
    | fatal t =>
      rw [hl] at ih
      simpa using ih

/-- The table of substreams is not touched by the loop. -/
theorem ctuLoop_ppcSubstreams (s0 : State Ctx Sub Plt Mv W) (m : Nat) :
    (ctuLoop env slice debugCTU m 0 s0).state.ppcSubstreams = s0.ppcSubstreams := by
  induction m with
  | zero => rfl
  | succ m ih =>
    rw [ctuLoop_succ]
    cases hl : ctuLoop env slice debugCTU m 0 s0 with
    | next t =>
      rw [hl] at ih
      simp only [Step.state] at ih
      simp only [Nat.zero_add]
      rw [ctuBody_ppcSubstreams, ih]
    | stop t =>
      rw [hl] at ih
      simpa using ih
    | fatal t =>
      rw [hl] at ih
      simpa using ih

theorem deleteSubstreams_trace (l : List Sub) (idx : Nat) (s : State Ctx Sub Plt Mv W) :
    (deleteSubstreams env l idx s).trace =
      s.trace ++ (List.range' idx l.length).map Event.deleteSubstream := by
  induction l generalizing idx s with
  | nil => simp [deleteSubstreams]
  | cons a l ih =>
    rw [deleteSubstreams, ih]
    simp [List.range'_succ]

theorem cleanup_trace (s : State Ctx Sub Plt Mv W) :
    (cleanup env s).trace = s.trace ++ deleteEvents s.ppcSubstreams.length := by
  simp [cleanup, deleteSubstreams_trace, deleteEvents, List.range_eq_range']

/-- The call fails exactly when the slice QP is the sentinel or the loop fails. -/
theorem decompressSlice_isFatal (eng : Engine Ctx Plt Mv W) (sync : Ctx) :
    (decompressSlice env slice debugCTU eng sync).isFatal = true ↔
      slice.sliceQp = INT_MAX ∨
        ∃ t, ctuLoop env slice debugCTU slice.numCtuInSlice 0
          (sliceEntry env slice eng sync) = Step.fatal t := by
  unfold decompressSlice
  simp only [sliceEntry_prevQP]
  by_cases hq : slice.sliceQp = INT_MAX
  · simp [hq, Outcome.isFatal]
  · simp only [hq, if_false, false_or]
    cases ctuLoop env slice debugCTU slice.numCtuInSlice 0 (sliceEntry env slice eng sync) <;>
      simp [Outcome.isFatal]

/-- The trace of a call: the entry, the executed rounds of the loop, the clean-up unless a
`CHECK` failed. -/
theorem decompressSlice_trace (eng : Engine Ctx Plt Mv W) (sync : Ctx) :
    (decompressSlice env slice debugCTU eng sync).state.trace =
      (sliceEntry env slice eng sync).trace ++
        (if slice.sliceQp = INT_MAX then []
        else runEvents env slice debugCTU (sliceEntry env slice eng sync) slice.numCtuInSlice ++
          (if (decompressSlice env slice debugCTU eng sync).isFatal then []
            else deleteEvents (slice.substreamSizes.length + 1))) := by
  have htr := ctuLoop_trace env slice debugCTU (sliceEntry env slice eng sync)
    slice.numCtuInSlice
  have hpp := ctuLoop_ppcSubstreams env slice debugCTU (sliceEntry env slice eng sync)
    slice.numCtuInSlice
  rw [sliceEntry_ppcSubstreams] at hpp
  have hlen := demultiplex_ppcSubstreams_length env slice eng sync
  unfold decompressSlice
  simp only [sliceEntry_prevQP]
  by_cases hq : slice.sliceQp = INT_MAX
  · simp [hq, Outcome.state]
  · simp only [hq, if_false]
    cases hl : ctuLoop env slice debugCTU slice.numCtuInSlice 0
        (sliceEntry env slice eng sync) with
    | next t =>
      rw [hl] at htr hpp
      simp only [Step.state] at htr hpp
      simp [Outcome.state, Outcome.isFatal, cleanup_trace, htr, hpp, hlen]
    | stop t =>
      rw [hl] at htr hpp
      simp only [Step.state] at htr hpp
      simp [Outcome.state, Outcome.isFatal, cleanup_trace, htr, hpp, hlen]
    | fatal t =>
      rw [hl] at htr
      simp only [Step.state] at htr
      simp [Outcome.state, Outcome.isFatal, htr]

end Run

section Kinds

variable (env : Env Ctx Sub Plt Mv W) (slice : Slice) (debugCTU : Int)

theorem resetUnlessFirstEvents_inLoop (i : Nat) :
    (resetUnlessFirstEvents i).all Event.inLoop = true := by
  unfold resetUnlessFirstEvents
  split <;> simp [Event.inLoop]

theorem syncEvents_inLoop (i sub : Nat) (av : Bool) :
    (syncEvents slice i sub av).all Event.inLoop = true := by
  unfold syncEvents
  have h := resetUnlessFirstEvents_inLoop i
  simp only []
  split
  · simp [Event.inLoop, List.all_append, h]
  · split
    · cases av <;> simp [Event.inLoop, List.all_append, h]
    · simp [Event.inLoop]

theorem carryOverEvents_inLoop (i : Nat) :
    (carryOverEvents slice i).all Event.inLoop = true := by
  unfold carryOverEvents
  simp only []
  split <;> split <;> split <;> simp [Event.inLoop]

theorem parseEvents_inLoop (i : Nat) :
    (parseEvents slice i).all Event.inLoop = true := by
  unfold parseEvents
  simp only []
  split <;> simp [Event.inLoop]

theorem terminateEvents_inLoop (chk : Bool) (i b : Nat) :
    (terminateEvents chk slice i b).all Event.inLoop = true := by
  unfold terminateEvents
  split
  · split <;> simp [Event.inLoop]
  · simp

theorem bodyEvents_inLoop (i : Nat) (s : State Ctx Sub Plt Mv W) :
    (bodyEvents env slice debugCTU i s).all Event.inLoop = true := by
  unfold bodyEvents
  rw [List.all_append, List.all_append, syncEvents_inLoop, carryOverEvents_inLoop]
  split
  · simp
  · rw [List.all_append, parseEvents_inLoop, terminateEvents_inLoop]
    rfl

theorem runEvents_inLoop (s0 : State Ctx Sub Plt Mv W) (m : Nat) :
    (runEvents env slice debugCTU s0 m).all Event.inLoop = true := by
  induction m with
  | zero => rfl
  | succ m ih =>
    rw [runEvents, List.all_append, ih]
    cases loopState env slice debugCTU s0 m with
    | none => rfl
    | some s => simp only [Bool.true_and]; exact bodyEvents_inLoop env slice debugCTU m s

theorem extractRequests_eq_nil_of_inLoop (l : List Event) (h : l.all Event.inLoop = true) :
    extractRequests l = [] := by
  rw [List.all_eq_true] at h
  unfold extractRequests
  rw [List.filterMap_eq_nil_iff]
  intro e he
  have h1 := h e he
  cases e <;> first | rfl | simp [Event.inLoop] at h1

theorem extractRequests_deleteEvents (n : Nat) : extractRequests (deleteEvents n) = [] := by
  unfold extractRequests deleteEvents
  simp [List.filterMap_map, Function.comp_def]

end Kinds

section Contexts

variable (env : Env Ctx Sub Plt Mv W) (slice : Slice) (debugCTU : Int)

theorem resetUnlessFirst_ctx (i : Nat) (s : State Ctx Sub Plt Mv W) :
    (resetUnlessFirst env slice i s).eng.ctx =
      if i ≠ 0 then (env.initCtxModels slice s.world).1 else s.eng.ctx := by
  unfold resetUnlessFirst
  split <;> simp

/-- The contexts of the reader after lines 191-231. -/
theorem syncContexts_ctx (i : Nat) (s : State Ctx Sub Plt Mv W) :
    (syncContexts env slice i s).eng.ctx =
      if (ctuGeom slice i).atTileOrigin then
        (if i ≠ 0 then (env.initCtxModels slice (selectBitSource env s).world).1
          else s.eng.ctx)
      else if (ctuGeom slice i).atTileLeftEdge && slice.pps.entropyCodingSyncEnabledFlag then
        (if availableAt env slice i s then s.sync
          else if i ≠ 0 then (env.initCtxModels slice (selectBitSource env s).world).1
          else s.eng.ctx)
      else s.eng.ctx := by
  unfold syncContexts availableAt queryState
  by_cases h1 : (ctuGeom slice i).atTileOrigin = true
  · simp [h1, resetUnlessFirst_ctx]
  · by_cases h2 : ((ctuGeom slice i).atTileLeftEdge &&
        slice.pps.entropyCodingSyncEnabledFlag) = true
    · simp only [h1, h2, if_true, if_false]
      generalize topAvailable env slice (ctuGeom slice i) _ = av
      cases av <;> simp [resetUnlessFirst_ctx]
    · simp [h1, h2]

/-- The previous-QP pair after lines 191-231. -/
theorem syncContexts_prevQP (i : Nat) (s : State Ctx Sub Plt Mv W) :
    (syncContexts env slice i s).eng.prevQP =
      if (ctuGeom slice i).atTileOrigin ||
          ((ctuGeom slice i).atTileLeftEdge && slice.pps.entropyCodingSyncEnabledFlag) then
        (slice.sliceQp, slice.sliceQp)
      else s.eng.prevQP := by
  unfold syncContexts
  by_cases h1 : (ctuGeom slice i).atTileOrigin = true
  · simp [h1]
  · by_cases h2 : ((ctuGeom slice i).atTileLeftEdge &&
        slice.pps.entropyCodingSyncEnabledFlag) = true
    · simp only [h1, h2, if_true, if_false]
      simp
    · simp only [h1, h2, if_false]
      simp [h1, h2]

theorem beforeParse_ctx (i : Nat) (s : State Ctx Sub Plt Mv W) :
    (beforeParse env slice i s).eng.ctx = (syncContexts env slice i s).eng.ctx := by
  simp [beforeParse]

theorem beforeParse_prevQP (i : Nat) (s : State Ctx Sub Plt Mv W) :
    (beforeParse env slice i s).eng.prevQP = (syncContexts env slice i s).eng.prevQP := by
  simp [beforeParse]

theorem stateAt_eq_some_iff (eng : Engine Ctx Plt Mv W) (sync : Ctx) (i : Nat)
    (s : State Ctx Sub Plt Mv W) :
    stateAt env slice debugCTU eng sync i = some s ↔
      slice.sliceQp ≠ INT_MAX ∧
        loopState env slice debugCTU (sliceEntry env slice eng sync) i = some s := by
  unfold stateAt
  rw [sliceEntry_prevQP]
  by_cases hq : slice.sliceQp = INT_MAX
  · simp [hq]
  · simp [hq]

/-- Between a CTU at the left edge of its tile and the CTU directly above it, no CTU of a slice
in tile-raster order is at the left edge of its tile. -/
theorem not_atTileLeftEdge_between (horder : TileRasterOrder slice)
    (htiles : TileIdxConsistent slice) (i j m : Nat) (hjm : j < m) (hmi : m < i)
    (hin : i < slice.numCtuInSlice) (habove : IsAbove slice j i)
    (hedge : (ctuGeom slice i).atTileLeftEdge = true) :
    (ctuGeom slice m).atTileLeftEdge = false := by
  obtain ⟨hx, hy, ht⟩ := habove
  have h1 := horder m (by omega) j hjm
  have h2 := horder i hin m hmi
  have hc := htiles i hin m hmi
  unfold CtuGeom.atTileLeftEdge at hedge ⊢
  simp only [beq_iff_eq] at hedge
  simp only [beq_eq_false_iff_ne, ne_eq]
  intro hm
  have htm : (ctuGeom slice m).tileIdx = (ctuGeom slice i).tileIdx := by omega
  have hcm := hc htm
  omega

/-- The CTU directly above a CTU at the left edge of its tile is at the left edge of its tile. -/
theorem atTileLeftEdge_of_isAbove (i j : Nat) (habove : IsAbove slice j i)
    (hedge : (ctuGeom slice i).atTileLeftEdge = true) :
    (ctuGeom slice j).atTileLeftEdge = true := by
  obtain ⟨hx, _, _⟩ := habove
  unfold CtuGeom.atTileLeftEdge at hedge ⊢
  simp only [ctuGeom] at hx hedge ⊢
  rw [hx]
  exact hedge

/-- The saved contexts are those left by the parse of the last CTU at the left edge of its
tile: if CTU `j` is at a left edge and was parsed, and no CTU strictly between `j` and `i` is
at a left edge, the saved contexts at `i` are the contexts after the parse of `j`. -/
theorem sync_of_last_leftEdge (hwpp : slice.pps.entropyCodingSyncEnabledFlag = true)
    (s0 : State Ctx Sub Plt Mv W) (j : Nat) (sj : State Ctx Sub Plt Mv W)
    (hsj : loopState env slice debugCTU s0 j = some sj)
    (hedge : (ctuGeom slice j).atTileLeftEdge = true) (i : Nat)
    (hnone : ∀ m, j < m → m < i → (ctuGeom slice m).atTileLeftEdge = false) :
    ∀ m, j < m → m ≤ i → ∀ sm, loopState env slice debugCTU s0 m = some sm →
      sm.sync = (afterParse env slice j sj).ctx := by
  intro m
  induction m with
  | zero => intro h; omega
  | succ m ih =>
    intro hjm hmi sm hsm
    obtain ⟨r, hr, hb⟩ := (loopState_succ_eq_some env slice debugCTU s0 sm m).1 hsm
    have hsync := ctuBody_sync env slice debugCTU m r
    have hnext := ctuBody_next env slice debugCTU m r sm hb
    rw [hb] at hsync
    simp only [Step.state] at hsync
    by_cases hm : m = j
    · subst hm
      rw [hsj] at hr
      cases hr
      rw [hsync]
      simp [hnext.1, hedge, hwpp]
    · have h3 := hnone m (by omega) (by omega)
      rw [hsync]
      simp only [h3, Bool.false_and, Bool.false_eq_true, and_false, if_false]
      exact ih (by omega) (by omega) r hr

end Contexts

section Index

variable (env : Env Ctx Sub Plt Mv W) (slice : Slice) (debugCTU : Int)

theorem readsTerminatingBit_of_advancesSubstream (i : Nat)
    (h : advancesSubstream slice i = true) : readsTerminatingBit slice i = true := by
  unfold advancesSubstream at h
  unfold readsTerminatingBit
  simp only [Bool.and_eq_true] at h
  simp [h.2]

theorem advancesSubstream_last : advancesSubstream slice (slice.numCtuInSlice - 1) = false := by
  unfold advancesSubstream
  simp

theorem advancesSubstream_of_ne_last (i : Nat) (h : i ≠ slice.numCtuInSlice - 1) :
    advancesSubstream slice i =
      (ctuGeom slice i).endsSubstream slice.pps.entropyCodingSyncEnabledFlag := by
  unfold advancesSubstream
  simp [h]

/-- The substream index after a body that goes on. -/
theorem ctuBody_next_subStrmId (i : Nat) (s t : State Ctx Sub Plt Mv W)
    (h : ctuBody env slice debugCTU i s = Step.next t) :
    t.subStrmId = if advancesSubstream slice i then s.subStrmId + 1 else s.subStrmId := by
  have h1 := ctuBody_subStrmId env slice debugCTU i s
  have h2 := ctuBody_next env slice debugCTU i s t h
  rw [h] at h1
  simp only [Step.state] at h1
  rw [h1]
  by_cases ha : advancesSubstream slice i = true
  · have := h2.2 (readsTerminatingBit_of_advancesSubstream slice i ha)
    simp [ha, h2.1, this]
  · simp [ha]

/-- The substream index in a state that is reached: the number of earlier CTUs after which it
was advanced. -/
theorem loopState_subStrmId (s0 : State Ctx Sub Plt Mv W) (i : Nat)
    (s : State Ctx Sub Plt Mv W) (h : loopState env slice debugCTU s0 i = some s) :
    s.subStrmId =
      s0.subStrmId + ((List.range i).filter (advancesSubstream slice)).length := by
  refine loopState_invariant env slice debugCTU
    (fun i s => s.subStrmId =
      s0.subStrmId + ((List.range i).filter (advancesSubstream slice)).length)
    s0 (by simp) ?_ i s h
  intro i s t _ hP hb
  rw [ctuBody_next_subStrmId env slice debugCTU i s t hb, List.range_succ, List.filter_append,
    List.length_append]
  by_cases ha : advancesSubstream slice i = true
  · simp [ha, hP]
    omega
  · simp [ha, hP]

/-- Below the last index, advancing the substream index and ending a substream are the same. -/
theorem filter_advancesSubstream (i : Nat) (hi : i < slice.numCtuInSlice) :
    (List.range i).filter (advancesSubstream slice) =
      (List.range i).filter
        (fun j => (ctuGeom slice j).endsSubstream slice.pps.entropyCodingSyncEnabledFlag) := by
  apply List.filter_congr
  intro j hj
  rw [List.mem_range] at hj
  exact advancesSubstream_of_ne_last slice j (by omega)

end Index

section Fatal

variable (env : Env Ctx Sub Plt Mv W) (slice : Slice) (debugCTU : Int)

theorem extractSubstreams_trace_mem (n fuel idx : Nat) (s : State Ctx Sub Plt Mv W)
    (e : Event) (he : e ∈ (extractSubstreams env slice n fuel idx s).trace) :
    e ∈ s.trace ∨ ∃ numBits, e = Event.extractSubstream numBits := by
  induction fuel generalizing idx s with
  | zero => exact Or.inl he
  | succ fuel ih =>
    rw [extractSubstreams] at he
    rcases ih _ _ he with h | h
    · simp only [emit_trace, setWorld_trace, List.mem_append, List.mem_singleton] at h
      rcases h with h | h
      · exact Or.inl h
      · exact Or.inr ⟨_, h⟩
    · exact Or.inr h

/-- The events that precede the first `initBitstream`. -/
theorem demultiplex_trace_mem (eng : Engine Ctx Plt Mv W) (sync : Ctx) (e : Event)
    (he : e ∈ (demultiplex env slice eng sync).trace) :
    e = Event.resetPrevPLT ∨ e = Event.resizeAlf ∨
      ∃ numBits, e = Event.extractSubstream numBits := by
  unfold demultiplex at he
  rcases extractSubstreams_trace_mem env slice _ _ _ _ e he with h | h
  · split at h
    · simp at h
      rcases h with h | h
      · exact Or.inl h
      · exact Or.inr (Or.inl h)
    · simp at h
      exact Or.inl h
  · exact Or.inr (Or.inr h)

theorem terminating_bit_mem_syncEvents (i sub b : Nat) (av : Bool) :
    Event.terminating_bit b ∉ syncEvents slice i sub av := by
  unfold syncEvents resetUnlessFirstEvents
  simp only []
  split
  · split <;> simp
  · split
    · split <;> cases av <;> simp
    · simp

theorem terminating_bit_mem_carryOverEvents (i b : Nat) :
    Event.terminating_bit b ∉ carryOverEvents slice i := by
  unfold carryOverEvents
  simp only []
  split <;> split <;> split <;> simp

theorem terminating_bit_mem_parseEvents (i b : Nat) :
    Event.terminating_bit b ∉ parseEvents slice i := by
  unfold parseEvents
  simp only []
  split <;> simp

theorem terminating_bit_mem_terminateEvents (chk : Bool) (i b c : Nat) :
    Event.terminating_bit b ∈ terminateEvents chk slice i c ↔
      readsTerminatingBit slice i = true ∧ c = b := by
  unfold terminateEvents
  split
  · rename_i h
    split <;> simp [h, eq_comm]
  · rename_i h
    simp [h]

/-- A terminating bit read as 0 is in the events of a body exactly when the body fails. -/
theorem terminating_bit_zero_mem_bodyEvents (i : Nat) (s : State Ctx Sub Plt Mv W) :
    Event.terminating_bit 0 ∈ bodyEvents env slice debugCTU i s ↔
      ∃ t, ctuBody env slice debugCTU i s = Step.fatal t := by
  unfold bodyEvents
  simp only [List.mem_append, terminating_bit_mem_syncEvents,
    terminating_bit_mem_carryOverEvents, false_or]
  by_cases hd : (ctuGeom slice i).ctuRsAddr = toUnsigned debugCTU
  · simp [hd, ctuBody_fatal_iff]
  · simp [hd, ctuBody_fatal_iff, terminating_bit_mem_parseEvents,
      terminating_bit_mem_terminateEvents]

/-- A terminating bit read as 0 is among the events of the loop exactly when the loop fails. -/
theorem terminating_bit_zero_mem_runEvents (s0 : State Ctx Sub Plt Mv W) (m : Nat) :
    Event.terminating_bit 0 ∈ runEvents env slice debugCTU s0 m ↔
      ∃ t, ctuLoop env slice debugCTU m 0 s0 = Step.fatal t := by
  induction m with
  | zero => simp [runEvents, ctuLoop]
  | succ m ih =>
    rw [runEvents, List.mem_append, ih, ctuLoop_succ]
    unfold loopState
    cases hl : ctuLoop env slice debugCTU m 0 s0 with
    | next t =>
      simp only [Nat.zero_add, false_or, reduceCtorEq, exists_false]
      exact terminating_bit_zero_mem_bodyEvents env slice debugCTU m t
    | stop t => simp
    | fatal t => simp

end Fatal

section Calls

variable (env : Env Ctx Sub Plt Mv W) (slice : Slice) (debugCTU : Int)

theorem toUnsigned_eq_iff (c : Nat) (d : Int) (hc : c < 2 ^ 31)
    (hd : -2 ^ 31 ≤ d ∧ d < 2 ^ 31) : c = toUnsigned d ↔ (c : Int) = d := by
  unfold toUnsigned
  omega

theorem calls_append (a b : List Event) : calls (a ++ b) = calls a ++ calls b := by
  simp [calls]

theorem calls_syncEvents (i sub : Nat) (av : Bool) : calls (syncEvents slice i sub av) = [] := by
  unfold syncEvents resetUnlessFirstEvents calls
  simp only []
  split
  · split <;> simp [callOf]
  · split
    · split <;> cases av <;> simp [callOf]
    · simp [callOf]

theorem calls_carryOverEvents (i : Nat) : calls (carryOverEvents slice i) = [] := by
  unfold carryOverEvents calls
  simp only []
  split <;> split <;> split <;> simp [callOf]

theorem calls_parseEvents (i : Nat) :
    calls (parseEvents slice i) =
      [Call.parse (slice.ctuAddrInSlice.getD i 0),
        Call.reconstruct (slice.ctuAddrInSlice.getD i 0)] := by
  unfold parseEvents calls
  simp only []
  split <;> simp [callOf, ctuGeom]

theorem calls_terminateEvents (chk : Bool) (i b : Nat) :
    calls (terminateEvents chk slice i b) =
      if readsTerminatingBit slice i then [Call.terminatingBit] else [] := by
  unfold terminateEvents calls
  split
  · split <;> simp [callOf]
  · simp

/-- The parse, reconstruction and terminating-bit calls of one round of the loop. -/
theorem calls_bodyEvents (i : Nat) (s : State Ctx Sub Plt Mv W) :
    calls (bodyEvents env slice debugCTU i s) =
      if (ctuGeom slice i).ctuRsAddr = toUnsigned debugCTU then []
      else [Call.parse (slice.ctuAddrInSlice.getD i 0),
        Call.reconstruct (slice.ctuAddrInSlice.getD i 0)] ++
        (if readsTerminatingBit slice i then [Call.terminatingBit] else []) := by
  unfold bodyEvents
  rw [calls_append, calls_append, calls_syncEvents, calls_carryOverEvents]
  split
  · rfl
  · rw [calls_append, calls_parseEvents, calls_terminateEvents]
    rfl

theorem expectedCalls_succ (j : Nat) :
    expectedCalls slice (j + 1) = expectedCalls slice j ++
      ([Call.parse (slice.ctuAddrInSlice.getD j 0),
        Call.reconstruct (slice.ctuAddrInSlice.getD j 0)] ++
        (if readsTerminatingBit slice j then [Call.terminatingBit] else [])) := by
  unfold expectedCalls
  rw [List.range_succ, List.flatMap_append]
  simp

/-- The calls of the loop, when the CTUs below index `j` are parsed and the loop goes no
further than index `j`. -/
theorem calls_runEvents (s0 : State Ctx Sub Plt Mv W) (j m : Nat)
    (hbelow : ∀ i, i < j → i < m → ∃ s, loopState env slice debugCTU s0 i = some s ∧
      (ctuGeom slice i).ctuRsAddr ≠ toUnsigned debugCTU)
    (habove : ∀ i s, j ≤ i → i < m → loopState env slice debugCTU s0 i = some s →
      (ctuGeom slice i).ctuRsAddr = toUnsigned debugCTU) :
    calls (runEvents env slice debugCTU s0 m) = expectedCalls slice (min m j) := by
  induction m with
  | zero => simp [runEvents, calls, expectedCalls]
  | succ m ih =>
    have ih1 := ih (fun i hij him => hbelow i hij (by omega))
      (fun i s hji him => habove i s hji (by omega))
    rw [runEvents, calls_append, ih1]
    by_cases hmj : m < j
    · obtain ⟨s, hs, hd⟩ := hbelow m hmj (by omega)
      have h1 : min m j = m := by omega
      have h2 : min (m + 1) j = m + 1 := by omega
      rw [hs, h1, h2, expectedCalls_succ]
      simp only []
      rw [calls_bodyEvents, if_neg hd]
    · have h1 : min m j = j := by omega
      have h2 : min (m + 1) j = j := by omega
      rw [h1, h2]
      cases hs : loopState env slice debugCTU s0 m with
      | none => simp [calls]
      | some s =>
        have hd := habove m s (by omega) (by omega) hs
        simp only []
        rw [calls_bodyEvents, if_pos hd, List.append_nil]

/-- The index of the debug target, from what is known about the CTUs before and at it. -/
theorem debugIndex_eq (haddr : ∀ c ∈ slice.ctuAddrInSlice, c < 2 ^ 31)
    (hd : -2 ^ 31 ≤ debugCTU ∧ debugCTU < 2 ^ 31) (j : Nat)
    (hj : j ≤ slice.numCtuInSlice)
    (hbelow : ∀ i, i < j → (ctuGeom slice i).ctuRsAddr ≠ toUnsigned debugCTU)
    (hat : j < slice.numCtuInSlice → (ctuGeom slice j).ctuRsAddr = toUnsigned debugCTU) :
    debugIndex slice debugCTU = j := by
  unfold Slice.numCtuInSlice at hj hat
  have hget : ∀ i (hi : i < slice.ctuAddrInSlice.length),
      (ctuGeom slice i).ctuRsAddr = slice.ctuAddrInSlice[i] := by
    intro i hi
    simp [ctuGeom, List.getD_eq_getElem?_getD, List.getElem?_eq_getElem hi]
  have hconv : ∀ i (hi : i < slice.ctuAddrInSlice.length),
      (ctuGeom slice i).ctuRsAddr = toUnsigned debugCTU ↔
        ((slice.ctuAddrInSlice[i] : Nat) : Int) = debugCTU := by
    intro i hi
    rw [hget i hi]
    exact toUnsigned_eq_iff _ _ (haddr _ (List.getElem_mem hi)) hd
  unfold debugIndex
  by_cases hjn : j < slice.ctuAddrInSlice.length
  · rw [List.findIdx_eq hjn]
    refine ⟨?_, ?_⟩
    · simpa using (hconv j hjn).1 (hat hjn)
    · intro i hij
      have := hbelow i hij
      have h2 := (hconv i (by omega)).not.1 this
      simpa using h2
  · have hjeq : j = slice.ctuAddrInSlice.length := by omega
    rw [hjeq, List.findIdx_eq_length]
    intro c hc
    obtain ⟨i, hi, rfl⟩ := List.getElem_of_mem hc
    have := hbelow i (by omega)
    have h2 := (hconv i hi).not.1 this
    simpa using h2

end Calls

section Pairing

variable (env : Env Ctx Sub Plt Mv W) (slice : Slice) (debugCTU : Int)

/-- A trace in which parses and reconstructions pair up can be continued by another one. -/
theorem parseThenReconstruct_append (a b : List Event) (ha : parseThenReconstruct a = true)
    (hb : parseThenReconstruct b = true) : parseThenReconstruct (a ++ b) = true := by
  induction a using parseThenReconstruct.induct with
  | case1 => simpa using hb
  | case2 x y rest ih =>
    simp only [parseThenReconstruct, Bool.and_eq_true] at ha
    simp only [List.cons_append, parseThenReconstruct, Bool.and_eq_true]
    exact ⟨ha.1, ih ha.2⟩
  | case3 x rest h =>
    cases rest with
    | nil => simp [parseThenReconstruct] at ha
    | cons e rest =>
      cases e <;> first | exact (h _ _ rfl).elim | simp [parseThenReconstruct] at ha
  | case4 x rest => simp [parseThenReconstruct] at ha
  | case5 e rest h1 h2 h3 ih =>
    cases e <;> first
      | exact (h2 _ rfl).elim
      | exact (h3 _ rfl).elim
      | (simp only [parseThenReconstruct] at ha
         simp only [List.cons_append, parseThenReconstruct]
         exact ih ha)

end Pairing

section Pairing2

variable (env : Env Ctx Sub Plt Mv W) (slice : Slice) (debugCTU : Int)

/-- A trace without calls of the parser or of the reconstruction pairs them up trivially. -/
theorem parseThenReconstruct_of_no_ctuCall (l : List Event)
    (h : l.all (fun e => !e.isCtuCall) = true) : parseThenReconstruct l = true := by
  induction l with
  | nil => rfl
  | cons e l ih =>
    simp only [List.all_cons, Bool.and_eq_true] at h
    cases e <;> first
      | (simp [Event.isCtuCall] at h; done)
      | (simp only [parseThenReconstruct]; exact ih h.2)

theorem syncEvents_no_ctuCall (i sub : Nat) (av : Bool) :
    (syncEvents slice i sub av).all (fun e => !e.isCtuCall) = true := by
  unfold syncEvents resetUnlessFirstEvents
  simp only []
  split
  · split <;> simp [Event.isCtuCall]
  · split
    · split <;> cases av <;> simp [Event.isCtuCall]
    · simp [Event.isCtuCall]

theorem carryOverEvents_no_ctuCall (i : Nat) :
    (carryOverEvents slice i).all (fun e => !e.isCtuCall) = true := by
  unfold carryOverEvents
  simp only []
  split <;> split <;> split <;> simp [Event.isCtuCall]

theorem terminateEvents_no_ctuCall (chk : Bool) (i b : Nat) :
    (terminateEvents chk slice i b).all (fun e => !e.isCtuCall) = true := by
  unfold terminateEvents
  split
  · split <;> simp [Event.isCtuCall]
  · simp

theorem parseThenReconstruct_parseEvents (i : Nat) (rest : List Event)
    (h : rest.all (fun e => !e.isCtuCall) = true) :
    parseThenReconstruct (parseEvents slice i ++ rest) = true := by
  have hr := parseThenReconstruct_of_no_ctuCall rest h
  unfold parseEvents
  simp only []
  split
  · simp [parseThenReconstruct, hr]
  · simp [parseThenReconstruct, hr]

theorem parseThenReconstruct_bodyEvents (i : Nat) (s : State Ctx Sub Plt Mv W) :
    parseThenReconstruct (bodyEvents env slice debugCTU i s) = true := by
  unfold bodyEvents
  apply parseThenReconstruct_append
  · apply parseThenReconstruct_of_no_ctuCall
    rw [List.all_append, syncEvents_no_ctuCall, carryOverEvents_no_ctuCall]
    rfl
  · split
    · rfl
    · exact parseThenReconstruct_parseEvents slice i _ (terminateEvents_no_ctuCall slice _ i _)

theorem parseThenReconstruct_runEvents (s0 : State Ctx Sub Plt Mv W) (m : Nat) :
    parseThenReconstruct (runEvents env slice debugCTU s0 m) = true := by
  induction m with
  | zero => rfl
  | succ m ih =>
    rw [runEvents]
    apply parseThenReconstruct_append _ _ ih
    cases loopState env slice debugCTU s0 m with
    | none => rfl
    | some s => exact parseThenReconstruct_bodyEvents env slice debugCTU m s

theorem sliceEntry_no_ctuCall (eng : Engine Ctx Plt Mv W) (sync : Ctx) :
    (sliceEntry env slice eng sync).trace.all (fun e => !e.isCtuCall) = true := by
  rw [sliceEntry_trace, List.all_append]
  have h : (demultiplex env slice eng sync).trace.all (fun e => !e.isCtuCall) = true := by
    rw [List.all_eq_true]
    intro e he
    rcases demultiplex_trace_mem env slice eng sync e he with h | h | ⟨_, h⟩ <;>
      subst h <;> rfl
  rw [h]
  rfl

theorem deleteEvents_no_ctuCall (n : Nat) :
    (deleteEvents n).all (fun e => !e.isCtuCall) = true := by
  simp [deleteEvents, Event.isCtuCall]

theorem calls_of_no_ctuCall_entry (eng : Engine Ctx Plt Mv W) (sync : Ctx) :
    calls (sliceEntry env slice eng sync).trace = [] := by
  rw [sliceEntry_trace, calls_append]
  have h : calls (demultiplex env slice eng sync).trace = [] := by
    unfold calls
    rw [List.filterMap_eq_nil_iff]
    intro e he
    rcases demultiplex_trace_mem env slice eng sync e he with h | h | ⟨_, h⟩ <;>
      subst h <;> rfl
  rw [h]
  rfl

theorem calls_deleteEvents (n : Nat) : calls (deleteEvents n) = [] := by
  unfold calls deleteEvents
  rw [List.filterMap_eq_nil_iff]
  intro e he
  simp only [List.mem_map, List.mem_range] at he
  obtain ⟨_, _, rfl⟩ := he
  rfl

end Pairing2

section Control

variable (env : Env Ctx Sub Plt Mv W) (slice : Slice) (debugCTU : Int)

theorem controlTrace_append (a b : List Event) :
    controlTrace (a ++ b) = controlTrace a ++ controlTrace b := by
  simp [controlTrace]

theorem controlTrace_syncEvents (i sub : Nat) (av : Bool) :
    controlTrace (syncEvents slice i sub av) = controlTrace (syncEvents slice i sub false) := by
  unfold syncEvents controlTrace
  simp only []
  split
  · rfl
  · split
    · cases av <;> simp [List.filter_cons, List.filter_append, Event.isControl]
    · rfl

theorem controlTrace_carryOverEvents (i : Nat) : controlTrace (carryOverEvents slice i) = [] := by
  unfold carryOverEvents controlTrace
  simp only []
  split <;> split <;> split <;> simp [Event.isControl]

theorem controlTrace_terminateEvents (chk : Bool) (i b : Nat) :
    controlTrace (terminateEvents chk slice i b) =
      controlTrace (terminateEvents false slice i b) := by
  unfold terminateEvents controlTrace
  split
  · split <;> simp [Event.isControl]
  · rfl

/-- The control events of a round of the loop in which the CTU is parsed. -/
theorem controlTrace_bodyEvents (i : Nat) (s : State Ctx Sub Plt Mv W)
    (hd : (ctuGeom slice i).ctuRsAddr ≠ toUnsigned debugCTU) :
    controlTrace (bodyEvents env slice debugCTU i s) =
      controlEvents slice i s.subStrmId (binValAt env slice i s) := by
  unfold bodyEvents controlEvents
  rw [if_neg hd]
  simp only [controlTrace_append, controlTrace_carryOverEvents, List.append_nil]
  rw [controlTrace_syncEvents, controlTrace_terminateEvents, List.append_assoc]

theorem binValAt_eq (b : Nat) (hbit : ∀ w, (env.terminating_bit w).1 = b) (i : Nat)
    (s : State Ctx Sub Plt Mv W) : binValAt env slice i s = b := by
  unfold binValAt binValOf
  exact hbit _

/-- A decode in which no CTU is the debug target and no terminating bit is 0 reaches every
index. -/
theorem loopState_total (s0 : State Ctx Sub Plt Mv W) (b : Nat) (hb : b ≠ 0)
    (hbit : ∀ w, (env.terminating_bit w).1 = b) (m : Nat)
    (hdebug : ∀ i, i < m → (ctuGeom slice i).ctuRsAddr ≠ toUnsigned debugCTU) :
    ∃ s, loopState env slice debugCTU s0 m = some s := by
  induction m with
  | zero => exact ⟨s0, rfl⟩
  | succ m ih =>
    obtain ⟨s, hs⟩ := ih (fun i hi => hdebug i (by omega))
    cases hbody : ctuBody env slice debugCTU m s with
    | next t => exact ⟨t, (loopState_succ_eq_some env slice debugCTU s0 t m).2 ⟨s, hs, hbody⟩⟩
    | stop t =>
      exact absurd ((ctuBody_stop_iff env slice debugCTU m s t).1 hbody).1
        (hdebug m (by omega))
    | fatal t =>
      have h := ((ctuBody_fatal_iff env slice debugCTU m s t).1 hbody).2.2.1
      rw [binValAt_eq env slice b hbit] at h
      exact absurd h hb

/-- The control events of the loop in such a decode. -/
theorem controlTrace_runEvents (s0 : State Ctx Sub Plt Mv W) (hs0 : s0.subStrmId = 0) (b : Nat)
    (hb : b ≠ 0) (hbit : ∀ w, (env.terminating_bit w).1 = b) (m : Nat)
    (hdebug : ∀ i, i < m → (ctuGeom slice i).ctuRsAddr ≠ toUnsigned debugCTU) :
    controlTrace (runEvents env slice debugCTU s0 m) =
      (List.range m).flatMap fun i => controlEvents slice i (subStrmIdAt slice i) b := by
  induction m with
  | zero => rfl
  | succ m ih =>
    obtain ⟨s, hs⟩ := loopState_total env slice debugCTU s0 b hb hbit m
      (fun i hi => hdebug i (by omega))
    have hsub := loopState_subStrmId env slice debugCTU s0 m s hs
    rw [hs0, Nat.zero_add] at hsub
    rw [runEvents, controlTrace_append, ih (fun i hi => hdebug i (by omega)), hs,
      List.range_succ, List.flatMap_append]
    simp only [List.flatMap_cons, List.flatMap_nil, List.append_nil]
    rw [controlTrace_bodyEvents env slice debugCTU m s (hdebug m (by omega)),
      binValAt_eq env slice b hbit, hsub]
    rfl

theorem controlTrace_sliceEntry (eng : Engine Ctx Plt Mv W) (sync : Ctx) :
    controlTrace (sliceEntry env slice eng sync).trace =
      [Event.initBitstream 0, Event.initCtxModels] := by
  rw [sliceEntry_trace, controlTrace_append]
  have h : controlTrace (demultiplex env slice eng sync).trace = [] := by
    unfold controlTrace
    rw [List.filter_eq_nil_iff]
    intro e he
    rcases demultiplex_trace_mem env slice eng sync e he with h | h | ⟨_, h⟩ <;>
      subst h <;> simp [Event.isControl]
  rw [h]
  rfl

theorem controlTrace_deleteEvents (n : Nat) : controlTrace (deleteEvents n) = [] := by
  unfold controlTrace deleteEvents
  rw [List.filter_eq_nil_iff]
  intro e he
  simp only [List.mem_map, List.mem_range] at he
  obtain ⟨_, _, rfl⟩ := he
  simp [Event.isControl]

theorem deleteSubstreams_subStrmId (l : List Sub) (idx : Nat) (s : State Ctx Sub Plt Mv W) :
    (deleteSubstreams env l idx s).subStrmId = s.subStrmId := by
  induction l generalizing idx s with
  | nil => rfl
  | cons a l ih =>
    rw [deleteSubstreams, ih]
    simp

theorem cleanup_subStrmId (s : State Ctx Sub Plt Mv W) :
    (cleanup env s).subStrmId = s.subStrmId := by
  simp [cleanup, deleteSubstreams_subStrmId]

/-- A decode whose slice QP is defined, in which no CTU is the debug target and every
terminating bit is read as `b ≠ 0`: it does not fail, its control events are those of the
skeleton, and the substream index it ends with is the number of CTUs after which the index is
advanced. -/
theorem decompressSlice_complete (eng : Engine Ctx Plt Mv W) (sync : Ctx)
    (hq : slice.sliceQp ≠ INT_MAX) (b : Nat) (hb : b ≠ 0)
    (hbit : ∀ w, (env.terminating_bit w).1 = b)
    (hdebug : ∀ i, i < slice.numCtuInSlice →
      (ctuGeom slice i).ctuRsAddr ≠ toUnsigned debugCTU) :
    (decompressSlice env slice debugCTU eng sync).isFatal = false ∧
      controlTrace (decompressSlice env slice debugCTU eng sync).state.trace =
        controlSkeleton slice b ∧
      (decompressSlice env slice debugCTU eng sync).state.subStrmId =
        subStrmIdAt slice slice.numCtuInSlice := by
  obtain ⟨t, ht⟩ := loopState_total env slice debugCTU (sliceEntry env slice eng sync) b hb hbit
    slice.numCtuInSlice hdebug
  have hloop : ctuLoop env slice debugCTU slice.numCtuInSlice 0
      (sliceEntry env slice eng sync) = Step.next t := by
    unfold loopState at ht
    cases hl : ctuLoop env slice debugCTU slice.numCtuInSlice 0
        (sliceEntry env slice eng sync) with
    | next u =>
      rw [hl] at ht
      cases ht
      rfl
    | stop u =>
      rw [hl] at ht
      cases ht
    | fatal u =>
      rw [hl] at ht
      cases ht
  have hnf : (decompressSlice env slice debugCTU eng sync).isFatal = false := by
    unfold decompressSlice
    simp only [sliceEntry_prevQP, hq, if_false, hloop, Outcome.isFatal]
  refine ⟨hnf, ?_, ?_⟩
  · rw [decompressSlice_trace]
    simp only [hq, if_false, hnf, Bool.false_eq_true]
    rw [controlTrace_append, controlTrace_append, controlTrace_sliceEntry,
      controlTrace_deleteEvents, List.append_nil,
      controlTrace_runEvents env slice debugCTU _ (sliceEntry_subStrmId env slice eng sync) b hb
        hbit _ hdebug]
    rfl
  · have hsub := loopState_subStrmId env slice debugCTU _ _ t ht
    rw [sliceEntry_subStrmId, Nat.zero_add] at hsub
    unfold decompressSlice
    simp only [sliceEntry_prevQP, hq, if_false, hloop, Outcome.state, cleanup_subStrmId]
    exact hsub

end Control

section Geometry

variable (slice : Slice)

variable (other : Slice)

theorem ctuGeom_congr (hpps : slice.pps = other.pps)
    (hctus : slice.ctuAddrInSlice = other.ctuAddrInSlice) (i : Nat) :
    (ctuGeom slice i).ctuRsAddr = (ctuGeom other i).ctuRsAddr ∧
      (ctuGeom slice i).atTileOrigin = (ctuGeom other i).atTileOrigin ∧
      (ctuGeom slice i).atTileLeftEdge = (ctuGeom other i).atTileLeftEdge ∧
      (ctuGeom slice i).endsSubstream slice.pps.entropyCodingSyncEnabledFlag =
        (ctuGeom other i).endsSubstream other.pps.entropyCodingSyncEnabledFlag := by
  simp [ctuGeom, CtuGeom.atTileOrigin, CtuGeom.atTileLeftEdge, CtuGeom.endsSubstream, hpps,
    hctus]

end Geometry

section Release

variable (env : Env Ctx Sub Plt Mv W) (slice : Slice) (debugCTU : Int)

theorem releases_append (a b : List Event) : releases (a ++ b) = releases a ++ releases b := by
  simp [releases]

theorem releases_eq_nil_of_inLoop (l : List Event) (h : l.all Event.inLoop = true) :
    releases l = [] := by
  rw [List.all_eq_true] at h
  unfold releases
  rw [List.filterMap_eq_nil_iff]
  intro e he
  have h1 := h e he
  cases e <;> first | rfl | simp [Event.inLoop] at h1

theorem releases_sliceEntry (eng : Engine Ctx Plt Mv W) (sync : Ctx) :
    releases (sliceEntry env slice eng sync).trace = [] := by
  rw [sliceEntry_trace, releases_append]
  have h : releases (demultiplex env slice eng sync).trace = [] := by
    unfold releases
    rw [List.filterMap_eq_nil_iff]
    intro e he
    rcases demultiplex_trace_mem env slice eng sync e he with h | h | ⟨_, h⟩ <;>
      subst h <;> rfl
  rw [h]
  rfl

theorem releases_deleteEvents (n : Nat) : releases (deleteEvents n) = List.range n := by
  unfold releases deleteEvents
  induction n with
  | zero => rfl
  | succ n ih => simp [List.range_succ, List.filterMap_append, ih]

theorem ctuRsAddr_mem (i : Nat) (hi : i < slice.numCtuInSlice) :
    (ctuGeom slice i).ctuRsAddr ∈ slice.ctuAddrInSlice := by
  unfold Slice.numCtuInSlice at hi
  simp only [ctuGeom, List.getD_eq_getElem?_getD, List.getElem?_eq_getElem hi,
    Option.getD_some]
  exact List.getElem_mem hi

end Release

section Sync

variable (env : Env Ctx Sub Plt Mv W) (slice : Slice) (debugCTU : Int)

@[simp] theorem withSync_world (s : State Ctx Sub Plt Mv W) (c : Ctx) :
    (s.withSync c).world = s.world := rfl
@[simp] theorem withSync_eng (s : State Ctx Sub Plt Mv W) (c : Ctx) :
    (s.withSync c).eng = s.eng := rfl
@[simp] theorem withSync_sync (s : State Ctx Sub Plt Mv W) (c : Ctx) :
    (s.withSync c).sync = c := rfl
@[simp] theorem withSync_subStrmId (s : State Ctx Sub Plt Mv W) (c : Ctx) :
    (s.withSync c).subStrmId = s.subStrmId := rfl
@[simp] theorem withSync_ppcSubstreams (s : State Ctx Sub Plt Mv W) (c : Ctx) :
    (s.withSync c).ppcSubstreams = s.ppcSubstreams := rfl
@[simp] theorem withSync_trace (s : State Ctx Sub Plt Mv W) (c : Ctx) :
    (s.withSync c).trace = s.trace := rfl

theorem sameButSync_withSync (s : State Ctx Sub Plt Mv W) (c : Ctx) :
    (s.withSync c).sameButSync s := ⟨rfl, rfl, rfl, rfl⟩

theorem sameButSync_refl (s : State Ctx Sub Plt Mv W) : s.sameButSync s := ⟨rfl, rfl, rfl, rfl⟩

theorem selectBitSource_withSync (s : State Ctx Sub Plt Mv W) (c : Ctx) :
    selectBitSource env (s.withSync c) = (selectBitSource env s).withSync c := rfl

theorem resetEntropy_withSync (s : State Ctx Sub Plt Mv W) (c : Ctx) :
    resetEntropy env slice (s.withSync c) = (resetEntropy env slice s).withSync c := rfl

theorem resetUnlessFirst_withSync (i : Nat) (s : State Ctx Sub Plt Mv W) (c : Ctx) :
    resetUnlessFirst env slice i (s.withSync c) = (resetUnlessFirst env slice i s).withSync c := by
  unfold resetUnlessFirst
  split <;> rfl

theorem setPrevQP_withSync (s : State Ctx Sub Plt Mv W) (c : Ctx) :
    setPrevQP slice (s.withSync c) = (setPrevQP slice s).withSync c := rfl

theorem availableAt_withSync (i : Nat) (s : State Ctx Sub Plt Mv W) (c : Ctx) :
    availableAt env slice i (s.withSync c) = availableAt env slice i s := by
  unfold availableAt queryState topAvailable
  rw [selectBitSource_withSync, resetUnlessFirst_withSync]
  rfl

theorem restoresAt_withSync (i : Nat) (s : State Ctx Sub Plt Mv W) (c : Ctx) :
    restoresAt env slice i (s.withSync c) = restoresAt env slice i s := by
  unfold restoresAt
  rw [availableAt_withSync]

/-- Unless line 228 is executed, lines 191-231 do not read the saved contexts. -/
theorem syncContexts_withSync (i : Nat) (s : State Ctx Sub Plt Mv W) (c : Ctx)
    (h : restoresAt env slice i s = false) :
    syncContexts env slice i (s.withSync c) = (syncContexts env slice i s).withSync c := by
  unfold restoresAt availableAt queryState at h
  unfold syncContexts
  simp only [selectBitSource_withSync, resetUnlessFirst_withSync]
  by_cases h1 : (ctuGeom slice i).atTileOrigin = true
  · simp only [h1, if_true]
    rfl
  · by_cases h2 : ((ctuGeom slice i).atTileLeftEdge &&
        slice.pps.entropyCodingSyncEnabledFlag) = true
    · simp only [h1, h2, Bool.not_false, Bool.true_and, Bool.not_eq_true] at h
      have h3 : topAvailable env slice (ctuGeom slice i)
          ((resetUnlessFirst env slice i (selectBitSource env s)).withSync c) = false := h
      simp only [h1, h2, if_true, if_false, h, h3, Bool.false_eq_true]
      rfl
    · simp only [h1, h2, if_false, Bool.false_eq_true]

theorem resetCarryOver_withSync (i : Nat) (s : State Ctx Sub Plt Mv W) (c : Ctx) :
    resetCarryOver env slice i (s.withSync c) = (resetCarryOver env slice i s).withSync c := by
  unfold resetCarryOver
  simp only []
  split <;> split <;> split <;> rfl

theorem beforeParse_withSync (i : Nat) (s : State Ctx Sub Plt Mv W) (c : Ctx)
    (h : restoresAt env slice i s = false) :
    beforeParse env slice i (s.withSync c) = (beforeParse env slice i s).withSync c := by
  unfold beforeParse
  rw [syncContexts_withSync env slice i s c h, resetCarryOver_withSync]

/-- The saved contexts are overwritten after a CTU at the left edge of its tile when wavefronts
are enabled, and carried along otherwise. -/
theorem parseAndReconstruct_withSync (i : Nat) (s : State Ctx Sub Plt Mv W) (c : Ctx) :
    parseAndReconstruct env slice i (s.withSync c) =
      if (ctuGeom slice i).atTileLeftEdge && slice.pps.entropyCodingSyncEnabledFlag then
        parseAndReconstruct env slice i s
      else (parseAndReconstruct env slice i s).withSync c := by
  unfold parseAndReconstruct
  simp only []
  split <;> rfl

theorem remainingBytes_withSync (b : Bool) (s : State Ctx Sub Plt Mv W) (c : Ctx) :
    remainingBytes env b (s.withSync c) = (remainingBytes env b s).withSync c := by
  unfold remainingBytes
  split <;> rfl

theorem terminate_withSync (i : Nat) (s : State Ctx Sub Plt Mv W) (c : Ctx) :
    terminate env slice i (s.withSync c) =
      (terminate env slice i s).map (fun t => t.withSync c) := by
  unfold terminate
  have hb : binValOf env (s.withSync c) = binValOf env s := rfl
  have hr : readTerminatingBit env (s.withSync c) = (readTerminatingBit env s).withSync c := rfl
  simp only [hb, hr, remainingBytes_withSync]
  split
  · split <;> rfl
  · split
    · split <;> rfl
    · rfl

/-- A round of the loop that does not execute line 228 either forgets the saved contexts it was
entered with (the CTU is parsed, at the left edge of its tile with wavefronts enabled) or carries
them along untouched. -/
theorem ctuBody_withSync (i : Nat) (s : State Ctx Sub Plt Mv W) (c : Ctx)
    (h : restoresAt env slice i s = false) :
    ctuBody env slice debugCTU i (s.withSync c) =
      if (ctuGeom slice i).ctuRsAddr ≠ toUnsigned debugCTU ∧
          ((ctuGeom slice i).atTileLeftEdge && slice.pps.entropyCodingSyncEnabledFlag) = true
      then ctuBody env slice debugCTU i s
      else (ctuBody env slice debugCTU i s).map (fun t => t.withSync c) := by
  unfold ctuBody
  rw [beforeParse_withSync env slice i s c h]
  by_cases hd : (ctuGeom slice i).ctuRsAddr = toUnsigned debugCTU
  · simp [hd, Step.map]
  · simp only [hd, if_false, parseAndReconstruct_withSync]
    by_cases he : ((ctuGeom slice i).atTileLeftEdge &&
        slice.pps.entropyCodingSyncEnabledFlag) = true
    · simp [hd, he]
    · simp only [he, if_false, Bool.false_eq_true, and_false, not_false_eq_true, and_true,
        ne_eq]
      exact terminate_withSync env slice i _ c

theorem extractSubstreams_withSync (n fuel idx : Nat) (s : State Ctx Sub Plt Mv W) (c : Ctx) :
    extractSubstreams env slice n fuel idx (s.withSync c) =
      (extractSubstreams env slice n fuel idx s).withSync c := by
  induction fuel generalizing idx s with
  | zero => rfl
  | succ fuel ih =>
    rw [extractSubstreams, extractSubstreams]
    exact ih (idx + 1)
      { (s.setWorld (env.extractSubstream
            (if idx + 1 < n then (slice.substreamSizes.getD idx 0 <<< 3) % 2 ^ 32
              else env.getNumBitsLeft s.world) s.world).2).emit
          (Event.extractSubstream
            (if idx + 1 < n then (slice.substreamSizes.getD idx 0 <<< 3) % 2 ^ 32
              else env.getNumBitsLeft s.world)) with
        ppcSubstreams := s.ppcSubstreams ++ [(env.extractSubstream
            (if idx + 1 < n then (slice.substreamSizes.getD idx 0 <<< 3) % 2 ^ 32
              else env.getNumBitsLeft s.world) s.world).1] }

theorem demultiplex_withSync (eng : Engine Ctx Plt Mv W) (a c : Ctx) :
    demultiplex env slice eng c = (demultiplex env slice eng a).withSync c := by
  unfold demultiplex
  simp only []
  rw [← extractSubstreams_withSync]
  congr 1
  split <;> rfl

theorem sliceEntry_withSync (eng : Engine Ctx Plt Mv W) (a c : Ctx) :
    sliceEntry env slice eng c = (sliceEntry env slice eng a).withSync c := by
  unfold sliceEntry
  rw [demultiplex_withSync env slice eng a c]
  rfl

theorem deleteSubstreams_withSync (l : List Sub) (idx : Nat) (s : State Ctx Sub Plt Mv W)
    (c : Ctx) :
    deleteSubstreams env l idx (s.withSync c) = (deleteSubstreams env l idx s).withSync c := by
  induction l generalizing idx s with
  | nil => rfl
  | cons x l ih =>
    rw [deleteSubstreams, deleteSubstreams]
    exact ih (idx + 1)
      ((s.setWorld (env.deleteSubstream x s.world)).emit (Event.deleteSubstream idx))

theorem cleanup_withSync (s : State Ctx Sub Plt Mv W) (c : Ctx) :
    cleanup env (s.withSync c) = (cleanup env s).withSync c := by
  unfold cleanup
  simp only [withSync_ppcSubstreams]
  rw [deleteSubstreams_withSync]
  rfl

end Sync

section SyncLoop

variable (env : Env Ctx Sub Plt Mv W) (slice : Slice) (debugCTU : Int)

theorem loopState_eq_some_iff (s0 t : State Ctx Sub Plt Mv W) (m : Nat) :
    loopState env slice debugCTU s0 m = some t ↔
      ctuLoop env slice debugCTU m 0 s0 = Step.next t := by
  unfold loopState
  cases ctuLoop env slice debugCTU m 0 s0 <;> simp

/-- Two runs of the loop from states that differ in the saved contexts only: either they have
become equal, or they still differ in the saved contexts only and no CTU at the left edge of its
tile has been parsed with wavefronts enabled. -/
theorem ctuLoop_withSync (s0 : State Ctx Sub Plt Mv W) (c : Ctx)
    (havail : ∀ i s, i < slice.numCtuInSlice → loopState env slice debugCTU s0 i = some s →
      (ctuGeom slice i).atTileLeftEdge = true → (ctuGeom slice i).atTileOrigin = false →
      availableAt env slice i s = true → ∃ j, j < i ∧ IsAbove slice j i)
    (m : Nat) (hm : m ≤ slice.numCtuInSlice) :
    ctuLoop env slice debugCTU m 0 (s0.withSync c) = ctuLoop env slice debugCTU m 0 s0 ∨
      (ctuLoop env slice debugCTU m 0 (s0.withSync c) =
          (ctuLoop env slice debugCTU m 0 s0).map (fun t => t.withSync c) ∧
        ∀ t, ctuLoop env slice debugCTU m 0 s0 = Step.next t → ∀ j, j < m →
          ((ctuGeom slice j).atTileLeftEdge && slice.pps.entropyCodingSyncEnabledFlag) =
            false) := by
  induction m with
  | zero =>
    refine Or.inr ⟨rfl, ?_⟩
    intro t _ j hj
    omega
  | succ m ih =>
    rcases ih (by omega) with h | ⟨h, hno⟩
    · left
      rw [ctuLoop_succ, ctuLoop_succ, h]
    · rw [ctuLoop_succ, ctuLoop_succ, h]
      cases hl : ctuLoop env slice debugCTU m 0 s0 with
      | next t =>
        simp only [Step.map, Nat.zero_add]
        have hs : loopState env slice debugCTU s0 m = some t :=
          (loopState_eq_some_iff env slice debugCTU s0 t m).2 hl
        have hr : restoresAt env slice m t = false := by
          cases hres : restoresAt env slice m t with
          | false => rfl
          | true =>
            exfalso
            unfold restoresAt at hres
            simp only [Bool.and_eq_true, Bool.not_eq_true'] at hres
            obtain ⟨⟨horig, hedge, hwpp⟩, hav⟩ := hres
            obtain ⟨j, hj, habove⟩ := havail m t (by omega) hs hedge horig hav
            have hje := atTileLeftEdge_of_isAbove slice m j habove hedge
            have := hno t hl j hj
            rw [hje, hwpp] at this
            cases this
        rw [ctuBody_withSync env slice debugCTU m t c hr]
        split
        · left
          rfl
        · rename_i hcond
          right
          refine ⟨rfl, ?_⟩
          intro u hu j hj
          by_cases hjm : j = m
          · subst hjm
            have hd := (ctuBody_next env slice debugCTU j t u hu).1
            cases he : ((ctuGeom slice j).atTileLeftEdge &&
                slice.pps.entropyCodingSyncEnabledFlag) with
            | false => rfl
            | true => exact absurd ⟨hd, he⟩ hcond
          · exact hno t hl j (by omega)
      | stop t =>
        right
        refine ⟨rfl, ?_⟩
        intro u hu
        cases hu
      | fatal t =>
        right
        refine ⟨rfl, ?_⟩
        intro u hu
        cases hu

end SyncLoop

section Rounds

variable (env : Env Ctx Sub Plt Mv W) (slice : Slice) (debugCTU : Int)

/-- The events of a round, from the code, are the events of its skeleton. -/
theorem roundEvents_eq (i : Nat) (s : State Ctx Sub Plt Mv W) :
    roundEvents env slice debugCTU i s = bodyEvents env slice debugCTU i s := by
  unfold roundEvents
  rw [ctuBody_trace, List.drop_left]

/-- An event of the loop belongs to a round that was reached. -/
theorem mem_runEvents (s0 : State Ctx Sub Plt Mv W) (m : Nat) (e : Event)
    (he : e ∈ runEvents env slice debugCTU s0 m) :
    ∃ i s, i < m ∧ loopState env slice debugCTU s0 i = some s ∧
      e ∈ bodyEvents env slice debugCTU i s := by
  induction m with
  | zero => simp [runEvents] at he
  | succ m ih =>
    rw [runEvents, List.mem_append] at he
    rcases he with h | h
    · obtain ⟨i, s, hi, hs, hm⟩ := ih h
      exact ⟨i, s, by omega, hs, hm⟩
    · cases hs : loopState env slice debugCTU s0 m with
      | none => simp [hs] at h
      | some s =>
        rw [hs] at h
        exact ⟨m, s, by omega, hs, h⟩

/-- The events of the loop that pass a filter, round by round. -/
theorem filter_runEvents (p : Event → Bool) (s0 : State Ctx Sub Plt Mv W) (m : Nat) :
    (runEvents env slice debugCTU s0 m).filter p =
      (List.range m).flatMap fun i =>
        match loopState env slice debugCTU s0 i with
        | some s => (bodyEvents env slice debugCTU i s).filter p
        | none => [] := by
  induction m with
  | zero => rfl
  | succ m ih =>
    rw [runEvents, List.filter_append, ih, List.range_succ, List.flatMap_append]
    congr 1
    simp only [List.flatMap_cons, List.flatMap_nil, List.append_nil]
    generalize loopState env slice debugCTU s0 m = o
    cases o <;> rfl

/-- The extraction loop adds extractions only. -/
theorem extractSubstreams_filter (p : Event → Bool)
    (hp : ∀ numBits, p (Event.extractSubstream numBits) = false) (n fuel idx : Nat)
    (s : State Ctx Sub Plt Mv W) :
    (extractSubstreams env slice n fuel idx s).trace.filter p = s.trace.filter p := by
  induction fuel generalizing idx s with
  | zero => rfl
  | succ fuel ih =>
    rw [extractSubstreams, ih]
    simp [hp]

/-- What a filter that drops the extractions and the resizing keeps of the trace at the end of
the extraction loop: the palette reset of line 105, if it keeps that. -/
theorem demultiplex_filter (p : Event → Bool)
    (hp : ∀ numBits, p (Event.extractSubstream numBits) = false)
    (hp2 : p Event.resizeAlf = false) (eng : Engine Ctx Plt Mv W) (sync : Ctx) :
    (demultiplex env slice eng sync).trace.filter p = [Event.resetPrevPLT].filter p := by
  unfold demultiplex
  simp only []
  rw [extractSubstreams_filter env slice p hp]
  split <;> simp [hp2, List.filter_cons]

/-- What such a filter keeps of the trace at the entry of the loop. -/
theorem sliceEntry_filter (p : Event → Bool)
    (hp : ∀ numBits, p (Event.extractSubstream numBits) = false)
    (hp2 : p Event.resizeAlf = false) (eng : Engine Ctx Plt Mv W) (sync : Ctx) :
    (sliceEntry env slice eng sync).trace.filter p =
      [Event.resetPrevPLT, Event.initBitstream 0, Event.initCtxModels,
        Event.setPrevQP slice.sliceQp].filter p := by
  rw [sliceEntry_trace, List.filter_append, demultiplex_filter env slice p hp hp2]
  rw [← List.filter_append]
  rfl

theorem deleteEvents_filter (p : Event → Bool)
    (hp : ∀ idx, p (Event.deleteSubstream idx) = false) (n : Nat) :
    (deleteEvents n).filter p = [] := by
  rw [List.filter_eq_nil_iff]
  intro e he
  simp only [deleteEvents, List.mem_map, List.mem_range] at he
  obtain ⟨idx, _, rfl⟩ := he
  simp [hp]

/-- What a filter that drops extractions, resizing and releases keeps of the trace of a call:
its part of the entry, then its part of each round that was reached. -/
theorem decompressSlice_filter (p : Event → Bool)
    (hp : ∀ numBits, p (Event.extractSubstream numBits) = false)
    (hp2 : p Event.resizeAlf = false) (hp3 : ∀ idx, p (Event.deleteSubstream idx) = false)
    (eng : Engine Ctx Plt Mv W) (sync : Ctx) :
    (decompressSlice env slice debugCTU eng sync).state.trace.filter p =
      [Event.resetPrevPLT, Event.initBitstream 0, Event.initCtxModels,
        Event.setPrevQP slice.sliceQp].filter p ++
      (List.range slice.numCtuInSlice).flatMap fun i =>
        match stateAt env slice debugCTU eng sync i with
        | some s => (roundEvents env slice debugCTU i s).filter p
        | none => [] := by
  rw [decompressSlice_trace, List.filter_append, sliceEntry_filter env slice p hp hp2]
  congr 1
  unfold stateAt
  rw [sliceEntry_prevQP]
  by_cases hq : slice.sliceQp = INT_MAX
  · simp [hq]
  · simp only [hq, if_false, List.filter_append, roundEvents_eq]
    rw [filter_runEvents]
    split
    · simp
    · simp [deleteEvents_filter p hp3]

end Rounds

section TermBits

variable (env : Env Ctx Sub Plt Mv W) (slice : Slice) (debugCTU : Int)

/-- The parse, reconstruction and terminating-bit calls of a decode that parses every CTU. -/
theorem calls_decompressSlice_complete (eng : Engine Ctx Plt Mv W) (sync : Ctx)
    (hq : slice.sliceQp ≠ INT_MAX) (b : Nat) (hb : b ≠ 0)
    (hbit : ∀ w, (env.terminating_bit w).1 = b)
    (hdebug : ∀ i, i < slice.numCtuInSlice →
      (ctuGeom slice i).ctuRsAddr ≠ toUnsigned debugCTU) :
    calls (decompressSlice env slice debugCTU eng sync).state.trace =
      expectedCalls slice slice.numCtuInSlice := by
  have hnf := (decompressSlice_complete env slice debugCTU eng sync hq b hb hbit hdebug).1
  rw [decompressSlice_trace]
  simp only [hq, if_false, hnf, Bool.false_eq_true]
  rw [calls_append, calls_append, calls_of_no_ctuCall_entry, calls_deleteEvents,
    List.nil_append, List.append_nil,
    calls_runEvents env slice debugCTU _ slice.numCtuInSlice slice.numCtuInSlice
      (fun i hi _ => by
        obtain ⟨s, hs⟩ := loopState_total env slice debugCTU (sliceEntry env slice eng sync) b
          hb hbit i (fun j hj => hdebug j (by omega))
        exact ⟨s, hs, hdebug i hi⟩)
      (fun i s hji him _ => by omega)]
  simp

/-- Every CTU of such a decode is reached. -/
theorem stateAt_total (eng : Engine Ctx Plt Mv W) (sync : Ctx)
    (hq : slice.sliceQp ≠ INT_MAX) (b : Nat) (hb : b ≠ 0)
    (hbit : ∀ w, (env.terminating_bit w).1 = b)
    (hdebug : ∀ i, i < slice.numCtuInSlice →
      (ctuGeom slice i).ctuRsAddr ≠ toUnsigned debugCTU) (i : Nat)
    (hi : i ≤ slice.numCtuInSlice) :
    ∃ s, stateAt env slice debugCTU eng sync i = some s := by
  obtain ⟨s, hs⟩ := loopState_total env slice debugCTU (sliceEntry env slice eng sync) b
    hb hbit i (fun j hj => hdebug j (by omega))
  exact ⟨s, (stateAt_eq_some_iff env slice debugCTU eng sync i s).2 ⟨hq, hs⟩⟩

end TermBits

section RoundEvents

variable (env : Env Ctx Sub Plt Mv W) (slice : Slice) (debugCTU : Int)

theorem saveCtx_mem_syncEvents (i sub : Nat) (av : Bool) :
    Event.saveCtx ∉ syncEvents slice i sub av := by
  unfold syncEvents resetUnlessFirstEvents
  simp only []
  split
  · split <;> simp
  · split
    · split <;> cases av <;> simp
    · simp

theorem saveCtx_mem_carryOverEvents (i : Nat) :
    Event.saveCtx ∉ carryOverEvents slice i := by
  unfold carryOverEvents
  simp only []
  split <;> split <;> split <;> simp

theorem saveCtx_mem_parseEvents (i : Nat) :
    Event.saveCtx ∈ parseEvents slice i ↔
      ((ctuGeom slice i).atTileLeftEdge && slice.pps.entropyCodingSyncEnabledFlag) = true := by
  unfold parseEvents
  simp only []
  split <;> simp_all

theorem saveCtx_mem_terminateEvents (chk : Bool) (i c : Nat) :
    Event.saveCtx ∉ terminateEvents chk slice i c := by
  unfold terminateEvents
  split
  · split <;> simp
  · simp

/-- The saved contexts are written in a round exactly when the CTU is parsed, wavefronts are
enabled and the CTU is at the left edge of its tile. -/
theorem saveCtx_mem_bodyEvents (i : Nat) (s : State Ctx Sub Plt Mv W) :
    Event.saveCtx ∈ bodyEvents env slice debugCTU i s ↔
      (ctuGeom slice i).ctuRsAddr ≠ toUnsigned debugCTU ∧
        slice.pps.entropyCodingSyncEnabledFlag = true ∧
        (ctuGeom slice i).atTileLeftEdge = true := by
  unfold bodyEvents
  simp only [List.mem_append, saveCtx_mem_syncEvents, saveCtx_mem_carryOverEvents, false_or]
  by_cases hd : (ctuGeom slice i).ctuRsAddr = toUnsigned debugCTU
  · simp [hd]
  · simp [hd, saveCtx_mem_parseEvents, saveCtx_mem_terminateEvents, and_comm]

theorem restoreCtx_mem_syncEvents (i sub : Nat) (av : Bool) :
    Event.restoreCtx ∈ syncEvents slice i sub av ↔
      slice.pps.entropyCodingSyncEnabledFlag = true ∧
        (ctuGeom slice i).atTileLeftEdge = true ∧
        (ctuGeom slice i).atTileOrigin = false ∧ av = true := by
  unfold syncEvents resetUnlessFirstEvents
  simp only []
  split
  · split <;> simp_all
  · split
    · split <;> cases av <;> simp_all
    · rename_i h1 h2
      simp only [Bool.and_eq_true, not_and, Bool.not_eq_true] at h2
      simp only [List.mem_cons, List.mem_nil_iff, or_false]
      constructor
      · intro h
        cases h
      · rintro ⟨hw, hl, _⟩
        rw [h2 hl] at hw
        cases hw

theorem restoreCtx_mem_carryOverEvents (i : Nat) :
    Event.restoreCtx ∉ carryOverEvents slice i := by
  unfold carryOverEvents
  simp only []
  split <;> split <;> split <;> simp

theorem restoreCtx_mem_parseEvents (i : Nat) :
    Event.restoreCtx ∉ parseEvents slice i := by
  unfold parseEvents
  simp only []
  split <;> simp

theorem restoreCtx_mem_terminateEvents (chk : Bool) (i c : Nat) :
    Event.restoreCtx ∉ terminateEvents chk slice i c := by
  unfold terminateEvents
  split
  · split <;> simp
  · simp

/-- The saved contexts are copied into the reader in a round exactly when wavefronts are
enabled, the CTU is at the left edge of its tile and not the tile origin, and line 222 is
answered yes. -/
theorem restoreCtx_mem_bodyEvents (i : Nat) (s : State Ctx Sub Plt Mv W) :
    Event.restoreCtx ∈ bodyEvents env slice debugCTU i s ↔
      slice.pps.entropyCodingSyncEnabledFlag = true ∧
        (ctuGeom slice i).atTileLeftEdge = true ∧
        (ctuGeom slice i).atTileOrigin = false ∧
        availableAt env slice i s = true := by
  unfold bodyEvents
  simp only [List.mem_append, restoreCtx_mem_syncEvents, restoreCtx_mem_carryOverEvents,
    or_false]
  by_cases hd : (ctuGeom slice i).ctuRsAddr = toUnsigned debugCTU
  · simp [hd]
  · simp [hd, restoreCtx_mem_parseEvents, restoreCtx_mem_terminateEvents]

theorem filter_isParseOrSave_syncEvents (i sub : Nat) (av : Bool) :
    (syncEvents slice i sub av).filter Event.isParseOrSave = [] := by
  unfold syncEvents resetUnlessFirstEvents
  simp only []
  split
  · split <;> simp [List.filter_cons, Event.isParseOrSave]
  · split
    · split <;> cases av <;> simp [List.filter_cons, Event.isParseOrSave]
    · simp [List.filter_cons, Event.isParseOrSave]

theorem filter_isParseOrSave_carryOverEvents (i : Nat) :
    (carryOverEvents slice i).filter Event.isParseOrSave = [] := by
  unfold carryOverEvents
  simp only []
  split <;> split <;> split <;> simp [List.filter_cons, Event.isParseOrSave]

theorem filter_isParseOrSave_parseEvents (i : Nat) :
    (parseEvents slice i).filter Event.isParseOrSave =
      Event.coding_tree_unit (ctuGeom slice i).ctuRsAddr ::
        (if (ctuGeom slice i).atTileLeftEdge && slice.pps.entropyCodingSyncEnabledFlag then
          [Event.saveCtx] else []) := by
  unfold parseEvents
  simp only []
  split <;> simp [List.filter_cons, Event.isParseOrSave]

theorem filter_isParseOrSave_terminateEvents (chk : Bool) (i c : Nat) :
    (terminateEvents chk slice i c).filter Event.isParseOrSave = [] := by
  unfold terminateEvents
  split
  · split <;> simp [List.filter_cons, Event.isParseOrSave]
  · simp

theorem filter_isParseOrSave_bodyEvents (i : Nat) (s : State Ctx Sub Plt Mv W) :
    (bodyEvents env slice debugCTU i s).filter Event.isParseOrSave =
      if (ctuGeom slice i).ctuRsAddr = toUnsigned debugCTU then []
      else Event.coding_tree_unit (ctuGeom slice i).ctuRsAddr ::
        (if (ctuGeom slice i).atTileLeftEdge && slice.pps.entropyCodingSyncEnabledFlag then
          [Event.saveCtx] else []) := by
  unfold bodyEvents
  rw [List.filter_append, List.filter_append, filter_isParseOrSave_syncEvents,
    filter_isParseOrSave_carryOverEvents]
  by_cases hd : (ctuGeom slice i).ctuRsAddr = toUnsigned debugCTU
  · simp [hd]
  · simp only [hd, if_false, List.filter_append, filter_isParseOrSave_parseEvents,
      filter_isParseOrSave_terminateEvents, List.append_nil, List.nil_append]

variable (other : Slice)

theorem saveSkeleton_congr (hpps : slice.pps = other.pps)
    (hctus : slice.ctuAddrInSlice = other.ctuAddrInSlice) :
    saveSkeleton slice = saveSkeleton other := by
  unfold saveSkeleton
  have hn : slice.numCtuInSlice = other.numCtuInSlice := by
    unfold Slice.numCtuInSlice
    rw [hctus]
  rw [hn, hpps]
  congr 1
  funext i
  rw [(ctuGeom_congr slice other hpps hctus i).1, (ctuGeom_congr slice other hpps hctus i).2.2.1]

/-- The parses and the writes of the saved contexts of a decode that parses every CTU. -/
theorem filter_isParseOrSave_decompressSlice (eng : Engine Ctx Plt Mv W) (sync : Ctx)
    (hq : slice.sliceQp ≠ INT_MAX) (b : Nat) (hb : b ≠ 0)
    (hbit : ∀ w, (env.terminating_bit w).1 = b)
    (hdebug : ∀ i, i < slice.numCtuInSlice →
      (ctuGeom slice i).ctuRsAddr ≠ toUnsigned debugCTU) :
    (decompressSlice env slice debugCTU eng sync).state.trace.filter Event.isParseOrSave =
      saveSkeleton slice := by
  rw [decompressSlice_filter env slice debugCTU Event.isParseOrSave (fun _ => rfl) rfl
    (fun _ => rfl)]
  unfold saveSkeleton
  have h0 : [Event.resetPrevPLT, Event.initBitstream 0, Event.initCtxModels,
      Event.setPrevQP slice.sliceQp].filter Event.isParseOrSave = [] := rfl
  rw [h0, List.nil_append]
  apply List.flatMap_congr
  intro i hi
  rw [List.mem_range] at hi
  obtain ⟨s, hs⟩ := stateAt_total env slice debugCTU eng sync hq b hb hbit hdebug i (by omega)
  rw [hs]
  simp only []
  rw [roundEvents_eq, filter_isParseOrSave_bodyEvents, if_neg (hdebug i hi)]

/-- An event of a decode that is none of the four events of the slice entry and can be produced
by the loop body was produced in a round of the loop. -/
theorem mem_trace_round (eng : Engine Ctx Plt Mv W) (sync : Ctx) (e : Event)
    (hin : e.inLoop = true)
    (he0 : e ∉ [Event.resetPrevPLT, Event.initBitstream 0, Event.initCtxModels,
      Event.setPrevQP slice.sliceQp])
    (he : e ∈ (decompressSlice env slice debugCTU eng sync).state.trace) :
    ∃ i s, i < slice.numCtuInSlice ∧ stateAt env slice debugCTU eng sync i = some s ∧
      e ∈ roundEvents env slice debugCTU i s := by
  have hf : e ∈ (decompressSlice env slice debugCTU eng sync).state.trace.filter
      (fun x => decide (x = e)) := by
    rw [List.mem_filter]
    exact ⟨he, by simp⟩
  rw [decompressSlice_filter env slice debugCTU (fun x => decide (x = e))
    (fun n => by
      cases e <;> simp_all [Event.inLoop])
    (by cases e <;> simp_all [Event.inLoop])
    (fun n => by
      cases e <;> simp_all [Event.inLoop])] at hf
  rw [List.mem_append] at hf
  rcases hf with hf | hf
  · rw [List.mem_filter] at hf
    exact absurd hf.1 he0
  · rw [List.mem_flatMap] at hf
    obtain ⟨i, hi, hm⟩ := hf
    rw [List.mem_range] at hi
    cases hs : stateAt env slice debugCTU eng sync i with
    | none =>
      rw [hs] at hm
      cases hm
    | some s =>
      rw [hs] at hm
      simp only [] at hm
      rw [List.mem_filter] at hm
      exact ⟨i, s, hi, hs, hm.1⟩

theorem mem_runEvents_of_round (s0 : State Ctx Sub Plt Mv W) (m i : Nat)
    (s : State Ctx Sub Plt Mv W) (hi : i < m)
    (hs : loopState env slice debugCTU s0 i = some s) (e : Event)
    (he : e ∈ bodyEvents env slice debugCTU i s) :
    e ∈ runEvents env slice debugCTU s0 m := by
  induction m with
  | zero => omega
  | succ m ih =>
    rw [runEvents, List.mem_append]
    by_cases h : i = m
    · subst h
      right
      rw [hs]
      exact he
    · left
      exact ih (by omega)

/-- The events of a round that is reached are events of the decode. -/
theorem round_mem_trace (eng : Engine Ctx Plt Mv W) (sync : Ctx) (i : Nat)
    (s : State Ctx Sub Plt Mv W) (hi : i < slice.numCtuInSlice)
    (hs : stateAt env slice debugCTU eng sync i = some s) (e : Event)
    (he : e ∈ roundEvents env slice debugCTU i s) :
    e ∈ (decompressSlice env slice debugCTU eng sync).state.trace := by
  obtain ⟨hq, hl⟩ := (stateAt_eq_some_iff env slice debugCTU eng sync i s).1 hs
  rw [roundEvents_eq] at he
  rw [decompressSlice_trace, if_neg hq, List.mem_append, List.mem_append]
  exact Or.inr (Or.inl (mem_runEvents_of_round env slice debugCTU _ _ i s hi hl e he))

end RoundEvents

section Resets

variable (env : Env Ctx Sub Plt Mv W) (slice : Slice) (debugCTU : Int)

theorem resetsContexts_iff (i : Nat) :
    resetsContexts slice i = true ↔
      0 < i ∧ ((ctuGeom slice i).atTileOrigin = true ∨
        (slice.pps.entropyCodingSyncEnabledFlag = true ∧
          (ctuGeom slice i).atTileLeftEdge = true)) := by
  unfold resetsContexts
  simp only [Bool.and_eq_true, Bool.or_eq_true, bne_iff_ne, ne_eq]
  constructor
  · rintro ⟨h0, h | ⟨h1, h2⟩⟩
    · exact ⟨by omega, Or.inl h⟩
    · exact ⟨by omega, Or.inr ⟨h2, h1⟩⟩
  · rintro ⟨h0, h | ⟨h1, h2⟩⟩
    · exact ⟨by omega, Or.inl h⟩
    · exact ⟨by omega, Or.inr ⟨h2, h1⟩⟩

theorem filter_isReset_syncEvents (i sub : Nat) (av : Bool) :
    (syncEvents slice i sub av).filter Event.isReset =
      if resetsContexts slice i then [Event.initCtxModels, Event.resetPrevPLT] else [] := by
  unfold syncEvents resetUnlessFirstEvents resetsContexts
  simp only []
  split
  · split <;> simp_all [List.filter_cons, Event.isReset]
  · split
    · split <;> cases av <;> simp_all [List.filter_cons, Event.isReset]
    · simp_all [List.filter_cons, Event.isReset]

theorem filter_isReset_carryOverEvents (i : Nat) :
    (carryOverEvents slice i).filter Event.isReset = [] := by
  unfold carryOverEvents
  simp only []
  split <;> split <;> split <;> simp [List.filter_cons, Event.isReset]

theorem filter_isReset_parseEvents (i : Nat) :
    (parseEvents slice i).filter Event.isReset = [] := by
  unfold parseEvents
  simp only []
  split <;> simp [List.filter_cons, Event.isReset]

theorem filter_isReset_terminateEvents (chk : Bool) (i c : Nat) :
    (terminateEvents chk slice i c).filter Event.isReset = [] := by
  unfold terminateEvents
  split
  · split <;> simp [List.filter_cons, Event.isReset]
  · simp

/-- The initialisations of the contexts and the resets of the palette predictor of one round. -/
theorem filter_isReset_bodyEvents (i : Nat) (s : State Ctx Sub Plt Mv W) :
    (bodyEvents env slice debugCTU i s).filter Event.isReset =
      if resetsContexts slice i then [Event.initCtxModels, Event.resetPrevPLT] else [] := by
  unfold bodyEvents
  rw [List.filter_append, List.filter_append, filter_isReset_syncEvents,
    filter_isReset_carryOverEvents]
  by_cases hd : (ctuGeom slice i).ctuRsAddr = toUnsigned debugCTU
  · simp [hd]
  · simp only [hd, if_false, List.filter_append, filter_isReset_parseEvents,
      filter_isReset_terminateEvents, List.append_nil]

end Resets

section OwnFields

variable (env : Env Ctx Sub Plt Mv W) (slice : Slice) (debugCTU : Int)

@[simp] theorem setWorld_ownFields (s : State Ctx Sub Plt Mv W) (w : W) :
    (s.setWorld w).eng.cs.ownFields = s.eng.cs.ownFields := rfl

@[simp] theorem selectBitSource_ownFields (s : State Ctx Sub Plt Mv W) :
    (selectBitSource env s).eng.cs.ownFields = s.eng.cs.ownFields := rfl

@[simp] theorem setPrevQP_ownFields (s : State Ctx Sub Plt Mv W) :
    (setPrevQP slice s).eng.cs.ownFields = s.eng.cs.ownFields := rfl

theorem resetEntropy_ownFields (s : State Ctx Sub Plt Mv W) :
    (resetEntropy env slice s).eng.cs.ownFields =
      (env.resetPrevPLT s.eng.cs.prevPLT, s.eng.cs.lut, s.eng.cs.lutIbc,
        s.eng.cs.resetIBCBuffer) := rfl

theorem resetUnlessFirst_ownFields (i : Nat) (s : State Ctx Sub Plt Mv W) :
    (resetUnlessFirst env slice i s).eng.cs.ownFields =
      if i ≠ 0 then (env.resetPrevPLT s.eng.cs.prevPLT, s.eng.cs.lut, s.eng.cs.lutIbc,
        s.eng.cs.resetIBCBuffer) else s.eng.cs.ownFields := by
  unfold resetUnlessFirst
  split
  · rfl
  · rfl

theorem resetUnlessFirst_zero (s : State Ctx Sub Plt Mv W) :
    resetUnlessFirst env slice 0 s = s := by
  simp [resetUnlessFirst]

theorem resetUnlessFirst_succ (k : Nat) (s : State Ctx Sub Plt Mv W) :
    resetUnlessFirst env slice (k + 1) s = resetEntropy env slice s := by
  simp [resetUnlessFirst]

/-- Lines 191-231 write the palette predictor where the contexts are initialised again, and
leave the history lists and the flag alone. -/
theorem syncContexts_ownFields (i : Nat) (s : State Ctx Sub Plt Mv W) :
    (syncContexts env slice i s).eng.cs.ownFields =
      if resetsContexts slice i then
        (env.resetPrevPLT s.eng.cs.prevPLT, s.eng.cs.lut, s.eng.cs.lutIbc,
          s.eng.cs.resetIBCBuffer)
      else s.eng.cs.ownFields := by
  unfold syncContexts resetsContexts
  simp only []
  cases i with
  | zero =>
    simp only [resetUnlessFirst_zero]
    split
    · rfl
    · split
      · split <;> rfl
      · rfl
  | succ k =>
    simp only [resetUnlessFirst_succ]
    by_cases h1 : (ctuGeom slice (k + 1)).atTileOrigin = true
    · simp only [h1, if_true]
      rfl
    · by_cases h2 : ((ctuGeom slice (k + 1)).atTileLeftEdge &&
          slice.pps.entropyCodingSyncEnabledFlag) = true
      · simp only [h1, h2, if_true, if_false]
        generalize topAvailable env slice (ctuGeom slice (k + 1)) _ = av
        cases av <;> simp <;> rfl
      · simp only [h1, h2, if_false]
        simp [h1, h2]

/-- Lines 234-253 write the history lists and the flag at the left edge of a tile, and leave
the palette predictor alone. -/
theorem resetCarryOver_ownFields (i : Nat) (s : State Ctx Sub Plt Mv W) :
    (resetCarryOver env slice i s).eng.cs.ownFields =
      if clearsMotionHistory slice i then (s.eng.cs.prevPLT, [], [], true)
      else s.eng.cs.ownFields := by
  unfold resetCarryOver clearsMotionHistory
  simp only []
  split <;> split <;> split <;> simp_all [CodingStructure.ownFields]

theorem beforeParse_ownFields (i : Nat) (s : State Ctx Sub Plt Mv W) :
    (beforeParse env slice i s).eng.cs.ownFields =
      (if resetsContexts slice i then env.resetPrevPLT s.eng.cs.prevPLT else s.eng.cs.prevPLT,
        if clearsMotionHistory slice i then ([], [], true)
        else (s.eng.cs.lut, s.eng.cs.lutIbc, s.eng.cs.resetIBCBuffer)) := by
  unfold beforeParse
  rw [resetCarryOver_ownFields]
  have h := syncContexts_ownFields env slice i s
  unfold CodingStructure.ownFields at h ⊢
  split at h <;> split <;> simp_all

@[simp] theorem readTerminatingBit_ownFields (s : State Ctx Sub Plt Mv W) :
    (readTerminatingBit env s).eng.cs.ownFields = s.eng.cs.ownFields := rfl

@[simp] theorem remainingBytes_ownFields (b : Bool) (s : State Ctx Sub Plt Mv W) :
    (remainingBytes env b s).eng.cs.ownFields = s.eng.cs.ownFields := by
  unfold remainingBytes
  split <;> rfl

theorem terminate_ownFields (i : Nat) (s : State Ctx Sub Plt Mv W) :
    (terminate env slice i s).state.eng.cs.ownFields = s.eng.cs.ownFields := by
  rw [terminate_eq]
  split
  · split
    · rfl
    · split <;> simp [Step.state]
  · rfl

theorem parseAndReconstruct_ownFields (i : Nat) (s : State Ctx Sub Plt Mv W) :
    (parseAndReconstruct env slice i s).eng.cs.ownFields =
      (env.decompressCtu (ctuGeom slice i).ctuArea
        (env.coding_tree_unit (ctuGeom slice i).ctuArea (ctuGeom slice i).ctuRsAddr
          s.eng).cs).ownFields := by
  unfold parseAndReconstruct
  simp only []
  split <;> rfl

/-- The fields after the body, when the CTU was parsed: as the reconstruction of the CTU left
them. -/
theorem ctuBody_ownFields (i : Nat) (s : State Ctx Sub Plt Mv W)
    (hd : (ctuGeom slice i).ctuRsAddr ≠ toUnsigned debugCTU) :
    (ctuBody env slice debugCTU i s).state.eng.cs.ownFields =
      (env.decompressCtu (ctuGeom slice i).ctuArea (afterParse env slice i s).cs).ownFields := by
  unfold ctuBody afterParse
  simp only [hd, if_false]
  rw [terminate_ownFields, parseAndReconstruct_ownFields]

/-- The state in which the round of CTU `j + 1` is entered holds the contexts, the previous-QP
pair and the fields of the coding structure as the parse and the reconstruction of CTU `j` left
them. -/
theorem stateAt_succ_eng (eng : Engine Ctx Plt Mv W) (sync : Ctx) (j : Nat)
    (r s : State Ctx Sub Plt Mv W)
    (hr : stateAt env slice debugCTU eng sync j = some r)
    (hs : stateAt env slice debugCTU eng sync (j + 1) = some s) :
    s.eng.ctx = (afterParse env slice j r).ctx ∧
      s.eng.prevQP = (afterParse env slice j r).prevQP ∧
      s.eng.cs.ownFields =
        (env.decompressCtu (ctuGeom slice j).ctuArea (afterParse env slice j r).cs).ownFields := by
  obtain ⟨_, hr2⟩ := (stateAt_eq_some_iff env slice debugCTU eng sync j r).1 hr
  obtain ⟨_, hs2⟩ := (stateAt_eq_some_iff env slice debugCTU eng sync (j + 1) s).1 hs
  obtain ⟨r2, hr3, hb⟩ := (loopState_succ_eq_some env slice debugCTU _ s j).1 hs2
  rw [hr2] at hr3
  cases hr3
  have hd := (ctuBody_next env slice debugCTU j r s hb).1
  have h1 := ctuBody_ctx env slice debugCTU j r hd
  have h2 := ctuBody_prevQP env slice debugCTU j r hd
  have h3 := ctuBody_ownFields env slice debugCTU j r hd
  rw [hb] at h1 h2 h3
  exact ⟨h1, h2, h3⟩

theorem clearsMotionHistory_iff (i : Nat) :
    clearsMotionHistory slice i = true ↔
      (slice.sliceType ≠ SliceType.I_SLICE ∨ slice.sps.ibcFlag = true) ∧
        (ctuGeom slice i).atTileLeftEdge = true := by
  unfold clearsMotionHistory
  simp

theorem resetMotionLut_mem_syncEvents (i sub : Nat) (av : Bool) :
    Event.resetMotionLut ∉ syncEvents slice i sub av := by
  unfold syncEvents resetUnlessFirstEvents
  simp only []
  split
  · split <;> simp
  · split
    · split <;> cases av <;> simp
    · simp

theorem resetMotionLut_mem_carryOverEvents (i : Nat) :
    Event.resetMotionLut ∈ carryOverEvents slice i ↔ clearsMotionHistory slice i = true := by
  unfold carryOverEvents clearsMotionHistory
  simp only []
  split <;> split <;> split <;> simp_all

theorem resetMotionLut_mem_parseEvents (i : Nat) :
    Event.resetMotionLut ∉ parseEvents slice i := by
  unfold parseEvents
  simp only []
  split <;> simp

theorem resetMotionLut_mem_terminateEvents (chk : Bool) (i c : Nat) :
    Event.resetMotionLut ∉ terminateEvents chk slice i c := by
  unfold terminateEvents
  split
  · split <;> simp
  · simp

/-- The history lists are emptied in a round exactly when the slice is not an I slice (or IBC is
enabled) and the CTU is at the left edge of its tile. -/
theorem resetMotionLut_mem_bodyEvents (i : Nat) (s : State Ctx Sub Plt Mv W) :
    Event.resetMotionLut ∈ bodyEvents env slice debugCTU i s ↔
      clearsMotionHistory slice i = true := by
  unfold bodyEvents
  simp only [List.mem_append, resetMotionLut_mem_syncEvents, resetMotionLut_mem_carryOverEvents,
    false_or]
  by_cases hd : (ctuGeom slice i).ctuRsAddr = toUnsigned debugCTU
  · simp [hd]
  · simp [hd, resetMotionLut_mem_parseEvents, resetMotionLut_mem_terminateEvents]

end OwnFields

section Bcw

variable (env : Env Ctx Sub Plt Mv W) (slice : Slice) (debugCTU : Int)

end Bcw

section Restore

variable (env : Env Ctx Sub Plt Mv W) (slice : Slice) (debugCTU : Int)

theorem toInt32_of_lt (n : Nat) (h : n < 2 ^ 31) : toInt32 n = (n : Int) := by
  unfold toInt32
  have h1 : n % 2 ^ 32 = n := Nat.mod_eq_of_lt (by omega)
  rw [h1, if_pos h]

/-- The `int` sum `z + (-1)` of a positive `z` below 2^31 is `z - 1`. -/
theorem toInt32_toUnsigned_pred (z : Int) (h0 : 1 ≤ z) (h1 : z < 2 ^ 31) :
    toInt32 (toUnsigned (z - 1)) = z - 1 := by
  have hu : toUnsigned (z - 1) = (z - 1).toNat := by
    unfold toUnsigned
    rw [Int.emod_eq_of_lt (by omega) (by omega)]
  rw [hu, toInt32_of_lt _ (by omega)]
  omega

/-- The position asked for at line 222, for a CTU at the left edge of its tile that is not the
tile origin, when the tile does not start below the CTU and the products `x * S` and `y * S` are
below 2^31: one sample row above the CTU, inside the CTU of the same column in the row above. -/
theorem query_position (i : Nat)
    (hl : (ctuGeom slice i).atTileLeftEdge = true)
    (ho : (ctuGeom slice i).atTileOrigin = false)
    (htile : (ctuGeom slice i).tileYPosInCtus ≤ (ctuGeom slice i).ctuYPosInCtus)
    (hS : 1 ≤ slice.sps.maxCUWidth)
    (hx : (ctuGeom slice i).ctuXPosInCtus * slice.sps.maxCUWidth < 2 ^ 31)
    (hy : (ctuGeom slice i).ctuYPosInCtus * slice.sps.maxCUWidth < 2 ^ 31) :
    1 ≤ (ctuGeom slice i).ctuYPosInCtus ∧
      (ctuGeom slice i).posX =
        (((ctuGeom slice i).ctuXPosInCtus * slice.sps.maxCUWidth : Nat) : Int) ∧
      (ctuGeom slice i).aboveY =
        (((ctuGeom slice i).ctuYPosInCtus * slice.sps.maxCUWidth : Nat) : Int) - 1 ∧
      0 ≤ (ctuGeom slice i).aboveY ∧
      ((((ctuGeom slice i).ctuYPosInCtus - 1) * slice.sps.maxCUWidth : Nat) : Int) ≤
        (ctuGeom slice i).aboveY ∧
      (ctuGeom slice i).aboveY <
        (((ctuGeom slice i).ctuYPosInCtus * slice.sps.maxCUWidth : Nat) : Int) ∧
      (ctuGeom slice i).posX <
        ((((ctuGeom slice i).ctuXPosInCtus + 1) * slice.sps.maxCUWidth : Nat) : Int) := by
  have hpx : (ctuGeom slice i).posX =
      toInt32 ((ctuGeom slice i).ctuXPosInCtus * slice.sps.maxCUWidth) := rfl
  have hpy : (ctuGeom slice i).aboveY =
      toInt32 (toUnsigned
        (toInt32 ((ctuGeom slice i).ctuYPosInCtus * slice.sps.maxCUWidth) - 1)) := rfl
  rw [hpx, hpy, toInt32_of_lt _ hx, toInt32_of_lt _ hy]
  unfold CtuGeom.atTileLeftEdge at hl
  unfold CtuGeom.atTileOrigin at ho
  rw [hl, Bool.true_and] at ho
  have hne : (ctuGeom slice i).ctuYPosInCtus ≠ (ctuGeom slice i).tileYPosInCtus := by
    simpa using ho
  generalize (ctuGeom slice i).ctuYPosInCtus = y at *
  generalize (ctuGeom slice i).ctuXPosInCtus = x at *
  generalize (ctuGeom slice i).tileYPosInCtus = ty at *
  generalize slice.sps.maxCUWidth = S at *
  have hy1 : 1 ≤ y := by omega
  obtain ⟨k, rfl⟩ : ∃ k, y = k + 1 := ⟨y - 1, by omega⟩
  have e1 : (k + 1) * S = k * S + S := by ring
  have e2 : (x + 1) * S = x * S + S := by ring
  have e3 : k + 1 - 1 = k := by omega
  rw [e1] at hy
  rw [e1, e2, e3, toInt32_toUnsigned_pred _ (by omega) (by omega)]
  refine ⟨hy1, rfl, rfl, ?_, ?_, ?_, ?_⟩ <;> omega

theorem getCURestricted_mem_syncEvents (i sub : Nat) (av : Bool)
    (ho : (ctuGeom slice i).atTileOrigin = false)
    (hw : ((ctuGeom slice i).atTileLeftEdge && slice.pps.entropyCodingSyncEnabledFlag) = true) :
    Event.getCURestricted (ctuGeom slice i).posX (ctuGeom slice i).aboveY
      (ctuGeom slice i).posX (ctuGeom slice i).posY slice.independentSliceIdx
      (ctuGeom slice i).tileIdx av ∈ syncEvents slice i sub av := by
  unfold syncEvents
  simp only [ho, hw, Bool.false_eq_true, if_false, if_true]
  simp

/-- What the parse is handed as contexts when the saved contexts are not copied: the contexts
initialised in the round, or those the round was entered with. -/
theorem beforeParse_ctx_of_not_restored (i : Nat) (s : State Ctx Sub Plt Mv W)
    (h : ¬ (slice.pps.entropyCodingSyncEnabledFlag = true ∧
        (ctuGeom slice i).atTileLeftEdge = true ∧
        (ctuGeom slice i).atTileOrigin = false ∧
        availableAt env slice i s = true)) :
    (beforeParse env slice i s).eng.ctx =
      if resetsContexts slice i then (env.initCtxModels slice (selectBitSource env s).world).1
      else s.eng.ctx := by
  rw [beforeParse_ctx, syncContexts_ctx]
  unfold resetsContexts
  cases i with
  | zero =>
    have e : ((0 : Nat) != 0) = false := rfl
    simp only [e, Bool.false_and, Bool.false_eq_true, if_false, ne_eq, not_true_eq_false]
    split
    · rfl
    · split
      · split
        · rename_i h1 h2 h3
          simp only [Bool.and_eq_true] at h2
          exact absurd ⟨h2.2, h2.1, by simpa using h1, h3⟩ h
        · rfl
      · rfl
  | succ k =>
    have e : ((k + 1) != 0) = true := rfl
    have e2 : k + 1 ≠ 0 := by omega
    simp only [e, Bool.true_and, ne_eq, e2, not_false_eq_true, if_true]
    cases h1 : (ctuGeom slice (k + 1)).atTileOrigin
    · cases h2 : ((ctuGeom slice (k + 1)).atTileLeftEdge &&
          slice.pps.entropyCodingSyncEnabledFlag)
      · simp
      · simp only [Bool.false_eq_true, if_false, if_true, Bool.false_or]
        split
        · rename_i h3
          simp only [Bool.and_eq_true] at h2
          exact absurd ⟨h2.2, h2.1, h1, h3⟩ h
        · rfl
    · simp

/-- The contexts and the palette predictor the loop is entered with are the ones the calls of
lines 105 and 138 produced. -/
theorem sliceEntry_reset (eng : Engine Ctx Plt Mv W) (sync : Ctx) :
    (sliceEntry env slice eng sync).eng.ctx =
        (env.initCtxModels slice
          (env.initBitstream ((demultiplex env slice eng sync).ppcSubstreams.get? 0)
            (demultiplex env slice eng sync).world)).1 ∧
      (sliceEntry env slice eng sync).eng.cs.prevPLT = env.resetPrevPLT eng.cs.prevPLT := by
  constructor
  · rfl
  · have h : ∀ n fuel idx (s : State Ctx Sub Plt Mv W),
        (extractSubstreams env slice n fuel idx s).eng.cs.prevPLT = s.eng.cs.prevPLT := by
      intro n fuel
      induction fuel with
      | zero => intro idx s; rfl
      | succ fuel ih =>
        intro idx s
        rw [extractSubstreams, ih]
        rfl
    have h2 : (demultiplex env slice eng sync).eng.cs.prevPLT =
        env.resetPrevPLT eng.cs.prevPLT := by
      unfold demultiplex
      simp only []
      rw [h]
      split <;> rfl
    exact h2

/-- What a round that parses its CTU leaves: the contexts and the previous-QP pair are the ones
`coding_tree_unit` returned for the engine state `beforeParse` built, and the fields of the
coding structure the ones `decompressCtu` returned after it. -/
theorem ctuBody_parsed_eng (i : Nat) (s : State Ctx Sub Plt Mv W)
    (hd : (ctuGeom slice i).ctuRsAddr ≠ toUnsigned debugCTU) :
    (ctuBody env slice debugCTU i s).state.eng.ctx =
        (env.coding_tree_unit (ctuGeom slice i).ctuArea (ctuGeom slice i).ctuRsAddr
          (beforeParse env slice i s).eng).ctx ∧
      (ctuBody env slice debugCTU i s).state.eng.prevQP =
        (env.coding_tree_unit (ctuGeom slice i).ctuArea (ctuGeom slice i).ctuRsAddr
          (beforeParse env slice i s).eng).prevQP ∧
      (ctuBody env slice debugCTU i s).state.eng.cs.ownFields =
        (env.decompressCtu (ctuGeom slice i).ctuArea
          (env.coding_tree_unit (ctuGeom slice i).ctuArea (ctuGeom slice i).ctuRsAddr
            (beforeParse env slice i s).eng).cs).ownFields :=
  ⟨ctuBody_ctx env slice debugCTU i s hd, ctuBody_prevQP env slice debugCTU i s hd,
    ctuBody_ownFields env slice debugCTU i s hd⟩

end Restore

/-- For a CTU inside the extent of its tile, the tile ending within the `unsigned` range, the
test of lines 294-295 says that the CTU is in the last column of the tile and (in the last row
of the tile or wavefronts are enabled). -/
theorem endsSubstream_iff_of_inTile (g : CtuGeom) (w : Bool)
    (hx : g.ctuXPosInCtus < g.tileXPosInCtus + g.tileColWidth)
    (hxr : g.tileXPosInCtus + g.tileColWidth ≤ 2 ^ 32)
    (hy : g.ctuYPosInCtus < g.tileYPosInCtus + g.tileRowHeight)
    (hyr : g.tileYPosInCtus + g.tileRowHeight ≤ 2 ^ 32) :
    g.endsSubstream w = true ↔
      g.ctuXPosInCtus + 1 = g.tileXPosInCtus + g.tileColWidth ∧
        (g.ctuYPosInCtus + 1 = g.tileYPosInCtus + g.tileRowHeight ∨ w = true) := by
  unfold CtuGeom.endsSubstream
  simp only [Bool.and_eq_true, Bool.or_eq_true, beq_iff_eq]
  norm_num at hxr hyr ⊢
  constructor
  · rintro ⟨h1, h2⟩
    refine ⟨by omega, ?_⟩
    rcases h2 with h2 | h2
    · left
      omega
    · exact Or.inr h2
  · rintro ⟨h1, h2⟩
    refine ⟨by omega, ?_⟩
    rcases h2 with h2 | h2
    · left
      omega
    · exact Or.inr h2

section DebugBreak

variable (env : Env Ctx Sub Plt Mv W) (slice : Slice) (debugCTU : Int)

/-- The shape of a loop that does not fail: the rounds below some index `j` are reached and
parse their CTU, and if `j` is an index of the slice, the round of `j` is reached, its CTU is
the debug target, and no later round is reached. -/
theorem loop_shape (s0 : State Ctx Sub Plt Mv W)
    (hnf : ∀ t, ctuLoop env slice debugCTU slice.numCtuInSlice 0 s0 ≠ Step.fatal t) :
    ∃ j, j ≤ slice.numCtuInSlice ∧
      (∀ k, k < j → ∃ s, loopState env slice debugCTU s0 k = some s ∧
        (ctuGeom slice k).ctuRsAddr ≠ toUnsigned debugCTU) ∧
      (j < slice.numCtuInSlice → ∃ s, loopState env slice debugCTU s0 j = some s ∧
        (ctuGeom slice j).ctuRsAddr = toUnsigned debugCTU) ∧
      (∀ k, j < k → loopState env slice debugCTU s0 k = none ∨ slice.numCtuInSlice ≤ j) := by
  rcases ctuLoop_cases env slice debugCTU s0 slice.numCtuInSlice with
    ⟨t, ht, hl⟩ | ⟨i, s, t, hi, hs, hb, hl⟩ | ⟨i, s, t, _, _, _, hl⟩
  · refine ⟨slice.numCtuInSlice, le_refl _, ?_, fun h => absurd h (lt_irrefl _),
      fun k _ => Or.inr (le_refl _)⟩
    intro k hk
    obtain ⟨u, hu⟩ := loopState_of_le env slice debugCTU _ t (k + 1) slice.numCtuInSlice
      (by omega) hl
    obtain ⟨r, hr, hbr⟩ := (loopState_succ_eq_some env slice debugCTU _ u k).1 hu
    exact ⟨r, hr, (ctuBody_next env slice debugCTU k r u hbr).1⟩
  · have hdi := ((ctuBody_stop_iff env slice debugCTU i s t).1 hb).1
    refine ⟨i, by omega, ?_, fun _ => ⟨s, hs, hdi⟩, ?_⟩
    · intro k hk
      obtain ⟨u, hu⟩ := loopState_of_le env slice debugCTU _ s (k + 1) i (by omega) hs
      obtain ⟨r, hr, hbr⟩ := (loopState_succ_eq_some env slice debugCTU _ u k).1 hu
      exact ⟨r, hr, (ctuBody_next env slice debugCTU k r u hbr).1⟩
    · intro k hk
      left
      cases hr : loopState env slice debugCTU s0 k with
      | none => rfl
      | some r =>
        exfalso
        obtain ⟨u, hu⟩ := loopState_of_le env slice debugCTU _ r (i + 1) k (by omega) hr
        obtain ⟨r2, hr2, hb2⟩ := (loopState_succ_eq_some env slice debugCTU _ u i).1 hu
        rw [hs] at hr2
        cases hr2
        rw [hb] at hb2
        cases hb2
  · exact absurd hl (hnf t)

end DebugBreak

section Completion

variable (env : Env Ctx Sub Plt Mv W) (slice : Slice) (debugCTU : Int)

end Completion

section TableIndex

variable (env : Env Ctx Sub Plt Mv W) (slice : Slice) (debugCTU : Int)

theorem initBitstream_mem_syncEvents (i sub idx : Nat) (av : Bool) :
    Event.initBitstream idx ∈ syncEvents slice i sub av ↔ idx = sub := by
  unfold syncEvents resetUnlessFirstEvents
  simp only []
  split
  · split <;> simp
  · split
    · split <;> cases av <;> simp
    · simp

theorem initBitstream_mem_carryOverEvents (i idx : Nat) :
    Event.initBitstream idx ∉ carryOverEvents slice i := by
  unfold carryOverEvents
  simp only []
  split <;> split <;> split <;> simp

theorem initBitstream_mem_parseEvents (i idx : Nat) :
    Event.initBitstream idx ∉ parseEvents slice i := by
  unfold parseEvents
  simp only []
  split <;> simp

theorem initBitstream_mem_terminateEvents (chk : Bool) (i c idx : Nat) :
    Event.initBitstream idx ∉ terminateEvents chk slice i c := by
  unfold terminateEvents
  split
  · split <;> simp
  · simp

/-- The one substream selected in a round is the one at the substream index the round is
entered with. -/
theorem initBitstream_mem_bodyEvents (i idx : Nat) (s : State Ctx Sub Plt Mv W) :
    Event.initBitstream idx ∈ bodyEvents env slice debugCTU i s ↔ idx = s.subStrmId := by
  unfold bodyEvents
  simp only [List.mem_append, initBitstream_mem_syncEvents, initBitstream_mem_carryOverEvents,
    or_false]
  by_cases hd : (ctuGeom slice i).ctuRsAddr = toUnsigned debugCTU
  · simp [hd]
  · simp [hd, initBitstream_mem_parseEvents, initBitstream_mem_terminateEvents]

theorem subStrmIdAt_mono (i n : Nat) (h : i ≤ n) :
    subStrmIdAt slice i ≤ subStrmIdAt slice n := by
  induction n with
  | zero =>
    have : i = 0 := by omega
    rw [this]
  | succ m ih =>
    by_cases hm : i = m + 1
    · rw [hm]
    · have h1 := ih (by omega)
      unfold subStrmIdAt at h1 ⊢
      rw [List.range_succ, List.filter_append, List.length_append]
      omega

/-- The substream index and the table of substreams in the round of the CTU at index `i`. -/
theorem stateAt_table (eng : Engine Ctx Plt Mv W) (sync : Ctx) (i : Nat)
    (s : State Ctx Sub Plt Mv W) (hs : stateAt env slice debugCTU eng sync i = some s) :
    s.subStrmId = subStrmIdAt slice i ∧
      s.ppcSubstreams.length = slice.numberOfSubstreamSizes + 1 := by
  obtain ⟨_, hl⟩ := (stateAt_eq_some_iff env slice debugCTU eng sync i s).1 hs
  constructor
  · rw [loopState_subStrmId env slice debugCTU _ i s hl, sliceEntry_subStrmId]
    unfold subStrmIdAt
    omega
  · have h := ctuLoop_ppcSubstreams env slice debugCTU (sliceEntry env slice eng sync) i
    unfold loopState at hl
    cases hc : ctuLoop env slice debugCTU i 0 (sliceEntry env slice eng sync) with
    | next t =>
      rw [hc] at hl h
      cases hl
      simp only [Step.state] at h
      rw [h, sliceEntry_ppcSubstreams, demultiplex_ppcSubstreams_length]
      rfl
    | stop t =>
      rw [hc] at hl
      cases hl
    | fatal t =>
      rw [hc] at hl
      cases hl

end TableIndex

section ReleaseAll

/-- The substreams released by a call: when it returns, after the loop ran out or was left at
the debug target, each of the `k + 1` substreams of the table, once, in table order; when a
`CHECK` fails, none, the call being abandoned at the `CHECK`. -/
theorem releases_decompressSlice (env : Env Ctx Sub Plt Mv W) (slice : Slice) (debugCTU : Int)
    (eng : Engine Ctx Plt Mv W) (sync : Ctx) :
    ((decompressSlice env slice debugCTU eng sync).isFatal = false →
      releases (decompressSlice env slice debugCTU eng sync).state.trace =
        List.range (slice.numberOfSubstreamSizes + 1)) ∧
    ((decompressSlice env slice debugCTU eng sync).isFatal = true →
      releases (decompressSlice env slice debugCTU eng sync).state.trace = []) := by
  have htr := decompressSlice_trace env slice debugCTU eng sync
  have hrun := releases_eq_nil_of_inLoop _
    (runEvents_inLoop env slice debugCTU (sliceEntry env slice eng sync) slice.numCtuInSlice)
  constructor
  · intro hnf
    have hq : slice.sliceQp ≠ INT_MAX := by
      intro h
      have := (decompressSlice_isFatal env slice debugCTU eng sync).2 (Or.inl h)
      rw [hnf] at this
      cases this
    simp only [hq, if_false, hnf, Bool.false_eq_true] at htr
    rw [htr, releases_append, releases_append, releases_sliceEntry, hrun, releases_deleteEvents]
    rfl
  · intro hf
    simp only [hf, if_true, List.append_nil] at htr
    rw [htr, releases_append, releases_sliceEntry]
    split
    · rfl
    · exact hrun

end ReleaseAll

/-! ## The claims -/

/-- C1. For a slice with `k` declared substream sizes, each of them times 8 below 2^32, a call
of `decompressSlice` extracts `k + 1` substreams from the slice bitstream; the requests are, in
call order, the declared sizes in bits (`size[i] * 8` for `i < k`) and then the number of bits
the bitstream has left after the first `k` extractions. -/
theorem C1_substream_extractions (env : Env Ctx Sub Plt Mv W) (slice : Slice) (debugCTU : Int)
    (eng : Engine Ctx Plt Mv W) (sync : Ctx)
    (hsz : ∀ sz ∈ slice.substreamSizes, sz * 8 < 2 ^ 32) :
    extractRequests (decompressSlice env slice debugCTU eng sync).state.trace =
        slice.substreamSizes.map (· * 8) ++
          [env.getNumBitsLeft (afterExtractions env (slice.substreamSizes.map (· * 8))
            (worldAtExtraction env slice eng.cs.world))] ∧
      (extractRequests (decompressSlice env slice debugCTU eng sync).state.trace).length =
        slice.numberOfSubstreamSizes + 1 := by
  have key : extractRequests (decompressSlice env slice debugCTU eng sync).state.trace =
      slice.substreamSizes.map (· * 8) ++
        [env.getNumBitsLeft (afterExtractions env (slice.substreamSizes.map (· * 8))
          (worldAtExtraction env slice eng.cs.world))] := by
    rw [decompressSlice_trace, sliceEntry_trace, extractRequests_append, extractRequests_append,
      demultiplex_requests env slice hsz]
    have h1 : extractRequests
        [Event.initBitstream 0, Event.initCtxModels, Event.setPrevQP slice.sliceQp] = [] := rfl
    rw [h1]
    split
    · simp [extractRequests]
    · rw [extractRequests_append,
        extractRequests_eq_nil_of_inLoop _ (runEvents_inLoop env slice debugCTU _ _)]
      split
      · simp [extractRequests]
      · simp [extractRequests_deleteEvents]
  refine ⟨key, ?_⟩
  rw [key]
  simp [Slice.numberOfSubstreamSizes]

/-- Witness for C1: the slice of two rows with one declared substream size of 4 bytes, on a
bitstream of 200 bits, asks for 32 bits and then for the 168 bits left. -/
theorem C1_substream_extractions_witness :
    (∀ sz ∈ (rowsSlice true [4]).substreamSizes, sz * 8 < 2 ^ 32) ∧
      extractRequests (decompressSlice (toyEnv 1 true) (rowsSlice true [4]) (-1) toyEngine
        0).state.trace = [32, 168] :=
  ⟨by decide,
    (C1_substream_extractions (toyEnv 1 true) (rowsSlice true [4]) (-1) toyEngine 0
      (by decide)).1.trans (by decide)⟩

/-- C2. In a decode with wavefronts enabled, the CTU list of the slice in tile-raster order and
an available CTU above always being an earlier CTU of the same slice and tile: for a CTU with
slice index `i > 0` at the left edge of its tile that is not the tile origin, if line 222 finds
the CTU above available, the parse starts from the contexts the reader held right after the
parse of the CTU directly above (index `j`, itself at the left edge of the tile); if not, the
parse starts from the contexts `initCtxModels` has just produced for the slice. -/
theorem C2_wavefront_row_start (env : Env Ctx Sub Plt Mv W) (slice : Slice) (debugCTU : Int)
    (eng : Engine Ctx Plt Mv W) (sync : Ctx)
    (hwpp : slice.pps.entropyCodingSyncEnabledFlag = true)
    (horder : TileRasterOrder slice) (htiles : TileIdxConsistent slice)
    (havail : AboveIsEarlier env slice debugCTU eng sync)
    (i : Nat) (s : State Ctx Sub Plt Mv W) (hi0 : 0 < i) (hin : i < slice.numCtuInSlice)
    (hs : stateAt env slice debugCTU eng sync i = some s)
    (hedge : (ctuGeom slice i).atTileLeftEdge = true)
    (horig : (ctuGeom slice i).atTileOrigin = false) :
    (availableAt env slice i s = true →
      ∃ j sj, j < i ∧ IsAbove slice j i ∧ (ctuGeom slice j).atTileLeftEdge = true ∧
        stateAt env slice debugCTU eng sync j = some sj ∧
        (beforeParse env slice i s).eng.ctx = (afterParse env slice j sj).ctx) ∧
    (availableAt env slice i s = false →
      (beforeParse env slice i s).eng.ctx =
        (env.initCtxModels slice (selectBitSource env s).world).1) := by
  have hi : i ≠ 0 := by omega
  have hctx := syncContexts_ctx env slice i s
  simp only [horig, hedge, hwpp, Bool.and_self, if_true, if_false, Bool.false_eq_true] at hctx
  constructor
  · intro hav
    obtain ⟨j, hji, habove⟩ := havail i s hin hs hedge horig hav
    obtain ⟨hq, hl⟩ := (stateAt_eq_some_iff env slice debugCTU eng sync i s).1 hs
    obtain ⟨sj, hsj⟩ := loopState_of_le env slice debugCTU _ s j i (by omega) hl
    have hje := atTileLeftEdge_of_isAbove slice i j habove hedge
    have hsync := sync_of_last_leftEdge env slice debugCTU hwpp _ j sj hsj hje i
      (fun m hjm hmi =>
        not_atTileLeftEdge_between slice horder htiles i j m hjm hmi hin habove hedge)
      i hji (le_refl i) s hl
    refine ⟨j, sj, hji, habove, hje,
      (stateAt_eq_some_iff env slice debugCTU eng sync j sj).2 ⟨hq, hsj⟩, ?_⟩
    rw [beforeParse_ctx, hctx, hav, if_pos rfl, hsync]
  · intro hav
    rw [beforeParse_ctx, hctx, hav]
    simp [hi]

/-- Witness for C2: the second row of the slice of two rows starts from the contexts left by
the parse of the first CTU of the first row. -/
theorem C2_wavefront_row_start_witness :
    TileRasterOrder (rowsSlice true [4]) ∧
      stateAt (toyEnv 1 true) (rowsSlice true [4]) (-1) toyEngine 0 3 = some (rowsStateAt 3) ∧
      availableAt (toyEnv 1 true) (rowsSlice true [4]) 3 (rowsStateAt 3) = true ∧
      (beforeParse (toyEnv 1 true) (rowsSlice true [4]) 3 (rowsStateAt 3)).eng.ctx =
        (afterParse (toyEnv 1 true) (rowsSlice true [4]) 0 (rowsStateAt 0)).ctx ∧
      ((availableAt (toyEnv 1 true) (rowsSlice true [4]) 3 (rowsStateAt 3) = true →
        ∃ j sj, j < 3 ∧ IsAbove (rowsSlice true [4]) j 3 ∧
          (ctuGeom (rowsSlice true [4]) j).atTileLeftEdge = true ∧
          stateAt (toyEnv 1 true) (rowsSlice true [4]) (-1) toyEngine 0 j = some sj ∧
          (beforeParse (toyEnv 1 true) (rowsSlice true [4]) 3 (rowsStateAt 3)).eng.ctx =
            (afterParse (toyEnv 1 true) (rowsSlice true [4]) j sj).ctx) ∧
      (availableAt (toyEnv 1 true) (rowsSlice true [4]) 3 (rowsStateAt 3) = false →
        (beforeParse (toyEnv 1 true) (rowsSlice true [4]) 3 (rowsStateAt 3)).eng.ctx =
          ((toyEnv 1 true).initCtxModels (rowsSlice true [4])
            (selectBitSource (toyEnv 1 true) (rowsStateAt 3)).world).1)) :=
  ⟨by decide, by rfl, by rfl, by decide,
    C2_wavefront_row_start (toyEnv 1 true) (rowsSlice true [4]) (-1) toyEngine 0 (by rfl)
      (by decide) (by decide)
      (fun i _ hi _ hedge horig _ =>
        (by decide : ∀ i, i < 6 → (ctuGeom (rowsSlice true [4]) i).atTileLeftEdge = true →
          (ctuGeom (rowsSlice true [4]) i).atTileOrigin = false →
          ∃ j, j < i ∧ IsAbove (rowsSlice true [4]) j i) i hi hedge horig)
      3 (rowsStateAt 3) (by decide) (by decide) (by rfl) (by rfl) (by rfl)⟩

/-- C3. For the first CTU of a slice, a CTU at a tile origin, and (wavefronts enabled) a CTU at
the left edge of its tile, whose round is reached: the previous-QP pair of the engine state
built for the parse of the CTU is `(sliceQp, sliceQp)`, whatever the parse of the preceding CTU
left; and when the CTU is parsed (it is not the debug target), it is that engine state that
`coding_tree_unit` is called with: the round leaves the contexts and the previous-QP pair that
`coding_tree_unit` returns for it, and the coding-structure fields that `decompressCtu` returns
after it. -/
theorem C3_prevQP_reset (env : Env Ctx Sub Plt Mv W) (slice : Slice) (debugCTU : Int)
    (eng : Engine Ctx Plt Mv W) (sync : Ctx) (i : Nat) (s : State Ctx Sub Plt Mv W)
    (hs : stateAt env slice debugCTU eng sync i = some s)
    (hb : i = 0 ∨ (ctuGeom slice i).atTileOrigin = true ∨
      (slice.pps.entropyCodingSyncEnabledFlag = true ∧
        (ctuGeom slice i).atTileLeftEdge = true)) :
    (beforeParse env slice i s).eng.prevQP = (slice.sliceQp, slice.sliceQp) ∧
    ((ctuGeom slice i).ctuRsAddr ≠ toUnsigned debugCTU →
      (ctuBody env slice debugCTU i s).state.eng.prevQP =
        (env.coding_tree_unit (ctuGeom slice i).ctuArea (ctuGeom slice i).ctuRsAddr
          (beforeParse env slice i s).eng).prevQP ∧
      (ctuBody env slice debugCTU i s).state.eng.ctx =
        (env.coding_tree_unit (ctuGeom slice i).ctuArea (ctuGeom slice i).ctuRsAddr
          (beforeParse env slice i s).eng).ctx ∧
      (ctuBody env slice debugCTU i s).state.eng.cs.ownFields =
        (env.decompressCtu (ctuGeom slice i).ctuArea
          (env.coding_tree_unit (ctuGeom slice i).ctuArea (ctuGeom slice i).ctuRsAddr
            (beforeParse env slice i s).eng).cs).ownFields ∧
      ∀ t, stateAt env slice debugCTU eng sync (i + 1) = some t →
        t.eng.prevQP =
          (env.coding_tree_unit (ctuGeom slice i).ctuArea (ctuGeom slice i).ctuRsAddr
            (beforeParse env slice i s).eng).prevQP) := by
  constructor
  · rw [beforeParse_prevQP, syncContexts_prevQP]
    rcases hb with h0 | ho | ⟨hw, he⟩
    · subst h0
      obtain ⟨_, hl⟩ := (stateAt_eq_some_iff env slice debugCTU eng sync 0 s).1 hs
      rw [loopState_zero] at hl
      cases hl
      rw [sliceEntry_prevQP]
      simp
    · simp [ho]
    · simp [hw, he]
  · intro hd
    have h := ctuBody_parsed_eng env slice debugCTU i s hd
    refine ⟨h.2.1, h.1, h.2.2, ?_⟩
    intro t ht
    exact (stateAt_succ_eng env slice debugCTU eng sync i s t hs ht).2.1

/-- Witness for C3: the parse of the last CTU of the first row left the pair `(34, 35)`
behind; the first CTU of the second row is parsed from `(32, 32)`, from which the toy parser
makes `(32, 33)`. -/
theorem C3_prevQP_reset_witness :
    (rowsStateAt 3).eng.prevQP = (34, 35) ∧
      (beforeParse (toyEnv 1 true) (rowsSlice true [4]) 3 (rowsStateAt 3)).eng.prevQP =
        (32, 32) ∧
      (ctuBody (toyEnv 1 true) (rowsSlice true [4]) (-1) 3 (rowsStateAt 3)).state.eng.prevQP =
        (32, 33) :=
  ⟨by decide,
    (C3_prevQP_reset (toyEnv 1 true) (rowsSlice true [4]) (-1) toyEngine 0 3 (rowsStateAt 3)
      (by rfl) (Or.inr (Or.inr ⟨by rfl, by rfl⟩))).1,
    ((C3_prevQP_reset (toyEnv 1 true) (rowsSlice true [4]) (-1) toyEngine 0 3 (rowsStateAt 3)
      (by rfl) (Or.inr (Or.inr ⟨by rfl, by rfl⟩))).2 (by decide)).1.trans (by decide)⟩

/-- C4. The substream index is 0 when the loop is entered; each round of the loop leaves it as
it is or adds one to it; the index that selects the bit source of the CTU at slice index `i` is
the number of CTUs at indices `j < i` for which the test of lines 294-295 holds; the round of
the last CTU of the slice does not change it; and for a CTU inside the extent of its tile that
test says that the CTU lies in the last column of its tile and (lies in the last row of its
tile or wavefronts are enabled). -/
theorem C4_substream_index (env : Env Ctx Sub Plt Mv W) (slice : Slice) (debugCTU : Int)
    (eng : Engine Ctx Plt Mv W) (sync : Ctx) :
    (∀ s, stateAt env slice debugCTU eng sync 0 = some s → s.subStrmId = 0) ∧
    (∀ i s, stateAt env slice debugCTU eng sync i = some s →
      (ctuBody env slice debugCTU i s).state.subStrmId = s.subStrmId ∨
        (ctuBody env slice debugCTU i s).state.subStrmId = s.subStrmId + 1) ∧
    (∀ i s, i < slice.numCtuInSlice → stateAt env slice debugCTU eng sync i = some s →
      s.subStrmId = ((List.range i).filter (fun j =>
        (ctuGeom slice j).endsSubstream slice.pps.entropyCodingSyncEnabledFlag)).length ∧
      ∃ rest, (ctuBody env slice debugCTU i s).state.trace =
        s.trace ++ Event.initBitstream ((List.range i).filter (fun j =>
          (ctuGeom slice j).endsSubstream slice.pps.entropyCodingSyncEnabledFlag)).length ::
          rest) ∧
    (∀ s, stateAt env slice debugCTU eng sync (slice.numCtuInSlice - 1) = some s →
      (ctuBody env slice debugCTU (slice.numCtuInSlice - 1) s).state.subStrmId =
        s.subStrmId) ∧
    (∀ j, (ctuGeom slice j).ctuXPosInCtus <
        (ctuGeom slice j).tileXPosInCtus + (ctuGeom slice j).tileColWidth →
      (ctuGeom slice j).tileXPosInCtus + (ctuGeom slice j).tileColWidth ≤ 2 ^ 32 →
      (ctuGeom slice j).ctuYPosInCtus <
        (ctuGeom slice j).tileYPosInCtus + (ctuGeom slice j).tileRowHeight →
      (ctuGeom slice j).tileYPosInCtus + (ctuGeom slice j).tileRowHeight ≤ 2 ^ 32 →
      ((ctuGeom slice j).endsSubstream slice.pps.entropyCodingSyncEnabledFlag = true ↔
        (ctuGeom slice j).ctuXPosInCtus + 1 =
            (ctuGeom slice j).tileXPosInCtus + (ctuGeom slice j).tileColWidth ∧
          ((ctuGeom slice j).ctuYPosInCtus + 1 =
              (ctuGeom slice j).tileYPosInCtus + (ctuGeom slice j).tileRowHeight ∨
            slice.pps.entropyCodingSyncEnabledFlag = true))) := by
  refine ⟨?_, ?_, ?_, ?_, fun j => endsSubstream_iff_of_inTile _ _⟩
  · intro s hs
    obtain ⟨_, hl⟩ := (stateAt_eq_some_iff env slice debugCTU eng sync 0 s).1 hs
    rw [loopState_zero] at hl
    cases hl
    rfl
  · intro i s _
    rw [ctuBody_subStrmId]
    split
    · exact Or.inr rfl
    · exact Or.inl rfl
  · intro i s hi hs
    obtain ⟨_, hl⟩ := (stateAt_eq_some_iff env slice debugCTU eng sync i s).1 hs
    have hsub := loopState_subStrmId env slice debugCTU _ i s hl
    rw [sliceEntry_subStrmId, Nat.zero_add, filter_advancesSubstream slice i hi] at hsub
    refine ⟨hsub, ?_⟩
    rw [ctuBody_trace, ← hsub]
    unfold bodyEvents syncEvents
    exact ⟨_, rfl⟩
  · intro s _
    rw [ctuBody_subStrmId, advancesSubstream_last]
    simp

/-- Witness for C4: in the slice of two rows with wavefronts enabled, the CTU at index 3 (the
first of the second row) reads from substream 1. -/
theorem C4_substream_index_witness :
    stateAt (toyEnv 1 true) (rowsSlice true [4]) (-1) toyEngine 0 3 = some (rowsStateAt 3) ∧
      (rowsStateAt 3).subStrmId = 1 :=
  ⟨by rfl,
    ((C4_substream_index (toyEnv 1 true) (rowsSlice true [4]) (-1) toyEngine 0).2.2.1 3
      (rowsStateAt 3) (by decide) (by rfl)).1.trans (by decide)⟩

/-- C5. A call of `decompressSlice` ends in a failed `CHECK` if and only if the slice QP is
`INT_MAX` or a terminating bit it read was 0.  When a terminating-bit `CHECK` fails, the read
of that bit is the last thing the call did: the CTU was parsed and reconstructed, nothing
follows, and the substream index is the one the CTU was entered with. -/
theorem C5_fatal_checks (env : Env Ctx Sub Plt Mv W) (slice : Slice) (debugCTU : Int)
    (eng : Engine Ctx Plt Mv W) (sync : Ctx) :
    ((decompressSlice env slice debugCTU eng sync).isFatal = true ↔
      slice.sliceQp = INT_MAX ∨
        Event.terminating_bit 0 ∈ (decompressSlice env slice debugCTU eng sync).state.trace) ∧
    (slice.sliceQp ≠ INT_MAX →
      (decompressSlice env slice debugCTU eng sync).isFatal = true →
      ∃ i s, i < slice.numCtuInSlice ∧ stateAt env slice debugCTU eng sync i = some s ∧
        (decompressSlice env slice debugCTU eng sync).state.trace =
          (parseAndReconstruct env slice i (beforeParse env slice i s)).trace ++
            [Event.terminating_bit 0] ∧
        (decompressSlice env slice debugCTU eng sync).state.subStrmId = s.subStrmId) := by
  constructor
  · rw [decompressSlice_isFatal]
    by_cases hq : slice.sliceQp = INT_MAX
    · simp [hq]
    · simp only [hq, false_or]
      rw [← terminating_bit_zero_mem_runEvents, decompressSlice_trace, sliceEntry_trace]
      simp only [hq, if_false, List.mem_append]
      constructor
      · intro h
        exact Or.inr (Or.inl h)
      · rintro (h | h | h)
        · rcases h with h | h
          · rcases demultiplex_trace_mem env slice eng sync _ h with h | h | ⟨_, h⟩ <;>
              cases h
          · simp at h
        · exact h
        · split at h
          · simp at h
          · simp [deleteEvents] at h
  · intro hq hf
    rw [decompressSlice_isFatal] at hf
    simp only [hq, false_or] at hf
    obtain ⟨t, ht⟩ := hf
    rcases ctuLoop_cases env slice debugCTU (sliceEntry env slice eng sync)
      slice.numCtuInSlice with ⟨u, hu, _⟩ | ⟨i, s, u, _, _, _, hu⟩ | ⟨i, s, u, hi, hs, hb, hu⟩
    · rw [hu] at ht
      cases ht
    · rw [hu] at ht
      cases ht
    · rw [hu] at ht
      cases ht
      have hstate : (decompressSlice env slice debugCTU eng sync).state = t := by
        unfold decompressSlice
        simp only [sliceEntry_prevQP, hq, if_false, hu, Outcome.state]
      obtain ⟨_, _, hbv, hu2⟩ := (ctuBody_fatal_iff env slice debugCTU i s t).1 hb
      refine ⟨i, s, hi, (stateAt_eq_some_iff env slice debugCTU eng sync i s).2 ⟨hq, hs⟩, ?_, ?_⟩
      · rw [hstate, hu2, readTerminatingBit_trace]
        unfold binValAt at hbv
        rw [hbv]
      · rw [hstate, hu2]
        simp

/-- Witness for C5: with collaborators whose terminating bits are all 0, the decode of the slice
of two rows fails, and the read of a 0 is in its trace. -/
theorem C5_fatal_checks_witness :
    (decompressSlice (toyEnv 0 true) (rowsSlice true [4]) (-1) toyEngine 0).isFatal = true ∧
      Event.terminating_bit 0 ∈
        (decompressSlice (toyEnv 0 true) (rowsSlice true [4]) (-1) toyEngine 0).state.trace :=
  ⟨by rfl,
    ((C5_fatal_checks (toyEnv 0 true) (rowsSlice true [4]) (-1) toyEngine 0).1.1
      (by rfl)).resolve_left (by decide)⟩

/-- C6, as the code has it. For a slice with CTU addresses `c_0 .. c_{n-1}`, each below 2^31,
and a debug target `d` (an `int`), in a call in which no `CHECK` fails: with `j` the least index
with `c_j = d`, or `n` if there is none, the parse, reconstruction and terminating-bit calls are
exactly those of the CTUs at the indices below `j`, in order, each CTU being parsed, then
reconstructed, then followed by the read of a terminating bit when it is the last of the slice
or ends a substream, and in the whole trace every parse is directly followed by the
reconstruction of the same CTU.  The round of every CTU below `j` is reached and leaves the
engine as `coding_tree_unit` and then `decompressCtu` return it for the state built for the
parse.  If `j < n`, the round of the CTU at index `j` is reached and is left by the `break`
before the parse, in the state built for the parse, and no later round is reached: the CTU at
index `j` and the later ones are neither parsed nor reconstructed nor followed by a
terminating-bit read. -/
theorem C6_debug_target_break (env : Env Ctx Sub Plt Mv W) (slice : Slice) (debugCTU : Int)
    (eng : Engine Ctx Plt Mv W) (sync : Ctx)
    (haddr : ∀ c ∈ slice.ctuAddrInSlice, c < 2 ^ 31)
    (hd : -2 ^ 31 ≤ debugCTU ∧ debugCTU < 2 ^ 31)
    (hok : (decompressSlice env slice debugCTU eng sync).isFatal = false) :
    calls (decompressSlice env slice debugCTU eng sync).state.trace =
        expectedCalls slice (debugIndex slice debugCTU) ∧
    parseThenReconstruct (decompressSlice env slice debugCTU eng sync).state.trace = true ∧
    (∀ k, k < debugIndex slice debugCTU →
      ∃ s, stateAt env slice debugCTU eng sync k = some s ∧
        (ctuBody env slice debugCTU k s).state.eng.ctx =
          (env.coding_tree_unit (ctuGeom slice k).ctuArea (ctuGeom slice k).ctuRsAddr
            (beforeParse env slice k s).eng).ctx ∧
        (ctuBody env slice debugCTU k s).state.eng.prevQP =
          (env.coding_tree_unit (ctuGeom slice k).ctuArea (ctuGeom slice k).ctuRsAddr
            (beforeParse env slice k s).eng).prevQP ∧
        (ctuBody env slice debugCTU k s).state.eng.cs.ownFields =
          (env.decompressCtu (ctuGeom slice k).ctuArea
            (env.coding_tree_unit (ctuGeom slice k).ctuArea (ctuGeom slice k).ctuRsAddr
              (beforeParse env slice k s).eng).cs).ownFields) ∧
    (debugIndex slice debugCTU < slice.numCtuInSlice →
      (∃ s, stateAt env slice debugCTU eng sync (debugIndex slice debugCTU) = some s ∧
        ctuBody env slice debugCTU (debugIndex slice debugCTU) s =
          Step.stop (beforeParse env slice (debugIndex slice debugCTU) s)) ∧
      ∀ k, debugIndex slice debugCTU < k → stateAt env slice debugCTU eng sync k = none) := by
  have hnf : ¬ (decompressSlice env slice debugCTU eng sync).isFatal = true := by simp [hok]
  rw [decompressSlice_isFatal] at hnf
  have hq : slice.sliceQp ≠ INT_MAX := fun h => hnf (Or.inl h)
  have htr := decompressSlice_trace env slice debugCTU eng sync
  simp only [hq, if_false, hok, Bool.false_eq_true] at htr
  obtain ⟨j, hjn, hbelow, hat, hafter⟩ := loop_shape env slice debugCTU
    (sliceEntry env slice eng sync) (fun t ht => hnf (Or.inr ⟨t, ht⟩))
  have hidx : debugIndex slice debugCTU = j :=
    debugIndex_eq slice debugCTU haddr hd j hjn (fun k hk => (hbelow k hk).choose_spec.2)
      (fun h => (hat h).choose_spec.2)
  rw [hidx]
  refine ⟨?_, ?_, ?_, ?_⟩
  · rw [htr, calls_append, calls_append, calls_of_no_ctuCall_entry, calls_deleteEvents,
      List.nil_append, List.append_nil,
      calls_runEvents env slice debugCTU _ j slice.numCtuInSlice (fun k hk _ => hbelow k hk)]
    · have : min slice.numCtuInSlice j = j := by omega
      rw [this]
    · intro k r hjk hkn hr
      by_cases hkj : k = j
      · rw [hkj]
        exact (hat (by omega)).choose_spec.2
      · rcases hafter k (by omega) with h | h
        · rw [hr] at h
          cases h
        · omega
  · rw [htr]
    exact parseThenReconstruct_append (sliceEntry env slice eng sync).trace _
      (parseThenReconstruct_of_no_ctuCall _ (sliceEntry_no_ctuCall env slice eng sync))
      (parseThenReconstruct_append
        (runEvents env slice debugCTU (sliceEntry env slice eng sync) slice.numCtuInSlice)
        (deleteEvents (slice.substreamSizes.length + 1))
        (parseThenReconstruct_runEvents env slice debugCTU _ _)
        (parseThenReconstruct_of_no_ctuCall _ (deleteEvents_no_ctuCall _)))
  · intro k hk
    obtain ⟨s, hs, hne⟩ := hbelow k hk
    exact ⟨s, (stateAt_eq_some_iff env slice debugCTU eng sync k s).2 ⟨hq, hs⟩,
      ctuBody_parsed_eng env slice debugCTU k s hne⟩
  · intro hj
    obtain ⟨s, hs, heq⟩ := hat hj
    refine ⟨⟨s, (stateAt_eq_some_iff env slice debugCTU eng sync j s).2 ⟨hq, hs⟩,
      (ctuBody_stop_iff env slice debugCTU j s _).2 ⟨heq, rfl⟩⟩, ?_⟩
    intro k hk
    rcases hafter k hk with h | h
    · unfold stateAt
      rw [h]
      simp
    · omega

/-- Witness for C6: with CTU 4 as debug target, the slice of two rows has its CTUs 0 to 3
parsed and reconstructed, with one terminating bit read at the end of the first row. -/
theorem C6_debug_target_break_witness :
    (decompressSlice (toyEnv 1 true) (rowsSlice true [4]) 4 toyEngine 0).isFatal = false ∧
      calls (decompressSlice (toyEnv 1 true) (rowsSlice true [4]) 4 toyEngine 0).state.trace =
        [Call.parse 0, Call.reconstruct 0, Call.parse 1, Call.reconstruct 1, Call.parse 2,
          Call.reconstruct 2, Call.terminatingBit, Call.parse 3, Call.reconstruct 3] :=
  ⟨by rfl,
    (C6_debug_target_break (toyEnv 1 true) (rowsSlice true [4]) 4 toyEngine 0 (by decide)
      (by decide) (by rfl)).1.trans (by decide)⟩

/-- Counterexample to C6 as stated: a slice of one CTU with raster address 2^32 - 1, decoded
with the debug target -1.  No CTU address equals the target, so `j = n = 1` and the claim has
the CTU parsed and reconstructed; but the comparison of line 255 converts the target to
`unsigned`, 2^32 - 1, the loop is left before the parse, and nothing is parsed. -/
theorem C6_unsigned_compare_counterexample :
    (decompressSlice (toyEnv 1 true) lastAddrSlice (-1) toyEngine 0).isFatal = false ∧
      debugIndex lastAddrSlice (-1) = lastAddrSlice.numCtuInSlice ∧
      calls (decompressSlice (toyEnv 1 true) lastAddrSlice (-1) toyEngine 0).state.trace =
        [] ∧
      ¬ calls (decompressSlice (toyEnv 1 true) lastAddrSlice (-1) toyEngine 0).state.trace =
        expectedCalls lastAddrSlice (debugIndex lastAddrSlice (-1)) :=
  ⟨by rfl, by decide, by decide, by decide⟩

/-- C7. With the availability predicate of line 222 as the spec has it (in the first run it
finds the CTU above available only when that CTU is an earlier CTU of the same slice and tile):
the value the member held before the call never reaches a parse; two calls of
`decompressSlice` on the same slice, debug target, engine state and collaborators that differ
in the value `a` or `c` of `m_entropyCodingSyncContextState` before the call end the same way
(both return or both fail), in states that agree on everything but possibly that member (same
trace of calls, same contexts, previous QP, coding structure), and every CTU that the first run
reaches is reached by the second with the same engine state handed to its parse. -/
theorem C7_saved_contexts_not_inherited (env : Env Ctx Sub Plt Mv W) (slice : Slice)
    (debugCTU : Int) (eng : Engine Ctx Plt Mv W) (a c : Ctx)
    (havail : AvailabilityAsSpecified env slice debugCTU eng a) :
    (decompressSlice env slice debugCTU eng c).isFatal =
        (decompressSlice env slice debugCTU eng a).isFatal ∧
      (decompressSlice env slice debugCTU eng c).state.sameButSync
        (decompressSlice env slice debugCTU eng a).state ∧
      ∀ i s, i < slice.numCtuInSlice → stateAt env slice debugCTU eng a i = some s →
        ∃ t, stateAt env slice debugCTU eng c i = some t ∧
          (beforeParse env slice i t).eng = (beforeParse env slice i s).eng := by
  by_cases hq : slice.sliceQp = INT_MAX
  · refine ⟨?_, ?_, ?_⟩
    · unfold decompressSlice
      simp [sliceEntry_prevQP, hq, Outcome.isFatal]
    · unfold decompressSlice
      simp only [sliceEntry_prevQP, hq, if_true, Outcome.state]
      rw [sliceEntry_withSync env slice eng a c]
      exact sameButSync_withSync _ c
    · intro i s _ hs
      have := (stateAt_eq_some_iff env slice debugCTU eng a i s).1 hs
      exact absurd hq this.1
  · have havail2 : ∀ i s, i < slice.numCtuInSlice →
        loopState env slice debugCTU (sliceEntry env slice eng a) i = some s →
        (ctuGeom slice i).atTileLeftEdge = true → (ctuGeom slice i).atTileOrigin = false →
        availableAt env slice i s = true → ∃ j, j < i ∧ IsAbove slice j i :=
      fun i s hi hs => havail i s hi
        ((stateAt_eq_some_iff env slice debugCTU eng a i s).2 ⟨hq, hs⟩)
    have hloop := ctuLoop_withSync env slice debugCTU (sliceEntry env slice eng a) c havail2
    have hfin := hloop slice.numCtuInSlice (le_refl _)
    rw [← sliceEntry_withSync env slice eng a c] at hfin
    refine ⟨?_, ?_, ?_⟩
    · unfold decompressSlice
      simp only [sliceEntry_prevQP, hq, if_false]
      rcases hfin with h | ⟨h, _⟩
      · rw [h]
      · rw [h]
        cases ctuLoop env slice debugCTU slice.numCtuInSlice 0 (sliceEntry env slice eng a) <;>
          rfl
    · unfold decompressSlice
      simp only [sliceEntry_prevQP, hq, if_false]
      rcases hfin with h | ⟨h, _⟩
      · rw [h]
        exact sameButSync_refl _
      · rw [h]
        cases ctuLoop env slice debugCTU slice.numCtuInSlice 0
            (sliceEntry env slice eng a) with
        | next t =>
          simp only [Step.map, Outcome.state]
          rw [cleanup_withSync]
          exact sameButSync_withSync _ c
        | stop t =>
          simp only [Step.map, Outcome.state]
          rw [cleanup_withSync]
          exact sameButSync_withSync _ c
        | fatal t =>
          simp only [Step.map, Outcome.state]
          exact sameButSync_withSync _ c
    · intro i s hi hs
      obtain ⟨_, hl⟩ := (stateAt_eq_some_iff env slice debugCTU eng a i s).1 hs
      have hli := (loopState_eq_some_iff env slice debugCTU _ s i).1 hl
      have hi' := hloop i (by omega)
      rw [← sliceEntry_withSync env slice eng a c] at hi'
      rcases hi' with h | ⟨h, hno⟩
      · refine ⟨s, (stateAt_eq_some_iff env slice debugCTU eng c i s).2 ⟨hq, ?_⟩, rfl⟩
        rw [loopState_eq_some_iff, h]
        exact hli
      · refine ⟨s.withSync c,
          (stateAt_eq_some_iff env slice debugCTU eng c i _).2 ⟨hq, ?_⟩, ?_⟩
        · rw [loopState_eq_some_iff, h, hli]
          rfl
        · have hr : restoresAt env slice i s = false := by
            cases hres : restoresAt env slice i s with
            | false => rfl
            | true =>
              exfalso
              unfold restoresAt at hres
              simp only [Bool.and_eq_true, Bool.not_eq_true'] at hres
              obtain ⟨⟨horig, hedge, hwpp⟩, hav⟩ := hres
              obtain ⟨j, hj, habove⟩ := havail2 i s hi hl hedge horig hav
              have hje := atTileLeftEdge_of_isAbove slice i j habove hedge
              have := hno s hli j hj
              rw [hje, hwpp] at this
              cases this
          rw [beforeParse_withSync env slice i s c hr]
          rfl

/-- Witness for C7: the slice of two rows, decoded with the member holding 0 and holding 99. -/
theorem C7_saved_contexts_not_inherited_witness :
    (decompressSlice (toyEnv 1 true) (rowsSlice true [4]) (-1) toyEngine 99).state.eng =
        (decompressSlice (toyEnv 1 true) (rowsSlice true [4]) (-1) toyEngine 0).state.eng ∧
      (decompressSlice (toyEnv 1 true) (rowsSlice true [4]) (-1) toyEngine 99).state.trace =
        (decompressSlice (toyEnv 1 true) (rowsSlice true [4]) (-1) toyEngine 0).state.trace :=
  have h := (C7_saved_contexts_not_inherited (toyEnv 1 true) (rowsSlice true [4]) (-1)
    toyEngine 0 99
    (fun i _ hi _ hedge horig _ =>
      (by decide : ∀ i, i < 6 → (ctuGeom (rowsSlice true [4]) i).atTileLeftEdge = true →
        (ctuGeom (rowsSlice true [4]) i).atTileOrigin = false →
        ∃ j, j < i ∧ IsAbove (rowsSlice true [4]) j i) i hi hedge horig)).2.1
  ⟨h.1, h.2.2.2⟩

/-- C8. The code at a failing input: the slice of two rows (wavefronts enabled, one declared
substream size), decoded with a reader whose terminating bits are 0.  Two substreams are
extracted, the `CHECK` of line 304 fails at the terminating bit read after the first row, and
the call is abandoned without releasing either of them: the clean-up of lines 316-319 is not
reached.  The same slice decoded with terminating bits 1, or up to a debug target, has both
substreams released once, in table order. -/
theorem C8_substreams_leak_on_failed_check :
    (decompressSlice (toyEnv 0 true) (rowsSlice true [4]) (-1) toyEngine 0).isFatal = true ∧
      (extractRequests (decompressSlice (toyEnv 0 true) (rowsSlice true [4]) (-1) toyEngine
        0).state.trace).length = 2 ∧
      releases (decompressSlice (toyEnv 0 true) (rowsSlice true [4]) (-1) toyEngine
        0).state.trace = [] ∧
      ¬ releases (decompressSlice (toyEnv 0 true) (rowsSlice true [4]) (-1) toyEngine
        0).state.trace = List.range ((rowsSlice true [4]).numberOfSubstreamSizes + 1) ∧
      releases (decompressSlice (toyEnv 1 true) (rowsSlice true [4]) (-1) toyEngine
        0).state.trace = [0, 1] ∧
      releases (decompressSlice (toyEnv 1 true) (rowsSlice true [4]) 4 toyEngine
        0).state.trace = [0, 1] := by
  decide

/-- C12. For a CTU of the slice that is reached and parsed: the saved contexts
(`m_entropyCodingSyncContextState`) are written in its round if and only if wavefronts are
enabled and the CTU is at the left edge of its tile (tile origins included); when they are
written, the value is the context state of the reader right after the parse of that CTU, and
otherwise the member is left as it was.  In the picture of 3 by 2 CTUs in one tile with
wavefronts enabled, decoded to completion, the contexts are saved exactly twice: after the
parse of CTU 0 (column 0, row 0) and after the parse of CTU 3 (column 0, row 1). -/
theorem C12_snapshot_saved (env : Env Ctx Sub Plt Mv W) (slice : Slice) (debugCTU : Int)
    (eng : Engine Ctx Plt Mv W) (sync : Ctx) (i : Nat) (s : State Ctx Sub Plt Mv W)
    (hi : i < slice.numCtuInSlice)
    (hs : stateAt env slice debugCTU eng sync i = some s)
    (hparsed : (ctuGeom slice i).ctuRsAddr ≠ toUnsigned debugCTU) :
    (∀ e ∈ roundEvents env slice debugCTU i s,
      e ∈ (decompressSlice env slice debugCTU eng sync).state.trace) ∧
    (Event.saveCtx ∈ roundEvents env slice debugCTU i s ↔
      slice.pps.entropyCodingSyncEnabledFlag = true ∧
        (ctuGeom slice i).atTileLeftEdge = true) ∧
    (slice.pps.entropyCodingSyncEnabledFlag = true ∧ (ctuGeom slice i).atTileLeftEdge = true →
      (ctuBody env slice debugCTU i s).state.sync = (afterParse env slice i s).ctx) ∧
    (¬ (slice.pps.entropyCodingSyncEnabledFlag = true ∧
        (ctuGeom slice i).atTileLeftEdge = true) →
      (ctuBody env slice debugCTU i s).state.sync = s.sync) ∧
    (slice.pps = uniformTiles true 3 3 2 1 → slice.ctuAddrInSlice = [0, 1, 2, 3, 4, 5] →
      slice.sliceQp ≠ INT_MAX → (∀ w, (env.terminating_bit w).1 = 1) →
      (∀ c ∈ slice.ctuAddrInSlice, c ≠ toUnsigned debugCTU) →
      (decompressSlice env slice debugCTU eng sync).state.trace.filter Event.isParseOrSave =
        [Event.coding_tree_unit 0, Event.saveCtx, Event.coding_tree_unit 1,
          Event.coding_tree_unit 2, Event.coding_tree_unit 3, Event.saveCtx,
          Event.coding_tree_unit 4, Event.coding_tree_unit 5]) := by
  refine ⟨round_mem_trace env slice debugCTU eng sync i s hi hs, ?_, ?_, ?_, ?_⟩
  · rw [roundEvents_eq, saveCtx_mem_bodyEvents]
    simp [hparsed]
  · rintro ⟨hw, hl⟩
    rw [ctuBody_sync, if_pos ⟨hparsed, by simp [hw, hl]⟩]
  · intro h
    rw [ctuBody_sync, if_neg]
    rintro ⟨_, h2⟩
    simp only [Bool.and_eq_true] at h2
    exact h ⟨h2.2, h2.1⟩
  · intro hpps hctus hq hbit hdebug
    rw [filter_isParseOrSave_decompressSlice env slice debugCTU eng sync hq 1 (by decide) hbit
      (fun i hi => hdebug _ (ctuRsAddr_mem slice i hi)),
      saveSkeleton_congr slice (rowsSlice true []) hpps hctus]
    decide

/-- Witness for C12: the first CTU of the slice of two rows; the value saved after its parse
is the one the toy parser leaves. -/
theorem C12_snapshot_saved_witness :
    stateAt (toyEnv 1 true) (rowsSlice true [4]) (-1) toyEngine 0 0 = some (rowsStateAt 0) ∧
      (ctuBody (toyEnv 1 true) (rowsSlice true [4]) (-1) 0 (rowsStateAt 0)).state.sync = 265 :=
  ⟨by rfl,
    ((C12_snapshot_saved (toyEnv 1 true) (rowsSlice true [4]) (-1) toyEngine 0 0 (rowsStateAt 0)
      (by decide) (by rfl) (by decide)).2.2.1 ⟨rfl, by decide⟩).trans (by decide)⟩

/-- C13, as the code has it. In a round of the loop that is reached (its events are part of
the trace of the decode), the saved contexts are written if and only if the CTU is parsed, wavefronts are enabled and the CTU is at the left edge
of its tile (not: in the last column of its row); they are read (copied into the reader) if and
only if wavefronts are enabled, the CTU is at the left edge of its tile and not the tile origin,
and the availability query of line 222 is answered yes.  No write and no read of the saved
contexts happens outside such a round. -/
theorem C13_snapshot_access (env : Env Ctx Sub Plt Mv W) (slice : Slice) (debugCTU : Int)
    (eng : Engine Ctx Plt Mv W) (sync : Ctx) (i : Nat) (s : State Ctx Sub Plt Mv W)
    (hi : i < slice.numCtuInSlice)
    (hs : stateAt env slice debugCTU eng sync i = some s) :
    (∀ e ∈ roundEvents env slice debugCTU i s,
      e ∈ (decompressSlice env slice debugCTU eng sync).state.trace) ∧
    (Event.saveCtx ∈ roundEvents env slice debugCTU i s ↔
      (ctuGeom slice i).ctuRsAddr ≠ toUnsigned debugCTU ∧
        slice.pps.entropyCodingSyncEnabledFlag = true ∧
        (ctuGeom slice i).atTileLeftEdge = true) ∧
    (Event.restoreCtx ∈ roundEvents env slice debugCTU i s ↔
      slice.pps.entropyCodingSyncEnabledFlag = true ∧
        (ctuGeom slice i).atTileLeftEdge = true ∧
        (ctuGeom slice i).atTileOrigin = false ∧
        availableAt env slice i s = true) ∧
    (∀ e ∈ (decompressSlice env slice debugCTU eng sync).state.trace,
      e = Event.saveCtx ∨ e = Event.restoreCtx →
      ∃ j t, j < slice.numCtuInSlice ∧ stateAt env slice debugCTU eng sync j = some t ∧
        e ∈ roundEvents env slice debugCTU j t) := by
  refine ⟨round_mem_trace env slice debugCTU eng sync i s hi hs, ?_, ?_, ?_⟩
  · rw [roundEvents_eq, saveCtx_mem_bodyEvents]
  · rw [roundEvents_eq, restoreCtx_mem_bodyEvents]
  · intro e he hk
    apply mem_trace_round env slice debugCTU eng sync e _ _ he
    · rcases hk with hk | hk <;> rw [hk] <;> rfl
    · rcases hk with hk | hk <;> rw [hk] <;> simp

/-- Witness for C13: the first CTU of the second row of the slice of two rows, where the saved
contexts are read and then written. -/
theorem C13_snapshot_access_witness :
    stateAt (toyEnv 1 true) (rowsSlice true [4]) (-1) toyEngine 0 3 = some (rowsStateAt 3) ∧
      Event.restoreCtx ∈ roundEvents (toyEnv 1 true) (rowsSlice true [4]) (-1) 3
        (rowsStateAt 3) :=
  ⟨by rfl,
    (C13_snapshot_access (toyEnv 1 true) (rowsSlice true [4]) (-1) toyEngine 0 3 (rowsStateAt 3)
      (by decide) (by rfl)).2.2.1.2 (by decide)⟩

/-- Counterexample to C13 as stated: in the slice of two rows of three CTUs (wavefronts
enabled) the saved contexts are written in the round of CTU 0, which is in the first column,
not in the last column of its row. -/
theorem C13_last_column_counterexample :
    ¬ ∀ i s, i < (rowsSlice true [4]).numCtuInSlice →
      stateAt (toyEnv 1 true) (rowsSlice true [4]) (-1) toyEngine 0 i = some s →
      Event.saveCtx ∈ roundEvents (toyEnv 1 true) (rowsSlice true [4]) (-1) i s →
      (ctuGeom (rowsSlice true [4]) i).ctuXPosInCtus + 1 =
        (ctuGeom (rowsSlice true [4]) i).tileXPosInCtus +
          (ctuGeom (rowsSlice true [4]) i).tileColWidth :=
  fun h => absurd (h 0 (rowsStateAt 0) (by decide) (by rfl) (by decide)) (by decide)

/-- C14. The calls `initCtxModels` and `resetPrevPLT` of a whole slice decode are: one of each
at slice entry (lines 105 and 138), and, for each CTU whose round is reached, the pair
`initCtxModels`, `resetPrevPLT` if the slice index of the CTU is greater than 0 and the CTU is a
tile origin or (wavefronts enabled) at the left edge of its tile, and neither call otherwise; in
particular neither is made in the round of the first CTU of the slice.  The calls have their
effect: the loop is entered with the contexts `initCtxModels` returned and the palette
predictor `resetPrevPLT` returned at slice entry; in a round with the pair of calls the state
built for the parse holds the palette predictor `resetPrevPLT` returns and, unless the saved
contexts are copied over them, the contexts `initCtxModels` returns; in every other round it
holds the palette predictor and, unless the saved contexts are copied, the contexts the round
was entered with; and a CTU that is parsed is parsed from that state. -/
theorem C14_context_and_palette_resets (env : Env Ctx Sub Plt Mv W) (slice : Slice)
    (debugCTU : Int) (eng : Engine Ctx Plt Mv W) (sync : Ctx) :
    (decompressSlice env slice debugCTU eng sync).state.trace.filter Event.isReset =
      [Event.resetPrevPLT, Event.initCtxModels] ++
        (List.range slice.numCtuInSlice).flatMap (fun i =>
          if (stateAt env slice debugCTU eng sync i).isSome && resetsContexts slice i then
            [Event.initCtxModels, Event.resetPrevPLT]
          else []) ∧
    (∀ i s, (roundEvents env slice debugCTU i s).filter Event.isReset =
      if resetsContexts slice i then [Event.initCtxModels, Event.resetPrevPLT] else []) ∧
    (∀ i, resetsContexts slice i = true ↔
      0 < i ∧ ((ctuGeom slice i).atTileOrigin = true ∨
        (slice.pps.entropyCodingSyncEnabledFlag = true ∧
          (ctuGeom slice i).atTileLeftEdge = true))) ∧
    (∀ s, (roundEvents env slice debugCTU 0 s).filter Event.isReset = []) ∧
    (∀ s, stateAt env slice debugCTU eng sync 0 = some s →
      s.eng.ctx =
        (env.initCtxModels slice
          (env.initBitstream ((demultiplex env slice eng sync).ppcSubstreams.get? 0)
            (demultiplex env slice eng sync).world)).1 ∧
      s.eng.cs.prevPLT = env.resetPrevPLT eng.cs.prevPLT) ∧
    (∀ i s, stateAt env slice debugCTU eng sync i = some s →
      (beforeParse env slice i s).eng.cs.prevPLT =
        (if resetsContexts slice i then env.resetPrevPLT s.eng.cs.prevPLT
          else s.eng.cs.prevPLT) ∧
      (Event.restoreCtx ∉ roundEvents env slice debugCTU i s →
        (beforeParse env slice i s).eng.ctx =
          if resetsContexts slice i then
            (env.initCtxModels slice (selectBitSource env s).world).1
          else s.eng.ctx) ∧
      ((ctuGeom slice i).ctuRsAddr ≠ toUnsigned debugCTU →
        (ctuBody env slice debugCTU i s).state.eng.ctx =
          (env.coding_tree_unit (ctuGeom slice i).ctuArea (ctuGeom slice i).ctuRsAddr
            (beforeParse env slice i s).eng).ctx ∧
        (ctuBody env slice debugCTU i s).state.eng.cs.ownFields =
          (env.decompressCtu (ctuGeom slice i).ctuArea
            (env.coding_tree_unit (ctuGeom slice i).ctuArea (ctuGeom slice i).ctuRsAddr
              (beforeParse env slice i s).eng).cs).ownFields)) := by
  refine ⟨?_, ?_, resetsContexts_iff slice, ?_, ?_, ?_⟩
  · rw [decompressSlice_filter env slice debugCTU Event.isReset (fun _ => rfl) rfl
      (fun _ => rfl)]
    congr 1
    apply List.flatMap_congr
    intro i _
    cases hs : stateAt env slice debugCTU eng sync i with
    | none => simp
    | some s =>
      simp only [Option.isSome_some, Bool.true_and]
      rw [roundEvents_eq, filter_isReset_bodyEvents]
  · intro i s
    rw [roundEvents_eq, filter_isReset_bodyEvents]
  · intro s
    rw [roundEvents_eq, filter_isReset_bodyEvents]
    rfl
  · intro s hs
    obtain ⟨_, hl⟩ := (stateAt_eq_some_iff env slice debugCTU eng sync 0 s).1 hs
    rw [loopState_zero] at hl
    cases hl
    exact sliceEntry_reset env slice eng sync
  · intro i s _
    refine ⟨?_, ?_, ?_⟩
    · have hb := beforeParse_ownFields env slice i s
      unfold CodingStructure.ownFields at hb
      simp only [Prod.mk.injEq] at hb
      exact hb.1
    · intro h
      rw [roundEvents_eq, restoreCtx_mem_bodyEvents] at h
      exact beforeParse_ctx_of_not_restored env slice i s h
    · intro hd
      have h := ctuBody_parsed_eng env slice debugCTU i s hd
      exact ⟨h.1, h.2.2⟩

/-- An instance of C14: in the slice of two rows, the round of CTU 3 (the first of the second
row) makes the pair of calls, and the state built for its parse holds the palette predictor
`resetPrevPLT` returns (0 for the toy collaborators). -/
theorem C14_context_and_palette_resets_witness :
    stateAt (toyEnv 1 true) (rowsSlice true [4]) (-1) toyEngine 0 3 = some (rowsStateAt 3) ∧
      resetsContexts (rowsSlice true [4]) 3 = true ∧
      (beforeParse (toyEnv 1 true) (rowsSlice true [4]) 3 (rowsStateAt 3)).eng.cs.prevPLT = 0 :=
  ⟨by rfl, by decide,
    ((C14_context_and_palette_resets (toyEnv 1 true) (rowsSlice true [4]) (-1) toyEngine
      0).2.2.2.2.2 3 (rowsStateAt 3) (by rfl)).1.trans (by decide)⟩

/-- C15. For a CTU whose round is reached: the writes of lines 245-247 are made in the round
(before the parse) if and only if (the slice type is not I or the sequence enables IBC) and the
CTU is at the left edge of its tile; in that case the state handed to the parse has both
history lists empty and the flag `resetIBCBuffer` set; otherwise the state handed to the parse
has the lists and the flag as they were at the head of the round, which for a CTU that is not
the first of the slice is as the reconstruction of the previous CTU left them. -/
theorem C15_motion_history_reset (env : Env Ctx Sub Plt Mv W) (slice : Slice) (debugCTU : Int)
    (eng : Engine Ctx Plt Mv W) (sync : Ctx) (i : Nat) (s : State Ctx Sub Plt Mv W)
    (hi : i < slice.numCtuInSlice)
    (hs : stateAt env slice debugCTU eng sync i = some s) :
    (clearsMotionHistory slice i = true ↔
      (slice.sliceType ≠ SliceType.I_SLICE ∨ slice.sps.ibcFlag = true) ∧
        (ctuGeom slice i).atTileLeftEdge = true) ∧
    (Event.resetMotionLut ∈ roundEvents env slice debugCTU i s ↔
      clearsMotionHistory slice i = true) ∧
    (clearsMotionHistory slice i = true →
      Event.resetMotionLut ∈ (decompressSlice env slice debugCTU eng sync).state.trace ∧
      (beforeParse env slice i s).eng.cs.lut = [] ∧
      (beforeParse env slice i s).eng.cs.lutIbc = [] ∧
      (beforeParse env slice i s).eng.cs.resetIBCBuffer = true) ∧
    (clearsMotionHistory slice i = false →
      (beforeParse env slice i s).eng.cs.lut = s.eng.cs.lut ∧
      (beforeParse env slice i s).eng.cs.lutIbc = s.eng.cs.lutIbc ∧
      (beforeParse env slice i s).eng.cs.resetIBCBuffer = s.eng.cs.resetIBCBuffer) ∧
    (∀ j r, i = j + 1 → stateAt env slice debugCTU eng sync j = some r →
      s.eng.cs.lut =
        (env.decompressCtu (ctuGeom slice j).ctuArea (afterParse env slice j r).cs).lut ∧
      s.eng.cs.lutIbc =
        (env.decompressCtu (ctuGeom slice j).ctuArea (afterParse env slice j r).cs).lutIbc ∧
      s.eng.cs.resetIBCBuffer =
        (env.decompressCtu (ctuGeom slice j).ctuArea
          (afterParse env slice j r).cs).resetIBCBuffer) := by
  have hb := beforeParse_ownFields env slice i s
  unfold CodingStructure.ownFields at hb
  refine ⟨clearsMotionHistory_iff slice i, ?_, ?_, ?_, ?_⟩
  · rw [roundEvents_eq, resetMotionLut_mem_bodyEvents]
  · intro hc
    rw [hc] at hb
    simp only [if_true, Prod.mk.injEq] at hb
    refine ⟨round_mem_trace env slice debugCTU eng sync i s hi hs _ ?_, hb.2⟩
    rw [roundEvents_eq, resetMotionLut_mem_bodyEvents]
    exact hc
  · intro hc
    rw [hc] at hb
    simp only [Bool.false_eq_true, if_false, Prod.mk.injEq] at hb
    exact hb.2
  · intro j r hij hr
    subst hij
    have h := (stateAt_succ_eng env slice debugCTU eng sync j r s hr hs).2.2
    unfold CodingStructure.ownFields at h
    simp only [Prod.mk.injEq] at h
    exact h.2

/-- Witness for C15: the first CTU of the second row of the slice of two rows (a B slice) is
handed an empty history list. -/
theorem C15_motion_history_reset_witness :
    stateAt (toyEnv 1 true) (rowsSlice true [4]) (-1) toyEngine 0 3 = some (rowsStateAt 3) ∧
      (rowsStateAt 3).eng.cs.lut ≠ [] ∧
      (beforeParse (toyEnv 1 true) (rowsSlice true [4]) 3 (rowsStateAt 3)).eng.cs.lut = [] :=
  ⟨by rfl, by decide,
    ((C15_motion_history_reset (toyEnv 1 true) (rowsSlice true [4]) (-1) toyEngine 0 3
      (rowsStateAt 3) (by decide) (by rfl)).2.2.1 (by decide)).2.1⟩

/-- C17, as the code has it. For a CTU (column `x`, row `y`, CTU size `S`) whose round is
reached: if the contexts of the reader are overwritten from the saved contexts in the round,
then wavefronts are enabled, the CTU is at the left edge of its tile and not the tile origin,
and `getCURestricted`, asked in the state of line 222 for the position `pos.offset(0, -1)`,
answered yes; the parse is then handed the saved contexts.  When moreover the first row of the
tile does not exceed `y`, `S ≥ 1` and the products `x*S` and `y*S` are below 2^31 (they fit an
`int`), the queried position is `(x*S, y*S - 1)`, its `y` coordinate is not negative, and it
lies in the CTU at column `x`, row `y - 1`.  If the contexts are not overwritten from the saved
contexts, the parse is handed the contexts initialised in this round (`initCtxModels`) when
the round initialises them, and otherwise those the round was entered with: for the first CTU
the ones initialised at slice entry, for a later CTU the ones the parse of the previous CTU
left.  A CTU that is parsed is parsed from exactly that engine state. -/
theorem C17_restore_only_when_available (env : Env Ctx Sub Plt Mv W) (slice : Slice)
    (debugCTU : Int) (eng : Engine Ctx Plt Mv W) (sync : Ctx) (i : Nat)
    (s : State Ctx Sub Plt Mv W)
    (hs : stateAt env slice debugCTU eng sync i = some s) :
    (Event.restoreCtx ∈ roundEvents env slice debugCTU i s →
      slice.pps.entropyCodingSyncEnabledFlag = true ∧
      (ctuGeom slice i).atTileLeftEdge = true ∧
      (ctuGeom slice i).atTileOrigin = false ∧
      env.getCURestricted ((ctuGeom slice i).posX, (ctuGeom slice i).aboveY)
        ((ctuGeom slice i).posX, (ctuGeom slice i).posY) slice.independentSliceIdx
        (ctuGeom slice i).tileIdx (queryState env slice i s).world = true ∧
      Event.getCURestricted (ctuGeom slice i).posX (ctuGeom slice i).aboveY
        (ctuGeom slice i).posX (ctuGeom slice i).posY slice.independentSliceIdx
        (ctuGeom slice i).tileIdx true ∈ roundEvents env slice debugCTU i s ∧
      (beforeParse env slice i s).eng.ctx = s.sync ∧
      ((ctuGeom slice i).tileYPosInCtus ≤ (ctuGeom slice i).ctuYPosInCtus →
        1 ≤ slice.sps.maxCUWidth →
        (ctuGeom slice i).ctuXPosInCtus * slice.sps.maxCUWidth < 2 ^ 31 →
        (ctuGeom slice i).ctuYPosInCtus * slice.sps.maxCUWidth < 2 ^ 31 →
        1 ≤ (ctuGeom slice i).ctuYPosInCtus ∧
        (ctuGeom slice i).posX =
          (((ctuGeom slice i).ctuXPosInCtus * slice.sps.maxCUWidth : Nat) : Int) ∧
        (ctuGeom slice i).aboveY =
          (((ctuGeom slice i).ctuYPosInCtus * slice.sps.maxCUWidth : Nat) : Int) - 1 ∧
        0 ≤ (ctuGeom slice i).aboveY ∧
        ((((ctuGeom slice i).ctuYPosInCtus - 1) * slice.sps.maxCUWidth : Nat) : Int) ≤
          (ctuGeom slice i).aboveY ∧
        (ctuGeom slice i).aboveY <
          (((ctuGeom slice i).ctuYPosInCtus * slice.sps.maxCUWidth : Nat) : Int) ∧
        (ctuGeom slice i).posX <
          ((((ctuGeom slice i).ctuXPosInCtus + 1) * slice.sps.maxCUWidth : Nat) : Int))) ∧
    (Event.restoreCtx ∉ roundEvents env slice debugCTU i s →
      (beforeParse env slice i s).eng.ctx =
        if resetsContexts slice i then
          (env.initCtxModels slice (selectBitSource env s).world).1
        else s.eng.ctx) ∧
    (i = 0 → s.eng.ctx =
      (env.initCtxModels slice
        (env.initBitstream ((demultiplex env slice eng sync).ppcSubstreams.get? 0)
          (demultiplex env slice eng sync).world)).1) ∧
    (∀ j r, i = j + 1 → stateAt env slice debugCTU eng sync j = some r →
      s.eng.ctx = (afterParse env slice j r).ctx) ∧
    ((ctuGeom slice i).ctuRsAddr ≠ toUnsigned debugCTU →
      (ctuBody env slice debugCTU i s).state.eng.ctx =
        (env.coding_tree_unit (ctuGeom slice i).ctuArea (ctuGeom slice i).ctuRsAddr
          (beforeParse env slice i s).eng).ctx) := by
  refine ⟨?_, ?_, ?_, ?_, ?_⟩
  · intro h
    rw [roundEvents_eq, restoreCtx_mem_bodyEvents] at h
    obtain ⟨hw, hl, ho, hav⟩ := h
    have hlw : ((ctuGeom slice i).atTileLeftEdge &&
        slice.pps.entropyCodingSyncEnabledFlag) = true := by
      rw [hl, hw]
      rfl
    refine ⟨hw, hl, ho, hav, ?_, ?_, query_position slice i hl ho⟩
    · rw [roundEvents_eq]
      unfold bodyEvents
      rw [List.mem_append, List.mem_append]
      left
      left
      rw [hav]
      exact getCURestricted_mem_syncEvents slice i s.subStrmId true ho hlw
    · rw [beforeParse_ctx, syncContexts_ctx, ho, hlw, hav]
      simp
  · intro h
    rw [roundEvents_eq, restoreCtx_mem_bodyEvents] at h
    exact beforeParse_ctx_of_not_restored env slice i s h
  · intro h0
    subst h0
    obtain ⟨_, hl⟩ := (stateAt_eq_some_iff env slice debugCTU eng sync 0 s).1 hs
    rw [loopState_zero] at hl
    cases hl
    exact (sliceEntry_reset env slice eng sync).1
  · intro j r hij hr
    subst hij
    exact (stateAt_succ_eng env slice debugCTU eng sync j r s hr hs).1
  · intro hd
    exact (ctuBody_parsed_eng env slice debugCTU i s hd).1

/-- Witness for C17: the first CTU of the second row of the slice of two rows; the contexts are
overwritten from the saved ones, after a query for the position `(0, 127)`. -/
theorem C17_restore_only_when_available_witness :
    stateAt (toyEnv 1 true) (rowsSlice true [4]) (-1) toyEngine 0 3 = some (rowsStateAt 3) ∧
      Event.restoreCtx ∈ roundEvents (toyEnv 1 true) (rowsSlice true [4]) (-1) 3
        (rowsStateAt 3) ∧
      (ctuGeom (rowsSlice true [4]) 3).posX = 0 ∧
      (ctuGeom (rowsSlice true [4]) 3).aboveY = 127 :=
  ⟨by rfl, by decide,
    (((C17_restore_only_when_available (toyEnv 1 true) (rowsSlice true [4]) (-1) toyEngine 0 3
      (rowsStateAt 3) (by rfl)).1 (by decide)).2.2.2.2.2.2 (by decide) (by decide) (by decide)
      (by decide)).2.1.trans (by decide),
    (((C17_restore_only_when_available (toyEnv 1 true) (rowsSlice true [4]) (-1) toyEngine 0 3
      (rowsStateAt 3) (by rfl)).1 (by decide)).2.2.2.2.2.2 (by decide) (by decide) (by decide)
      (by decide)).2.2.1.trans (by decide)⟩

/-- Counterexample to C17 as stated: in the picture one CTU wide and four CTUs high with a CTU
size of 2^31 samples (one tile, wavefronts enabled), the round of the CTU in row 3 overwrites
the contexts from the saved ones, the first row of the tile (0) does not exceed 3 and the CTU
size is at least 1; but `3 * 2^31` does not fit the `unsigned` product, the position asked for
is `(0, 2147483647)`, not `(0, 3 * 2^31 - 1)`, and it lies in the CTU of row 0 (an earlier CTU
of the same slice and tile), not in the CTU of row 2, which starts at `2 * 2^31`. -/
theorem C17_wrapped_position_counterexample :
    stateAt (toyEnv 1 true) wideCtuSlice (-1) toyEngine 0 3 = some (wideCtuStateAt 3) ∧
      Event.restoreCtx ∈ roundEvents (toyEnv 1 true) wideCtuSlice (-1) 3 (wideCtuStateAt 3) ∧
      (ctuGeom wideCtuSlice 3).tileYPosInCtus ≤ (ctuGeom wideCtuSlice 3).ctuYPosInCtus ∧
      1 ≤ wideCtuSlice.sps.maxCUWidth ∧
      (ctuGeom wideCtuSlice 3).aboveY = 2147483647 ∧
      ¬ (ctuGeom wideCtuSlice 3).aboveY =
        (((ctuGeom wideCtuSlice 3).ctuYPosInCtus * wideCtuSlice.sps.maxCUWidth : Nat) : Int)
          - 1 ∧
      ¬ ((((ctuGeom wideCtuSlice 3).ctuYPosInCtus - 1) * wideCtuSlice.sps.maxCUWidth : Nat)
          : Int) ≤ (ctuGeom wideCtuSlice 3).aboveY :=
  ⟨by rfl, by decide, by decide, by decide, by decide, by decide, by decide⟩

/-- C18, as the code has it. Provided the number of CTUs of the slice after which the substream
index is advanced (the CTUs, other than the last of the slice, for which the test of lines
294-295 holds, in the `unsigned` arithmetic of the code: the end of a tile or, with wavefronts
enabled, of a CTU row of a tile) is at most the number `k` of declared substream sizes: in every
round that is reached the substream index is smaller than the length `k + 1` of the table of
extracted substreams, the lookup `ppcSubstreams[subStrmId]` finds a substream, and every index
that `initBitstream` is called with during the decode is smaller than `k + 1`. -/
theorem C18_substream_index_in_range (env : Env Ctx Sub Plt Mv W) (slice : Slice)
    (debugCTU : Int) (eng : Engine Ctx Plt Mv W) (sync : Ctx)
    (hk : subStrmIdAt slice slice.numCtuInSlice ≤ slice.numberOfSubstreamSizes) :
    (∀ i s, i < slice.numCtuInSlice → stateAt env slice debugCTU eng sync i = some s →
      s.ppcSubstreams.length = slice.numberOfSubstreamSizes + 1 ∧
      s.subStrmId < s.ppcSubstreams.length ∧
      (s.ppcSubstreams.get? s.subStrmId).isSome = true) ∧
    (∀ idx, Event.initBitstream idx ∈
        (decompressSlice env slice debugCTU eng sync).state.trace →
      idx < slice.numberOfSubstreamSizes + 1) := by
  have hround : ∀ i s, i < slice.numCtuInSlice →
      stateAt env slice debugCTU eng sync i = some s →
      s.subStrmId < slice.numberOfSubstreamSizes + 1 := by
    intro i s hi hs
    have h1 := (stateAt_table env slice debugCTU eng sync i s hs).1
    have h2 := subStrmIdAt_mono slice i slice.numCtuInSlice (by omega)
    omega
  constructor
  · intro i s hi hs
    have hlen := (stateAt_table env slice debugCTU eng sync i s hs).2
    have hlt := hround i s hi hs
    refine ⟨hlen, by omega, ?_⟩
    rw [List.get?_eq_getElem?, List.getElem?_eq_getElem (by omega)]
    rfl
  · intro idx he
    by_cases h0 : idx = 0
    · omega
    · obtain ⟨i, s, hi, hs, hm⟩ := mem_trace_round env slice debugCTU eng sync
        (Event.initBitstream idx) rfl (by simp [h0]) he
      rw [roundEvents_eq, initBitstream_mem_bodyEvents] at hm
      rw [hm]
      exact hround i s hi hs

/-- Witness for C18: the slice of two rows with wavefronts enabled and one declared substream
size; the index 1 is used and is in range. -/
theorem C18_substream_index_in_range_witness :
    subStrmIdAt (rowsSlice true [4]) (rowsSlice true [4]).numCtuInSlice ≤
        (rowsSlice true [4]).numberOfSubstreamSizes ∧
      Event.initBitstream 1 ∈
        (decompressSlice (toyEnv 1 true) (rowsSlice true [4]) (-1) toyEngine 0).state.trace ∧
      1 < (rowsSlice true [4]).numberOfSubstreamSizes + 1 :=
  ⟨by decide, by decide,
    (C18_substream_index_in_range (toyEnv 1 true) (rowsSlice true [4]) (-1) toyEngine 0
      (by decide)).2 1 (by decide)⟩

/-- Counterexample to C18 as stated: the slice of two rows with wavefronts enabled and no
declared substream size has a table of one substream, and the CTUs of the second row select
the substream at index 1. -/
theorem C18_out_of_range_counterexample :
    (rowsSlice true []).numberOfSubstreamSizes + 1 = 1 ∧
      ¬ ∀ idx, Event.initBitstream idx ∈
          (decompressSlice (toyEnv 1 true) (rowsSlice true []) (-1) toyEngine 0).state.trace →
        idx < (rowsSlice true []).numberOfSubstreamSizes + 1 :=
  ⟨rfl, fun h => absurd (h 1 (by decide)) (by decide)⟩

/-- C19. For a CTU at slice index `j + 1` that is reached, is not a tile origin and is not
(with wavefronts enabled) at the left edge of its tile: the state handed to its parse has the
contexts and the previous-QP pair exactly as the parse of the CTU at index `j` left them, and
the palette predictor as the reconstruction of that CTU left it. -/
theorem C19_carry_over_frame (env : Env Ctx Sub Plt Mv W) (slice : Slice) (debugCTU : Int)
    (eng : Engine Ctx Plt Mv W) (sync : Ctx) (j : Nat) (r s : State Ctx Sub Plt Mv W)
    (hr : stateAt env slice debugCTU eng sync j = some r)
    (hs : stateAt env slice debugCTU eng sync (j + 1) = some s)
    (horigin : (ctuGeom slice (j + 1)).atTileOrigin = false)
    (hedge : ¬ (slice.pps.entropyCodingSyncEnabledFlag = true ∧
      (ctuGeom slice (j + 1)).atTileLeftEdge = true)) :
    (beforeParse env slice (j + 1) s).eng.ctx = (afterParse env slice j r).ctx ∧
    (beforeParse env slice (j + 1) s).eng.prevQP = (afterParse env slice j r).prevQP ∧
    (beforeParse env slice (j + 1) s).eng.cs.prevPLT =
      (env.decompressCtu (ctuGeom slice j).ctuArea (afterParse env slice j r).cs).prevPLT ∧
    (beforeParse env slice (j + 1) s).eng.cs.prevPLT = s.eng.cs.prevPLT := by
  have h := stateAt_succ_eng env slice debugCTU eng sync j r s hr hs
  have hw : ((ctuGeom slice (j + 1)).atTileLeftEdge &&
      slice.pps.entropyCodingSyncEnabledFlag) = false := by
    rw [Bool.and_eq_false_iff]
    by_cases hl : (ctuGeom slice (j + 1)).atTileLeftEdge = true
    · right
      by_contra hw
      exact hedge ⟨by simpa using hw, hl⟩
    · left
      simpa using hl
  have hres : resetsContexts slice (j + 1) = false := by
    unfold resetsContexts
    rw [horigin, hw]
    rfl
  have hb := beforeParse_ownFields env slice (j + 1) s
  have h3 := h.2.2
  unfold CodingStructure.ownFields at hb h3
  rw [hres] at hb
  simp only [Bool.false_eq_true, if_false, Prod.mk.injEq] at hb h3
  refine ⟨?_, ?_, hb.1.trans h3.1, hb.1⟩
  · rw [beforeParse_ctx, syncContexts_ctx, horigin, hw]
    simpa using h.1
  · rw [beforeParse_prevQP, syncContexts_prevQP, horigin, hw]
    simpa using h.2.1

/-- Witness for C19: the second CTU of the slice of two rows is handed the contexts and the
previous-QP pair the parse of the first CTU left. -/
theorem C19_carry_over_frame_witness :
    stateAt (toyEnv 1 true) (rowsSlice true [4]) (-1) toyEngine 0 0 = some (rowsStateAt 0) ∧
      stateAt (toyEnv 1 true) (rowsSlice true [4]) (-1) toyEngine 0 1 = some (rowsStateAt 1) ∧
      (beforeParse (toyEnv 1 true) (rowsSlice true [4]) 1 (rowsStateAt 1)).eng.ctx = 265 ∧
      (beforeParse (toyEnv 1 true) (rowsSlice true [4]) 1 (rowsStateAt 1)).eng.prevQP =
        (32, 33) :=
  ⟨by rfl, by rfl,
    (C19_carry_over_frame (toyEnv 1 true) (rowsSlice true [4]) (-1) toyEngine 0 0
      (rowsStateAt 0) (rowsStateAt 1) (by rfl) (by rfl) (by decide) (by decide)).1.trans
      (by decide),
    (C19_carry_over_frame (toyEnv 1 true) (rowsSlice true [4]) (-1) toyEngine 0 0
      (rowsStateAt 0) (rowsStateAt 1) (by rfl) (by rfl) (by decide) (by decide)).2.1.trans
      (by decide)⟩

end DecSlice
